import Mathlib

/-!
# gowool/settings: cache-decorated repositories and the configuration services

A shallow embedding of `namespace.go`, `preference.go`, `repository.go` and
`service.go`.

* Go interfaces (`NamespaceRepository`, `PreferenceRepository`, `Cache`,
  `Configurer`, `Service`) are records of state-passing functions over a world
  made of the collaborators' state and a log of the collaborator calls made.
* The collaborators themselves are arbitrary handlers (`Env`): every outcome a
  repository, cache or configurer can produce is a value of a handler.
* `encoding/json` is taken as a parameter (`Codec`).
* A `(value, error)` result of a repository or cache lookup is an `Except`; an
  `error` result is an `Option GoError` (`none` is Go's `nil`).
* `context.Context` carries no data the code reads and is omitted; panics are
  not modelled, so a deferred call is the call made after the function body.
* Records handed to a collaborator are values: a collaborator does not change
  the record it is given.
-/

namespace Settings

/-! ## Errors -/

/-- Go error values: an error produced by a collaborator, or an error made by
`fmt.Errorf` with the verb `%w`, which keeps its cause. -/
inductive GoError where
  | leaf (msg : String)
  | wrapped (msg : String) (cause : GoError)
deriving DecidableEq, Repr

/-- The method `Error()` of an error value: its message. -/
def GoError.Error : GoError → String
  | .leaf msg => msg
  | .wrapped msg _ => msg

/-- The call `fmt.Errorf(pre + "%w", err)`: the message is `pre` followed by
the message of `err`, and `err` is kept as the cause. -/
def Errorf (pre : String) (err : GoError) : GoError :=
  .wrapped (pre ++ err.Error) err

/-- The call `errors.Is(err, target)`: `target` occurs in the unwrap chain. -/
def GoError.Is : GoError → GoError → Bool
  | .leaf msg, target => decide (GoError.leaf msg = target)
  | .wrapped msg cause, target =>
      decide (GoError.wrapped msg cause = target) || cause.Is target

deriving instance DecidableEq for Except

/-! ## Entities (`namespace.go`, `preference.go`) -/

/-- The type `json.RawMessage`: the bytes of a JSON text. -/
abbrev RawMessage := String

/-- The struct `Namespace`; `Created` is a `time.Time`, `0` its zero value. -/
structure Namespace where
  Name : String
  Created : Nat := 0
deriving DecidableEq, Repr

/-- The struct `Preference`. -/
structure Preference where
  Namespace : String
  Key : String
  Value : RawMessage := ""
  Created : Nat := 0
  Updated : Nat := 0
deriving DecidableEq, Repr

/-- The part of `encoding/json` the package uses, over the Go values `Val`
that are passed as `any`.

* `Marshal i` is `json.Marshal(i)`: the bytes and the error.
* `Decode raw i` is `Decode` of a decoder with `UseNumber()` over `raw` into a
  target holding `i`: what the target holds afterwards, and the error.
* `DecodeString raw s` is the same for a target of type `*string`.
* `ofString s` is the string `s` passed as `any`. -/
structure Codec (Val : Type) where
  Marshal : Val → RawMessage × Option GoError
  Decode : RawMessage → Val → Val × Option GoError
  DecodeString : RawMessage → String → String × Option GoError
  ofString : String → Val

/-- The method `LoadValue` with a target holding `i`. -/
def Preference.LoadValue {Val : Type} (codec : Codec Val) (p : Preference) (i : Val) :
    Val × Option GoError :=
  codec.Decode p.Value i

/-- The method `LoadValue` with a target of type `*string` holding `s`. -/
def Preference.LoadValueString {Val : Type} (codec : Codec Val) (p : Preference)
    (s : String) : String × Option GoError :=
  codec.DecodeString p.Value s

/-- The method `SetValue`: `p.Value, err = json.Marshal(i)`. The preference
after the assignment, and the error. -/
def Preference.SetValue {Val : Type} (codec : Codec Val) (p : Preference) (i : Val) :
    Preference × Option GoError :=
  ({ p with Value := (codec.Marshal i).1 }, (codec.Marshal i).2)

/-! ## Worlds, calls and the state-passing monad -/

/-- What the package stores in the cache: a `*Namespace` or a `*Preference`. -/
inductive CacheVal where
  | ns (n : Namespace)
  | pref (p : Preference)
deriving DecidableEq, Repr

/-- A call to a collaborator, with its arguments. -/
inductive Event where
  | nsFindByName (name : String)
  | nsDeleteByName (name : String)
  | nsSave (n : Namespace)
  | prefFindByNsAndKey (ns key : String)
  | prefDeleteByNsAndKey (ns key : String)
  | prefSave (p : Preference)
  | cacheSet (key : String) (value : CacheVal) (tags : List String)
  | cacheGet (key : String)
  | cacheDelByKey (key : String)
  | cacheDelByTag (tag : String)
  | cfgUnmarshalKey (name : String)
  | cfgHas (name : String)
deriving DecidableEq, Repr

/-- The state `st` of the collaborators and the calls made so far, oldest
first. -/
structure World (σ : Type) where
  st : σ
  log : List Event

/-- A computation over a world. -/
def M (σ α : Type) : Type := World σ → α × World σ

instance (σ : Type) : Monad (M σ) where
  pure a := fun w => (a, w)
  bind m f := fun w => f (m w).1 (m w).2

/-- One call to a collaborator: the call is logged, the handler `h` gives the
outcome and the next state. -/
def call {σ α : Type} (e : Event) (h : σ → α × σ) : M σ α :=
  fun w => ((h w.st).1, { st := (h w.st).2, log := w.log ++ [e] })

/-! ## Interfaces (`repository.go`, `service.go`) -/

/-- The interface `NamespaceRepository`. -/
structure NamespaceRepository (σ : Type) where
  FindByName : String → M σ (Except GoError Namespace)
  DeleteByName : String → M σ (Option GoError)
  Save : Namespace → M σ (Option GoError)

/-- The interface `PreferenceRepository`. -/
structure PreferenceRepository (σ : Type) where
  FindByNsAndKey : String → String → M σ (Except GoError Preference)
  DeleteByNsAndKey : String → String → M σ (Option GoError)
  Save : Preference → M σ (Option GoError)

/-- The interface `Cache`. `Get` is given per type of the target the package
passes: `GetNamespace` for a `**Namespace`, `GetPreference` for a
`**Preference`. -/
structure Cache (σ : Type) where
  Set : String → CacheVal → List String → M σ (Option GoError)
  GetNamespace : String → M σ (Except GoError Namespace)
  GetPreference : String → M σ (Except GoError Preference)
  DelByKey : String → M σ (Option GoError)
  DelByTag : String → M σ (Option GoError)

/-- The interface `Configurer`. `UnmarshalKey name out` is given per type of
`out`: a target holding a `Val`, or a `*string`. The result is what the target
holds afterwards, and the error. -/
structure Configurer (σ Val : Type) where
  UnmarshalKey : String → Val → M σ (Val × Option GoError)
  UnmarshalKeyString : String → String → M σ (String × Option GoError)
  Has : String → M σ Bool

/-- The interface `Service`. The operations with a `config any` that is
written (`LoadConfig`, `LoadConfigByNamespace`) take what the target holds and
give what it holds afterwards, with the error. -/
structure Service (σ Val : Type) where
  GetNamespaceValue : String → M σ (String × Option GoError)
  SetNamespaceValue : String → String → M σ (Option GoError)
  RemoveNamespaceValue : String → M σ (Option GoError)
  LoadConfigByNamespace : String → Val → M σ (Val × Option GoError)
  SaveConfigByNamespace : String → Val → M σ (Option GoError)
  RemoveConfigByNamespace : String → M σ (Option GoError)
  LoadConfig : String → Val → M σ (Val × Option GoError)
  SaveConfig : String → Val → M σ (Option GoError)
  RemoveConfig : String → M σ (Option GoError)

/-- The collaborators handed to `NewService`, as handlers: each takes the
arguments of the call and the state, and gives the outcome and the next
state. -/
structure Env (σ Val : Type) where
  nsFindByName : String → σ → Except GoError Namespace × σ
  nsDeleteByName : String → σ → Option GoError × σ
  nsSave : Namespace → σ → Option GoError × σ
  prefFindByNsAndKey : String → String → σ → Except GoError Preference × σ
  prefDeleteByNsAndKey : String → String → σ → Option GoError × σ
  prefSave : Preference → σ → Option GoError × σ
  cacheSet : String → CacheVal → List String → σ → Option GoError × σ
  cacheGetNamespace : String → σ → Except GoError Namespace × σ
  cacheGetPreference : String → σ → Except GoError Preference × σ
  cacheDelByKey : String → σ → Option GoError × σ
  cacheDelByTag : String → σ → Option GoError × σ
  cfgUnmarshalKey : String → Val → σ → (Val × Option GoError) × σ
  cfgUnmarshalKeyString : String → String → σ → (String × Option GoError) × σ
  cfgHas : String → σ → Bool × σ

/-- The namespace repository of an environment. -/
def Env.nsRepo {σ Val : Type} (env : Env σ Val) : NamespaceRepository σ where
  FindByName name := call (.nsFindByName name) (env.nsFindByName name)
  DeleteByName name := call (.nsDeleteByName name) (env.nsDeleteByName name)
  Save n := call (.nsSave n) (env.nsSave n)

/-- The preference repository of an environment. -/
def Env.prefRepo {σ Val : Type} (env : Env σ Val) : PreferenceRepository σ where
  FindByNsAndKey ns key := call (.prefFindByNsAndKey ns key) (env.prefFindByNsAndKey ns key)
  DeleteByNsAndKey ns key :=
    call (.prefDeleteByNsAndKey ns key) (env.prefDeleteByNsAndKey ns key)
  Save p := call (.prefSave p) (env.prefSave p)

/-- The cache of an environment. -/
def Env.cache {σ Val : Type} (env : Env σ Val) : Cache σ where
  Set key value tags := call (.cacheSet key value tags) (env.cacheSet key value tags)
  GetNamespace key := call (.cacheGet key) (env.cacheGetNamespace key)
  GetPreference key := call (.cacheGet key) (env.cacheGetPreference key)
  DelByKey key := call (.cacheDelByKey key) (env.cacheDelByKey key)
  DelByTag tag := call (.cacheDelByTag tag) (env.cacheDelByTag tag)

/-- The configurer of an environment. -/
def Env.configurer {σ Val : Type} (env : Env σ Val) : Configurer σ Val where
  UnmarshalKey name out := call (.cfgUnmarshalKey name) (env.cfgUnmarshalKey name out)
  UnmarshalKeyString name out :=
    call (.cfgUnmarshalKey name) (env.cfgUnmarshalKeyString name out)
  Has name := call (.cfgHas name) (env.cfgHas name)

/-! ## Cache-decorating repositories (`repository.go`) -/

/-- The struct `CacheNamespaceRepository`. -/
structure CacheNamespaceRepository (σ : Type) where
  NamespaceRepository : NamespaceRepository σ
  Cache : Cache σ

/-- The struct `CachePreferenceRepository`. -/
structure CachePreferenceRepository (σ : Type) where
  PreferenceRepository : PreferenceRepository σ
  Cache : Cache σ

/-- The method `CacheNamespaceRepository.FindByName`. -/
def CacheNamespaceRepository.FindByName {σ : Type} (r : CacheNamespaceRepository σ)
    (name : String) : M σ (Except GoError Namespace) := do
  let key := "settings:ns:name:" ++ name
  match ← r.Cache.GetNamespace key with
  | .ok cached => return .ok cached
  | .error _ =>
    match ← r.NamespaceRepository.FindByName name with
    | .error err => return .error err
    | .ok found =>
      let _ ← r.Cache.Set key (.ns found) ["settings:ns:tag:" ++ name]
      return .ok found

/-- The method `CacheNamespaceRepository.del`. -/
def CacheNamespaceRepository.del {σ : Type} (r : CacheNamespaceRepository σ)
    (name : String) : M σ Unit := do
  let _ ← r.Cache.DelByTag ("settings:ns:tag:" ++ name)
  return ()

/-- The method `CacheNamespaceRepository.DeleteByName`: the deferred `del`
runs after the inner call, whose result is returned. -/
def CacheNamespaceRepository.DeleteByName {σ : Type} (r : CacheNamespaceRepository σ)
    (name : String) : M σ (Option GoError) := do
  let res ← r.NamespaceRepository.DeleteByName name
  r.del name
  return res

/-- The method `CacheNamespaceRepository.Save`. -/
def CacheNamespaceRepository.Save {σ : Type} (r : CacheNamespaceRepository σ)
    (n : Namespace) : M σ (Option GoError) := do
  let res ← r.NamespaceRepository.Save n
  r.del n.Name
  return res

/-- The value `CacheNamespaceRepository` used as a `NamespaceRepository`. -/
def CacheNamespaceRepository.toRepo {σ : Type} (r : CacheNamespaceRepository σ) :
    Settings.NamespaceRepository σ where
  FindByName := r.FindByName
  DeleteByName := r.DeleteByName
  Save := r.Save

/-- The method `CachePreferenceRepository.FindByNsAndKey`. -/
def CachePreferenceRepository.FindByNsAndKey {σ : Type} (r : CachePreferenceRepository σ)
    (ns key : String) : M σ (Except GoError Preference) := do
  let k := "settings:pref:ns:key:" ++ ns ++ ":" ++ key
  match ← r.Cache.GetPreference k with
  | .ok cached => return .ok cached
  | .error _ =>
    match ← r.PreferenceRepository.FindByNsAndKey ns key with
    | .error err => return .error err
    | .ok found =>
      let _ ← r.Cache.Set k (.pref found) ["settings:pref:tag:" ++ ns ++ ":" ++ key]
      return .ok found

/-- The method `CachePreferenceRepository.del`. -/
def CachePreferenceRepository.del {σ : Type} (r : CachePreferenceRepository σ)
    (ns key : String) : M σ Unit := do
  let _ ← r.Cache.DelByTag ("settings:pref:tag:" ++ ns ++ ":" ++ key)
  return ()

/-- The method `CachePreferenceRepository.DeleteByNsAndKey`. -/
def CachePreferenceRepository.DeleteByNsAndKey {σ : Type} (r : CachePreferenceRepository σ)
    (ns key : String) : M σ (Option GoError) := do
  let res ← r.PreferenceRepository.DeleteByNsAndKey ns key
  r.del ns key
  return res

/-- The method `CachePreferenceRepository.Save`. -/
def CachePreferenceRepository.Save {σ : Type} (r : CachePreferenceRepository σ)
    (p : Preference) : M σ (Option GoError) := do
  let res ← r.PreferenceRepository.Save p
  r.del p.Namespace p.Key
  return res

/-- The value `CachePreferenceRepository` used as a `PreferenceRepository`. -/
def CachePreferenceRepository.toRepo {σ : Type} (r : CachePreferenceRepository σ) :
    Settings.PreferenceRepository σ where
  FindByNsAndKey := r.FindByNsAndKey
  DeleteByNsAndKey := r.DeleteByNsAndKey
  Save := r.Save

/-! ## The core service `Loader` (`service.go`) -/

/-- The constant `namespaceSystem`. -/
def namespaceSystem : String := "system"

/-- The constant `keyConfiguration`. -/
def keyConfiguration : String := "configuration"

/-- The struct `Loader`. -/
structure Loader (σ : Type) where
  NsRepo : NamespaceRepository σ
  PrefRepo : PreferenceRepository σ

/-- The method `Loader.getSystemValueByKey`. -/
def Loader.getSystemValueByKey {σ : Type} (s : Loader σ) (key : String) :
    M σ (Except GoError Preference) := do
  match ← s.PrefRepo.FindByNsAndKey namespaceSystem key with
  | .error err => return .error (Errorf ("system preference `" ++ key ++ "` not found: ") err)
  | .ok pref => return .ok pref

/-- The method `Loader.getConfiguration`. -/
def Loader.getConfiguration {σ : Type} (s : Loader σ) (ns : String) :
    M σ (Except GoError Preference) := do
  match ← s.PrefRepo.FindByNsAndKey ns keyConfiguration with
  | .error err =>
    return .error (Errorf ("configuration preference `" ++ ns ++ "` not found: ") err)
  | .ok pref => return .ok pref

/-- The method `Loader.getSystemValue`. -/
def Loader.getSystemValue {σ Val : Type} (codec : Codec Val) (s : Loader σ) (key : String) :
    M σ (String × Option GoError) := do
  match ← s.getSystemValueByKey key with
  | .error err => return ("", some err)
  | .ok pref =>
    match pref.LoadValueString codec "" with
    | (_, some err) =>
      return ("", some (Errorf ("namespace of system preference `" ++ key ++ "` not found: ") err))
    | (value, none) => return (value, none)

/-- The method `Loader.saveConfig`. -/
def Loader.saveConfig {σ Val : Type} (codec : Codec Val) (s : Loader σ) (ns key : String)
    (config : Val) : M σ (Option GoError) := do
  match ← s.NsRepo.Save { Name := ns } with
  | some err => return some err
  | none =>
    match Preference.SetValue codec { Namespace := ns, Key := key } config with
    | (_, some err) => return some err
    | (pref, none) => s.PrefRepo.Save pref

/-- The method `Loader.GetNamespaceValue`. -/
def Loader.GetNamespaceValue {σ Val : Type} (codec : Codec Val) (s : Loader σ)
    (ns : String) : M σ (String × Option GoError) :=
  s.getSystemValue codec ns

/-- The method `Loader.SetNamespaceValue`. -/
def Loader.SetNamespaceValue {σ Val : Type} (codec : Codec Val) (s : Loader σ)
    (ns value : String) : M σ (Option GoError) :=
  s.saveConfig codec namespaceSystem ns (codec.ofString value)

/-- The method `Loader.RemoveNamespaceValue`. -/
def Loader.RemoveNamespaceValue {σ : Type} (s : Loader σ) (ns : String) :
    M σ (Option GoError) :=
  s.PrefRepo.DeleteByNsAndKey namespaceSystem ns

/-- The method `Loader.LoadConfig`. -/
def Loader.LoadConfig {σ Val : Type} (codec : Codec Val) (s : Loader σ) (ns : String)
    (config : Val) : M σ (Val × Option GoError) := do
  match ← s.NsRepo.FindByName ns with
  | .error err => return (config, some (Errorf ("namespace `" ++ ns ++ "` not found: ") err))
  | .ok _ =>
    match ← s.getConfiguration ns with
    | .error err => return (config, some err)
    | .ok pref => return pref.LoadValue codec config

/-- The method `Loader.SaveConfig`. -/
def Loader.SaveConfig {σ Val : Type} (codec : Codec Val) (s : Loader σ) (ns : String)
    (config : Val) : M σ (Option GoError) :=
  s.saveConfig codec ns keyConfiguration config

/-- The method `Loader.RemoveConfig`. -/
def Loader.RemoveConfig {σ : Type} (s : Loader σ) (ns : String) : M σ (Option GoError) := do
  match ← s.PrefRepo.DeleteByNsAndKey ns keyConfiguration with
  | some err => return some err
  | none => s.NsRepo.DeleteByName ns

/-- The method `Loader.LoadConfigByNamespace`. -/
def Loader.LoadConfigByNamespace {σ Val : Type} (codec : Codec Val) (s : Loader σ)
    (ns : String) (config : Val) : M σ (Val × Option GoError) := do
  match ← s.GetNamespaceValue codec ns with
  | (_, some err) => return (config, some err)
  | (value, none) => s.LoadConfig codec value config

/-- The method `Loader.SaveConfigByNamespace`. -/
def Loader.SaveConfigByNamespace {σ Val : Type} (codec : Codec Val) (s : Loader σ)
    (ns : String) (config : Val) : M σ (Option GoError) := do
  match ← s.GetNamespaceValue codec ns with
  | (_, some err) => return some err
  | (value, none) => s.SaveConfig codec value config

/-- The method `Loader.RemoveConfigByNamespace`. -/
def Loader.RemoveConfigByNamespace {σ Val : Type} (codec : Codec Val) (s : Loader σ)
    (ns : String) : M σ (Option GoError) := do
  match ← s.GetNamespaceValue codec ns with
  | (_, some err) => return some err
  | (value, none) => s.RemoveConfig value

/-- The value `Loader` used as a `Service`. -/
def Loader.toService {σ Val : Type} (codec : Codec Val) (s : Loader σ) : Service σ Val where
  GetNamespaceValue := s.GetNamespaceValue codec
  SetNamespaceValue := s.SetNamespaceValue codec
  RemoveNamespaceValue := s.RemoveNamespaceValue
  LoadConfigByNamespace := s.LoadConfigByNamespace codec
  SaveConfigByNamespace := s.SaveConfigByNamespace codec
  RemoveConfigByNamespace := s.RemoveConfigByNamespace codec
  LoadConfig := s.LoadConfig codec
  SaveConfig := s.SaveConfig codec
  RemoveConfig := s.RemoveConfig

/-! ## The configurer fallback `ConfigurerLoader` (`service.go`) -/

/-- The struct `ConfigurerLoader`. -/
structure ConfigurerLoader (σ Val : Type) where
  Service : Service σ Val
  Cache : Cache σ
  Configurer : Configurer σ Val

/-- The method `ConfigurerLoader.GetNamespaceValue`. -/
def ConfigurerLoader.GetNamespaceValue {σ Val : Type} (codec : Codec Val)
    (s : ConfigurerLoader σ Val) (ns : String) : M σ (String × Option GoError) := do
  match ← s.Service.GetNamespaceValue ns with
  | (value, none) => return (value, none)
  | (value, some err) =>
    if !(← s.Configurer.Has ns) then
      return (value, some err)
    else
      match ← s.Configurer.UnmarshalKeyString ns value with
      | (value, some err) => return (value, some err)
      | (value, none) =>
        match Preference.SetValue codec { Namespace := namespaceSystem, Key := ns }
            (codec.ofString value) with
        | (_, some _) => return (value, none)
        | (pref, none) =>
          let k := "settings:pref:ns:key:" ++ pref.Namespace ++ ":" ++ pref.Key
          let t := "settings:pref:tag:" ++ pref.Namespace ++ ":" ++ pref.Key
          let _ ← s.Cache.Set k (.pref pref) [t]
          return (value, none)

/-- The method `ConfigurerLoader.LoadConfig`. -/
def ConfigurerLoader.LoadConfig {σ Val : Type} (codec : Codec Val)
    (s : ConfigurerLoader σ Val) (ns : String) (config : Val) :
    M σ (Val × Option GoError) := do
  match ← s.Service.LoadConfig ns config with
  | (config, none) => return (config, none)
  | (config, some err) =>
    if !(← s.Configurer.Has ns) then
      return (config, some err)
    else
      match ← s.Configurer.UnmarshalKey ns config with
      | (config, some err) => return (config, some err)
      | (config, none) =>
        match Preference.SetValue codec { Namespace := ns, Key := keyConfiguration }
            config with
        | (_, some _) => return (config, none)
        | (pref, none) =>
          let nk := "settings:ns:name:" ++ ns
          let nt := "settings:ns:tag:" ++ ns
          let _ ← s.Cache.Set nk (.ns { Name := ns }) [nt]
          let k := "settings:pref:ns:key:" ++ pref.Namespace ++ ":" ++ pref.Key
          let t := "settings:pref:tag:" ++ pref.Namespace ++ ":" ++ pref.Key
          let _ ← s.Cache.Set k (.pref pref) [t]
          return (config, none)

/-- The method `ConfigurerLoader.LoadConfigByNamespace`. -/
def ConfigurerLoader.LoadConfigByNamespace {σ Val : Type} (codec : Codec Val)
    (s : ConfigurerLoader σ Val) (ns : String) (config : Val) :
    M σ (Val × Option GoError) := do
  match ← s.GetNamespaceValue codec ns with
  | (_, some err) => return (config, some err)
  | (value, none) => s.LoadConfig codec value config

/-- The value `ConfigurerLoader` used as a `Service`: the three methods it
defines, and the six promoted from the embedded `Service`. -/
def ConfigurerLoader.toService {σ Val : Type} (codec : Codec Val)
    (s : ConfigurerLoader σ Val) : Settings.Service σ Val where
  GetNamespaceValue := s.GetNamespaceValue codec
  SetNamespaceValue := s.Service.SetNamespaceValue
  RemoveNamespaceValue := s.Service.RemoveNamespaceValue
  LoadConfigByNamespace := s.LoadConfigByNamespace codec
  SaveConfigByNamespace := s.Service.SaveConfigByNamespace
  RemoveConfigByNamespace := s.Service.RemoveConfigByNamespace
  LoadConfig := s.LoadConfig codec
  SaveConfig := s.Service.SaveConfig
  RemoveConfig := s.Service.RemoveConfig

/-- The `Loader` that `NewService` builds: both repositories decorated with
the one cache. -/
def NewLoader {σ : Type} (nsRepo : NamespaceRepository σ) (prefRepo : PreferenceRepository σ)
    (cache : Cache σ) : Loader σ where
  NsRepo := CacheNamespaceRepository.toRepo
    { NamespaceRepository := nsRepo, Cache := cache }
  PrefRepo := CachePreferenceRepository.toRepo
    { PreferenceRepository := prefRepo, Cache := cache }

/-- The value `ConfigurerLoader` that `NewService` builds. -/
def NewConfigurerLoader {σ Val : Type} (codec : Codec Val) (nsRepo : NamespaceRepository σ)
    (prefRepo : PreferenceRepository σ) (configurer : Configurer σ Val) (cache : Cache σ) :
    ConfigurerLoader σ Val where
  Service := (NewLoader nsRepo prefRepo cache).toService codec
  Cache := cache
  Configurer := configurer

/-- The function `NewService`. -/
def NewService {σ Val : Type} (codec : Codec Val) (nsRepo : NamespaceRepository σ)
    (prefRepo : PreferenceRepository σ) (configurer : Configurer σ Val) (cache : Cache σ) :
    Service σ Val :=
  (NewConfigurerLoader codec nsRepo prefRepo configurer cache).toService codec

/-- The service `NewService` builds over the collaborators of an environment. -/
def Env.service {σ Val : Type} (codec : Codec Val) (env : Env σ Val) : Service σ Val :=
  NewService codec env.nsRepo env.prefRepo env.configurer env.cache

/-! ## In-memory collaborators

Map-backed repositories and a cache that is a map from key to value and tags,
as the repository and cache contracts describe them. -/

/-- The error of a repository that holds no record for the identity. -/
def ErrNotFound : GoError := .leaf "not found"

/-- The error of a cache `Get` that holds no value for the key. -/
def ErrCacheMiss : GoError := .leaf "cache miss"

/-- The state of the in-memory collaborators: the namespaces by name, the
preferences by namespace and key, and the cache entries by key, each a value
with its tags. -/
structure MemState where
  namespaces : String → Option Namespace
  preferences : String → String → Option Preference
  cache : String → Option (CacheVal × List String)

/-- A static configurer: which keys it has, and what `UnmarshalKey` leaves in
the target. -/
structure MemConfigurer (Val : Type) where
  has : String → Bool
  unmarshalKey : String → Val → Val × Option GoError
  unmarshalKeyString : String → String → String × Option GoError

/-- The cache without the entries that carry `tag`. -/
def MemState.delByTag (c : String → Option (CacheVal × List String)) (tag : String) :
    String → Option (CacheVal × List String) :=
  fun k =>
    match c k with
    | some (v, tags) => if tag ∈ tags then none else some (v, tags)
    | none => none

/-- The in-memory collaborators as an environment. -/
def memEnv {Val : Type} (cfg : MemConfigurer Val) : Env MemState Val where
  nsFindByName name s :=
    match s.namespaces name with
    | some n => (.ok n, s)
    | none => (.error ErrNotFound, s)
  nsDeleteByName name s :=
    match s.namespaces name with
    | some _ => (none, { s with namespaces := fun k => if k = name then none else s.namespaces k })
    | none => (some ErrNotFound, s)
  nsSave n s :=
    (none, { s with namespaces := fun k => if k = n.Name then some n else s.namespaces k })
  prefFindByNsAndKey ns key s :=
    match s.preferences ns key with
    | some p => (.ok p, s)
    | none => (.error ErrNotFound, s)
  prefDeleteByNsAndKey ns key s :=
    match s.preferences ns key with
    | some _ =>
      (none, { s with preferences := fun a b =>
        if a = ns ∧ b = key then none else s.preferences a b })
    | none => (some ErrNotFound, s)
  prefSave p s :=
    (none, { s with preferences := fun a b =>
      if a = p.Namespace ∧ b = p.Key then some p else s.preferences a b })
  cacheSet key value tags s :=
    (none, { s with cache := fun k => if k = key then some (value, tags) else s.cache k })
  cacheGetNamespace key s :=
    match s.cache key with
    | some (.ns n, _) => (.ok n, s)
    | _ => (.error ErrCacheMiss, s)
  cacheGetPreference key s :=
    match s.cache key with
    | some (.pref p, _) => (.ok p, s)
    | _ => (.error ErrCacheMiss, s)
  cacheDelByKey key s :=
    (none, { s with cache := fun k => if k = key then none else s.cache k })
  cacheDelByTag tag s := (none, { s with cache := MemState.delByTag s.cache tag })
  cfgUnmarshalKey name out s := (cfg.unmarshalKey name out, s)
  cfgUnmarshalKeyString name out s := (cfg.unmarshalKeyString name out, s)
  cfgHas name s := (cfg.has name, s)

/-- The empty in-memory state. -/
def MemState.empty : MemState where
  namespaces := fun _ => none
  preferences := fun _ _ => none
  cache := fun _ => none

/-- The in-memory world with no record, no cache entry and no call made. -/
def World.empty : World MemState := { st := MemState.empty, log := [] }

/-- A configurer that has no key. -/
def MemConfigurer.none (Val : Type) : MemConfigurer Val where
  has := fun _ => false
  unmarshalKey := fun _ out => (out, some (.leaf "key not found"))
  unmarshalKeyString := fun _ out => (out, some (.leaf "key not found"))

/-- The cache-decorated namespace repository of an environment. -/
def Env.cacheNsRepo {σ Val : Type} (env : Env σ Val) : CacheNamespaceRepository σ :=
  { NamespaceRepository := env.nsRepo, Cache := env.cache }

/-- The cache-decorated preference repository of an environment. -/
def Env.cachePrefRepo {σ Val : Type} (env : Env σ Val) : CachePreferenceRepository σ :=
  { PreferenceRepository := env.prefRepo, Cache := env.cache }

/-- The core service over the undecorated repositories of an environment. -/
def Env.loader {σ Val : Type} (env : Env σ Val) : Loader σ :=
  { NsRepo := env.nsRepo, PrefRepo := env.prefRepo }

/-- An in-memory world whose cache holds the namespace `billing` and the
preference `(billing, configuration)` under the package's keys and tags, and
whose repositories hold nothing. -/
def World.cachedOnly : World MemState where
  st :=
    { namespaces := fun _ => none
      preferences := fun _ _ => none
      cache := fun k =>
        if k = "settings:ns:name:billing" then
          some (.ns { Name := "billing" }, ["settings:ns:tag:billing"])
        else if k = "settings:pref:ns:key:billing:configuration" then
          some (.pref { Namespace := "billing", Key := "configuration", Value := "1" },
            ["settings:pref:tag:billing:configuration"])
        else none }
  log := []

/-- An in-memory world whose repositories hold the namespace `billing` and the
preference `(billing, configuration)`, and whose cache is empty. -/
def World.storedOnly : World MemState where
  st :=
    { namespaces := fun k => if k = "billing" then some { Name := "billing" } else none
      preferences := fun a b =>
        if a = "billing" ∧ b = "configuration" then
          some { Namespace := "billing", Key := "configuration", Value := "1" }
        else none
      cache := fun _ => none }
  log := []

/-! ## A codec for a fragment of JSON

An instance of `Codec` on which the theorems are exercised. Its values are
strings, integers, number literals and objects with string fields; a decoded
value replaces what the target held. The text is written without spaces, and
the quote and the backslash are the two characters written with an escape,
which is what `encoding/json` writes for strings of letters, digits and
punctuation other than `<`, `>` and `&`. A text outside the fragment is
rejected; so is a number read into an untyped target by a decoder without
`UseNumber()`, which would give a `float64`. -/

/-- The Go values of the fragment: a string, the fields of an object in the
order they are written, an integer, or a `json.Number`, which is the text of
a number literal. -/
inductive JVal where
  | str (s : String)
  | obj (fields : List (String × String))
  | int (n : Int)
  | number (lit : String)
deriving DecidableEq, Repr

/-- Modelled from the spec: the decimal text of an integer, which is what
`json.Marshal` writes for a Go integer. -/
def intText : Int → String
  | .ofNat m => String.mk (Nat.toDigits 10 m)
  | .negSucc m => String.mk ('-' :: Nat.toDigits 10 (m + 1))

/-- The value of a run of decimal digits read after the value `acc`. -/
def digitsValue : Nat → List Char → Option Nat
  | acc, [] => some acc
  | acc, c :: rest =>
    if c.isDigit then digitsValue (acc * 10 + (c.toNat - 48)) rest else none

/-- Reads the digits of a JSON integer literal: at least one digit, and no
zero in front of another digit. -/
def readNat (cs : List Char) : Option Nat :=
  if cs = [] then none
  else if cs.head? = some '0' ∧ cs ≠ ['0'] then none
  else digitsValue 0 cs

/-- Reads a JSON integer literal: the digits, after a minus sign or not. -/
def readInt (cs : List Char) : Option Int :=
  if cs.head? = some '-' then (readNat cs.tail).map (fun n => -(n : Int))
  else (readNat cs).map (fun n => (n : Int))

/-- The characters of a string literal between its quotes. -/
def quoteChars : List Char → List Char
  | [] => []
  | c :: rest =>
    if c = '"' ∨ c = '\\' then '\\' :: c :: quoteChars rest else c :: quoteChars rest

/-- The JSON string literal of `s`. -/
def quote (s : String) : String := String.mk ('"' :: quoteChars s.data ++ ['"'])

/-- The JSON text of the fields of an object, between its braces. -/
def renderFields : List (String × String) → String
  | [] => ""
  | [(k, v)] => quote k ++ ":" ++ quote v
  | (k, v) :: rest => quote k ++ ":" ++ quote v ++ "," ++ renderFields rest

/-- The JSON text of a value. -/
def render : JVal → String
  | .str s => quote s
  | .obj fields => "\x7b" ++ renderFields fields ++ "\x7d"
  | .int n => intText n
  | .number lit => lit

/-- Reads a string literal after its opening quote: the string read so far
(reversed) is `acc`; gives the string and the input after the closing quote. -/
def readStringBody : List Char → List Char → Option (String × List Char)
  | _, [] => none
  | acc, c :: rest =>
    if c = '"' then some (String.mk acc.reverse, rest)
    else if c = '\\' then
      match rest with
      | d :: rest2 => if d = '"' ∨ d = '\\' then readStringBody (d :: acc) rest2 else none
      | [] => none
    else readStringBody (c :: acc) rest

/-- Reads a string literal. -/
def readString : List Char → Option (String × List Char)
  | '"' :: rest => readStringBody [] rest
  | _ => none

/-- Reads the fields of an object up to and including its closing brace; the
fuel bounds the number of fields. -/
def readFields : Nat → List Char → Option (List (String × String) × List Char)
  | 0, _ => none
  | fuel + 1, cs =>
    match readString cs with
    | none => none
    | some (k, rest) =>
      match rest with
      | ':' :: rest2 =>
        match readString rest2 with
        | none => none
        | some (v, rest3) =>
          match rest3 with
          | '\x7d' :: rest4 => some ([(k, v)], rest4)
          | ',' :: rest4 =>
            match readFields fuel rest4 with
            | some (more, rest5) => some ((k, v) :: more, rest5)
            | none => none
          | _ => none
      | _ => none

/-- Reads a JSON text of the fragment that is a string or an object. -/
def parseText (raw : String) : Option JVal :=
  match raw.data with
  | '\x7b' :: '\x7d' :: [] => some (.obj [])
  | '\x7b' :: rest =>
    match readFields rest.length rest with
    | some (fields, []) => some (.obj fields)
    | _ => none
  | cs =>
    match readString cs with
    | some (s, []) => some (.str s)
    | _ => none

/-- Reads a JSON text of the fragment; an integer literal is kept as its
text. -/
def parse (raw : String) : Option JVal :=
  match readInt raw.data with
  | some _ => some (.number raw)
  | none => parseText raw

/-- Modelled from the spec: a `json.Decoder` over the bytes `raw`; `useNumber`
is set by `UseNumber()`. -/
structure Decoder where
  raw : RawMessage
  useNumber : Bool
deriving DecidableEq, Repr

/-- The call `json.NewDecoder(bytes.NewReader(raw))`. -/
def NewDecoder (raw : RawMessage) : Decoder := { raw := raw, useNumber := false }

/-- The method `UseNumber` of a decoder. -/
def Decoder.UseNumber (d : Decoder) : Decoder := { d with useNumber := true }

/-- Modelled from the spec: the method `Decode` of a decoder into an untyped
target holding `out`. A decoder with `UseNumber()` reads a number as a
`json.Number`, the text of the literal; without it the number would be a
`float64`, which is outside the fragment. -/
def Decoder.Decode (d : Decoder) (out : JVal) : JVal × Option GoError :=
  match parse d.raw with
  | some (.number lit) =>
    if d.useNumber then (.number lit, none)
    else (out, some (.leaf "float64 is outside the fragment"))
  | some v => (v, none)
  | none => (out, some (.leaf "invalid JSON text"))

/-- Modelled from the spec: the method `Decode` of a decoder into a target of
a signed integer type of `bits` bits holding `target`: the value of an integer
literal that the type can hold. -/
def Decoder.DecodeInt (d : Decoder) (bits : Nat) (target : Int) : Int × Option GoError :=
  match readInt d.raw.data with
  | some n =>
    if -(2 ^ (bits - 1) : Int) ≤ n ∧ n < 2 ^ (bits - 1) then (n, none)
    else (target, some (.leaf "cannot unmarshal number into Go value of an integer type"))
  | none => (target, some (.leaf "cannot unmarshal into Go value of an integer type"))

/-- The method `LoadValue` with a target of a signed integer type of `bits`
bits holding `target`, over the JSON fragment. -/
def Preference.LoadValueInt (p : Preference) (bits : Nat) (target : Int) :
    Int × Option GoError :=
  ((NewDecoder p.Value).UseNumber).DecodeInt bits target

/-- The codec of the fragment. `Decode` is the decoder of `LoadValue`:
`json.NewDecoder` over the bytes, with `UseNumber()`. -/
def jsonCodec : Codec JVal where
  Marshal v :=
    match v with
    | .number lit =>
      if (readInt lit.data).isSome then (lit, none)
      else ("", some (.leaf "json: invalid number literal"))
    | _ => (render v, none)
  Decode raw out := ((NewDecoder raw).UseNumber).Decode out
  DecodeString raw s :=
    match parse raw with
    | some (.str v) => (v, none)
    | some (.obj _) => (s, some (.leaf "cannot unmarshal object into Go value of type string"))
    | some _ => (s, some (.leaf "cannot unmarshal number into Go value of type string"))
    | none => (s, some (.leaf "invalid JSON text"))
  ofString := .str

/-- An in-memory world whose repositories hold the namespace `billing` and no
preference, and whose cache is empty. -/
def World.namespaceOnly : World MemState where
  st :=
    { namespaces := fun k => if k = "billing" then some { Name := "billing" } else none
      preferences := fun _ _ => none
      cache := fun _ => none }
  log := []

/-! ## Reachable in-memory worlds -/

/-- A call to an operation of the package: the six operations of the
cache-decorating repositories and the nine of the service. -/
inductive Op (Val : Type) where
  | nsFindByName (name : String)
  | nsDeleteByName (name : String)
  | nsSave (n : Namespace)
  | prefFindByNsAndKey (ns key : String)
  | prefDeleteByNsAndKey (ns key : String)
  | prefSave (p : Preference)
  | getNamespaceValue (ns : String)
  | setNamespaceValue (ns value : String)
  | removeNamespaceValue (ns : String)
  | loadConfigByNamespace (ns : String) (config : Val)
  | saveConfigByNamespace (ns : String) (config : Val)
  | removeConfigByNamespace (ns : String)
  | loadConfig (ns : String) (config : Val)
  | saveConfig (ns : String) (config : Val)
  | removeConfig (ns : String)

/-- The world after a call, over the in-memory collaborators with the
configurer `cfg`; the service is the one `NewService` builds. -/
def Op.run {Val : Type} (codec : Codec Val) (cfg : MemConfigurer Val) :
    Op Val → World MemState → World MemState
  | .nsFindByName name, w => ((memEnv cfg).cacheNsRepo.FindByName name w).2
  | .nsDeleteByName name, w => ((memEnv cfg).cacheNsRepo.DeleteByName name w).2
  | .nsSave n, w => ((memEnv cfg).cacheNsRepo.Save n w).2
  | .prefFindByNsAndKey ns key, w => ((memEnv cfg).cachePrefRepo.FindByNsAndKey ns key w).2
  | .prefDeleteByNsAndKey ns key, w =>
      ((memEnv cfg).cachePrefRepo.DeleteByNsAndKey ns key w).2
  | .prefSave p, w => ((memEnv cfg).cachePrefRepo.Save p w).2
  | .getNamespaceValue ns, w => (((memEnv cfg).service codec).GetNamespaceValue ns w).2
  | .setNamespaceValue ns value, w =>
      (((memEnv cfg).service codec).SetNamespaceValue ns value w).2
  | .removeNamespaceValue ns, w => (((memEnv cfg).service codec).RemoveNamespaceValue ns w).2
  | .loadConfigByNamespace ns config, w =>
      (((memEnv cfg).service codec).LoadConfigByNamespace ns config w).2
  | .saveConfigByNamespace ns config, w =>
      (((memEnv cfg).service codec).SaveConfigByNamespace ns config w).2
  | .removeConfigByNamespace ns, w =>
      (((memEnv cfg).service codec).RemoveConfigByNamespace ns w).2
  | .loadConfig ns config, w => (((memEnv cfg).service codec).LoadConfig ns config w).2
  | .saveConfig ns config, w => (((memEnv cfg).service codec).SaveConfig ns config w).2
  | .removeConfig ns, w => (((memEnv cfg).service codec).RemoveConfig ns w).2

/-- The in-memory worlds reachable through the package: any repositories with
an empty cache, and the world after any call made in a reachable world, with
any configurer. -/
inductive Reachable {Val : Type} (codec : Codec Val) : World MemState → Prop where
  | init (w : World MemState) (h : ∀ key, w.st.cache key = none) : Reachable codec w
  | step (w : World MemState) (cfg : MemConfigurer Val) (op : Op Val)
      (h : Reachable codec w) : Reachable codec (op.run codec cfg w)

/-- Every cache entry under a key of the package carries the tag of the same
identity. -/
def CacheInv (c : String → Option (CacheVal × List String)) : Prop :=
  ∀ key v tags, c key = some (v, tags) →
    (∀ s, key = "settings:pref:ns:key:" ++ s → "settings:pref:tag:" ++ s ∈ tags)
    ∧ (∀ n, key = "settings:ns:name:" ++ n → "settings:ns:tag:" ++ n ∈ tags)

/-- A computation over the in-memory collaborators keeps `CacheInv`. -/
def Pres {α : Type} (m : M MemState α) : Prop :=
  ∀ w, CacheInv w.st.cache → CacheInv (m w).2.st.cache

/-- A reachable world with stale cache entries in waiting: the namespace
`billing` and the preference `(billing, configuration)` with the value `"old"`
were saved and then read, so both are stored and cached. -/
def World.staleCache : World MemState :=
  Op.run jsonCodec (MemConfigurer.none JVal) (.nsFindByName "billing")
    (Op.run jsonCodec (MemConfigurer.none JVal) (.prefFindByNsAndKey "billing" "configuration")
      (Op.run jsonCodec (MemConfigurer.none JVal)
        (.prefSave { Namespace := "billing", Key := "configuration", Value := "\"old\"" })
        (Op.run jsonCodec (MemConfigurer.none JVal) (.nsSave { Name := "billing" })
          World.empty)))

/-- The world after `Save` of the preference `(a:b, c)` and a
`FindByNsAndKey("a:b", "c")`, both through the decorated preference
repository, starting with nothing stored and nothing cached. -/
def World.collision : World MemState :=
  Op.run jsonCodec (MemConfigurer.none JVal) (.prefFindByNsAndKey "a:b" "c")
    (Op.run jsonCodec (MemConfigurer.none JVal)
      (.prefSave { Namespace := "a:b", Key := "c", Value := "1" }) World.empty)

/-! ## Frames of computations -/

/-- Every run of `m` takes a world to a world related to it by `R`. -/
def Steps {σ α : Type} (R : World σ → World σ → Prop) (m : M σ α) : Prop :=
  ∀ w, R w (m w).2

/-- The call is a `Save` or a `Delete` of a repository. -/
def Event.isRepoWrite : Event → Bool
  | .nsDeleteByName _ => true
  | .nsSave _ => true
  | .prefDeleteByNsAndKey _ _ => true
  | .prefSave _ => true
  | _ => false

/-- The call is a call to the configurer. -/
def Event.isConfigurer : Event → Bool
  | .cfgUnmarshalKey _ => true
  | .cfgHas _ => true
  | _ => false

/-- The call is a write to the cache. -/
def Event.isCacheWrite : Event → Bool
  | .cacheSet _ _ _ => true
  | .cacheDelByKey _ => true
  | .cacheDelByTag _ => true
  | _ => false

/-- The log of `w2` is the log of `w1` followed by calls that all satisfy
`ok`. -/
def LogAdds {σ : Type} (ok : Event → Bool) (w1 w2 : World σ) : Prop :=
  ∃ added, w2.log = w1.log ++ added ∧ ∀ e ∈ added, ok e = true

/-- The in-memory repositories of `w2` hold what those of `w1` hold. -/
def SameStore (w1 w2 : World MemState) : Prop :=
  w2.st.namespaces = w1.st.namespaces ∧ w2.st.preferences = w1.st.preferences

/-- The relation `R` is kept by the calls of the read path over `env`: the
finds of the repositories, and `Get` and `Set` of the cache. -/
structure ReadPath {σ Val : Type} (R : World σ → World σ → Prop) (env : Env σ Val) : Prop where
  refl : ∀ w, R w w
  trans : ∀ a b c, R a b → R b c → R a c
  nsFindByName : ∀ name, Steps R (env.nsRepo.FindByName name)
  prefFindByNsAndKey : ∀ ns key, Steps R (env.prefRepo.FindByNsAndKey ns key)
  cacheGetNamespace : ∀ key, Steps R (env.cache.GetNamespace key)
  cacheGetPreference : ∀ key, Steps R (env.cache.GetPreference key)
  cacheSet : ∀ key v tags, Steps R (env.cache.Set key v tags)

/-- The relation `R` is kept by the calls of the write path over `env`: `Save`
and `Delete` of the repositories, and `DelByTag` of the cache. -/
structure WritePath {σ Val : Type} (R : World σ → World σ → Prop) (env : Env σ Val) : Prop where
  nsSave : ∀ n, Steps R (env.nsRepo.Save n)
  nsDeleteByName : ∀ name, Steps R (env.nsRepo.DeleteByName name)
  prefSave : ∀ p, Steps R (env.prefRepo.Save p)
  prefDeleteByNsAndKey : ∀ ns key, Steps R (env.prefRepo.DeleteByNsAndKey ns key)
  cacheDelByTag : ∀ tag, Steps R (env.cache.DelByTag tag)

/-- The relation `R` is kept by the calls to the configurer of `env`. -/
structure ConfigurerPath {σ Val : Type} (R : World σ → World σ → Prop) (env : Env σ Val) :
    Prop where
  cfgHas : ∀ name, Steps R (env.configurer.Has name)
  cfgUnmarshalKey : ∀ name out, Steps R (env.configurer.UnmarshalKey name out)
  cfgUnmarshalKeyString : ∀ name out, Steps R (env.configurer.UnmarshalKeyString name out)

/-- The fallback service over a wrapped service `svc`, with the cache and the
configurer of an environment. -/
def Env.fallback {σ Val : Type} (env : Env σ Val) (svc : Service σ Val) :
    ConfigurerLoader σ Val :=
  { Service := svc, Cache := env.cache, Configurer := env.configurer }

/-- A static configurer that has the key `feature-x` with the string
`tenant-42` and the key `billing` with the object `{"plan":"pro"}`. -/
def MemConfigurer.sample : MemConfigurer JVal where
  has := fun name => decide (name = "feature-x" ∨ name = "billing")
  unmarshalKey := fun name out =>
    if name = "billing" then (.obj [("plan", "pro")], Option.none)
    else if name = "feature-x" then (.str "tenant-42", Option.none)
    else (out, some (.leaf "key not found"))
  unmarshalKeyString := fun name out =>
    if name = "feature-x" then ("tenant-42", Option.none)
    else if name = "billing" then (out, some (.leaf "cannot unmarshal object into string"))
    else (out, some (.leaf "key not found"))

/-- A codec whose `Marshal` fails on every value and that otherwise is
`jsonCodec`: it exercises the paths taken on a serialization error. -/
def failingCodec : Codec JVal where
  Marshal := fun _ => ("", some (.leaf "json: unsupported type"))
  Decode := jsonCodec.Decode
  DecodeString := jsonCodec.DecodeString
  ofString := jsonCodec.ofString

/-- The core service that `NewService` wraps, over the collaborators of an
environment. -/
def Env.core {σ Val : Type} (codec : Codec Val) (env : Env σ Val) : Service σ Val :=
  (NewLoader env.nsRepo env.prefRepo env.cache).toService codec

/-- The error result `r` is an error that has `e` in its unwrap chain. -/
def Carries (r : Option GoError) (e : GoError) : Prop :=
  ∃ x, r = some x ∧ x.Is e = true

/-- The error of a repository whose storage cannot be written. -/
def ErrStorage : GoError := .leaf "storage unavailable"

/-- The in-memory collaborators with repositories whose `Save` fails on
demand: the namespace `Save` when `failNs` is set, the preference `Save` when
`failPref` is set. A failed `Save` stores nothing. -/
def memEnvFailing {Val : Type} (cfg : MemConfigurer Val) (failNs failPref : Bool) :
    Env MemState Val :=
  { memEnv cfg with
    nsSave := fun n s => if failNs then (some ErrStorage, s) else (memEnv cfg).nsSave n s
    prefSave := fun p s =>
      if failPref then (some ErrStorage, s) else (memEnv cfg).prefSave p s }

/-- The calls of a `LoadConfigByNamespace(logical, &out)` that finds nothing in
the cache and everything in the repositories: the alias preference `pointer` of
`logical`, then the namespace `physical`, then its configuration preference
`conf`, each read through the cache. -/
def indirectionCalls (logical physical : String) (pointer conf : Preference) : List Event :=
  [.cacheGet ("settings:pref:ns:key:" ++ "system" ++ ":" ++ logical),
    .prefFindByNsAndKey "system" logical,
    .cacheSet ("settings:pref:ns:key:" ++ "system" ++ ":" ++ logical) (.pref pointer)
      ["settings:pref:tag:" ++ "system" ++ ":" ++ logical],
    .cacheGet ("settings:ns:name:" ++ physical),
    .nsFindByName physical,
    .cacheSet ("settings:ns:name:" ++ physical) (.ns { Name := physical })
      ["settings:ns:tag:" ++ physical],
    .cacheGet ("settings:pref:ns:key:" ++ physical ++ ":" ++ "configuration"),
    .prefFindByNsAndKey physical "configuration",
    .cacheSet ("settings:pref:ns:key:" ++ physical ++ ":" ++ "configuration") (.pref conf)
      ["settings:pref:tag:" ++ physical ++ ":" ++ "configuration"]]

/-- An in-memory world whose preference repository holds, for the alias
`feature-x`, a preference `(system, feature-x)` whose value is an object and
not a string; nothing is cached. -/
def World.aliasNotString : World MemState where
  st :=
    { namespaces := fun _ => none
      preferences := fun a b =>
        if a = "system" ∧ b = "feature-x" then
          some { Namespace := "system", Key := "feature-x", Value := "\x7b\"a\":\"b\"\x7d" }
        else none
      cache := fun _ => none }
  log := []

/-- A static configurer that has the key `billing` and leaves in the target a
`json.Number` whose text is not a number literal, which `json.Marshal`
rejects. -/
def MemConfigurer.invalidNumber : MemConfigurer JVal where
  has := fun name => decide (name = "billing")
  unmarshalKey := fun name out =>
    if name = "billing" then (.number "n/a", Option.none)
    else (out, some (.leaf "key not found"))
  unmarshalKeyString := fun _ out => (out, some (.leaf "key not found"))

/-- The codec of the fragment with typed string targets: a target that holds
a string is a `*string`, into which only a JSON string decodes; every other
target is untyped, as with `jsonCodec`. -/
def typedCodec : Codec JVal where
  Marshal := jsonCodec.Marshal
  Decode := fun raw out =>
    match out with
    | .str s => (.str (jsonCodec.DecodeString raw s).1, (jsonCodec.DecodeString raw s).2)
    | _ => jsonCodec.Decode raw out
  DecodeString := jsonCodec.DecodeString
  ofString := jsonCodec.ofString

/-- The cache writes among the calls a computation makes from the world `w`:
the `Set`, `DelByKey` and `DelByTag` calls it adds to the log, in order. -/
def cacheWrites {σ α : Type} (m : M σ α) (w : World σ) : List Event :=
  ((m w).2.log.drop w.log.length).filter Event.isCacheWrite

/-- The cache write of `CacheNamespaceRepository.FindByName(name)` from the
state `st`: the `Set` of the namespace that the inner repository returns, made
when the cache `Get` fails and the inner `FindByName` succeeds; no write when
the cache holds the key or the inner repository fails. -/
def Env.nsReadThrough {σ Val : Type} (env : Env σ Val) (name : String) (st : σ) :
    List Event :=
  match env.cacheGetNamespace ("settings:ns:name:" ++ name) st with
  | (.ok _, _) => []
  | (.error _, s0) =>
    match env.nsFindByName name s0 with
    | (.error _, _) => []
    | (.ok found, _) =>
      [.cacheSet ("settings:ns:name:" ++ name) (.ns found) ["settings:ns:tag:" ++ name]]

/-- The cache write of `CachePreferenceRepository.FindByNsAndKey(ns, key)`
from the state `st`: the `Set` of the preference that the inner repository
returns, made when the cache `Get` fails and the inner `FindByNsAndKey`
succeeds; no write when the cache holds the key or the inner repository
fails. -/
def Env.prefReadThrough {σ Val : Type} (env : Env σ Val) (ns key : String) (st : σ) :
    List Event :=
  match env.cacheGetPreference ("settings:pref:ns:key:" ++ ns ++ ":" ++ key) st with
  | (.ok _, _) => []
  | (.error _, s0) =>
    match env.prefFindByNsAndKey ns key s0 with
    | (.error _, _) => []
    | (.ok found, _) =>
      [.cacheSet ("settings:pref:ns:key:" ++ ns ++ ":" ++ key) (.pref found)
        ["settings:pref:tag:" ++ ns ++ ":" ++ key]]

/-- The cache writes of the core `Loader.LoadConfig(ns, config)` over the
decorated repositories, from the world `w`: the write of the namespace lookup
and, when that lookup succeeds, the write of the lookup of the preference
`(ns, "configuration")` that follows it. -/
def Env.loadConfigReadThrough {σ Val : Type} (env : Env σ Val) (ns : String)
    (w : World σ) : List Event :=
  env.nsReadThrough ns w.st ++
    match env.cacheNsRepo.FindByName ns w with
    | (.error _, _) => []
    | (.ok _, w1) => env.prefReadThrough ns keyConfiguration w1.st

/-- The configurer calls among the calls a computation makes from the world
`w`: the `Has` and `UnmarshalKey` calls it adds to the log, in order. -/
def configurerCalls {σ α : Type} (m : M σ α) (w : World σ) : List Event :=
  ((m w).2.log.drop w.log.length).filter Event.isConfigurer

/-! ## Running computations -/

theorem M.bind_apply {σ α β : Type} (m : M σ α) (f : α → M σ β) (w : World σ) :
    (m >>= f) w = f (m w).1 (m w).2 := rfl

theorem M.pure_apply {σ α : Type} (a : α) (w : World σ) :
    (pure a : M σ α) w = (a, w) := rfl

theorem call_apply {σ α : Type} (e : Event) (h : σ → α × σ) (w : World σ) :
    call e h w = ((h w.st).1, { st := (h w.st).2, log := w.log ++ [e] }) := rfl

/-- C4: `Save` and `Delete` of both cache-decorating repositories return the
inner repository's result, whatever it is, and make exactly two calls: the
inner call, then `Cache.DelByTag` with the tag of the identity, whatever the
inner call and `DelByTag` return. -/
theorem C4_write_returns_inner_and_invalidates {σ Val : Type} (env : Env σ Val)
    (w : World σ) (name ns key : String) (n : Namespace) (p : Preference) :
    (env.cacheNsRepo.Save n w =
      ((env.nsSave n w.st).1,
        { st := (env.cacheDelByTag ("settings:ns:tag:" ++ n.Name) (env.nsSave n w.st).2).2,
          log := w.log ++ [.nsSave n, .cacheDelByTag ("settings:ns:tag:" ++ n.Name)] }))
    ∧ (env.cacheNsRepo.DeleteByName name w =
      ((env.nsDeleteByName name w.st).1,
        { st := (env.cacheDelByTag ("settings:ns:tag:" ++ name)
            (env.nsDeleteByName name w.st).2).2,
          log := w.log ++ [.nsDeleteByName name, .cacheDelByTag ("settings:ns:tag:" ++ name)] }))
    ∧ (env.cachePrefRepo.Save p w =
      ((env.prefSave p w.st).1,
        { st := (env.cacheDelByTag ("settings:pref:tag:" ++ p.Namespace ++ ":" ++ p.Key)
            (env.prefSave p w.st).2).2,
          log := w.log ++ [.prefSave p,
            .cacheDelByTag ("settings:pref:tag:" ++ p.Namespace ++ ":" ++ p.Key)] }))
    ∧ (env.cachePrefRepo.DeleteByNsAndKey ns key w =
      ((env.prefDeleteByNsAndKey ns key w.st).1,
        { st := (env.cacheDelByTag ("settings:pref:tag:" ++ ns ++ ":" ++ key)
            (env.prefDeleteByNsAndKey ns key w.st).2).2,
          log := w.log ++ [.prefDeleteByNsAndKey ns key,
            .cacheDelByTag ("settings:pref:tag:" ++ ns ++ ":" ++ key)] })) := by
  refine ⟨?_, ?_, ?_, ?_⟩ <;>
    simp [CacheNamespaceRepository.Save, CacheNamespaceRepository.DeleteByName,
      CacheNamespaceRepository.del, CachePreferenceRepository.Save,
      CachePreferenceRepository.DeleteByNsAndKey, CachePreferenceRepository.del,
      Env.cacheNsRepo, Env.cachePrefRepo, Env.nsRepo, Env.prefRepo, Env.cache,
      M.bind_apply, M.pure_apply, call_apply]

/-- C5: on a cache hit with value `v`, `FindByName` and `FindByNsAndKey`
return `v` and no error, and the one call made is the `Cache.Get` under the
key of the lookup: no call to the inner repository, no `Set`, no `DelByTag`. -/
theorem C5_cache_hit_returns_cached {σ Val : Type} (env : Env σ Val) (w : World σ)
    (name ns key : String) (v : Namespace) (pv : Preference) :
    ((env.cacheGetNamespace ("settings:ns:name:" ++ name) w.st).1 = .ok v →
      env.cacheNsRepo.FindByName name w =
        (.ok v,
          { st := (env.cacheGetNamespace ("settings:ns:name:" ++ name) w.st).2,
            log := w.log ++ [.cacheGet ("settings:ns:name:" ++ name)] }))
    ∧ ((env.cacheGetPreference ("settings:pref:ns:key:" ++ ns ++ ":" ++ key) w.st).1 = .ok pv →
      env.cachePrefRepo.FindByNsAndKey ns key w =
        (.ok pv,
          { st := (env.cacheGetPreference ("settings:pref:ns:key:" ++ ns ++ ":" ++ key) w.st).2,
            log := w.log ++ [.cacheGet ("settings:pref:ns:key:" ++ ns ++ ":" ++ key)] })) := by
  constructor
  · intro h
    simp [CacheNamespaceRepository.FindByName, Env.cacheNsRepo, Env.cache,
      M.bind_apply, M.pure_apply, call_apply, h]
  · intro h
    simp [CachePreferenceRepository.FindByNsAndKey, Env.cachePrefRepo, Env.cache,
      M.bind_apply, M.pure_apply, call_apply, h]

/-- Witness of C5: the cached namespace `billing` and the cached preference
`(billing, configuration)` are returned from the cache alone. -/
theorem C5_cache_hit_returns_cached_witness :
    (((memEnv (MemConfigurer.none String)).cacheNsRepo.FindByName "billing" World.cachedOnly).1
        = .ok { Name := "billing" }
      ∧ ((memEnv (MemConfigurer.none String)).cacheNsRepo.FindByName "billing"
          World.cachedOnly).2.log = [.cacheGet "settings:ns:name:billing"])
    ∧ (((memEnv (MemConfigurer.none String)).cachePrefRepo.FindByNsAndKey "billing"
          "configuration" World.cachedOnly).1
        = .ok { Namespace := "billing", Key := "configuration", Value := "1" }
      ∧ ((memEnv (MemConfigurer.none String)).cachePrefRepo.FindByNsAndKey "billing"
          "configuration" World.cachedOnly).2.log
        = [.cacheGet "settings:pref:ns:key:billing:configuration"]) := by
  have h := C5_cache_hit_returns_cached (memEnv (MemConfigurer.none String)) World.cachedOnly
    "billing" "billing" "configuration" { Name := "billing" }
    { Namespace := "billing", Key := "configuration", Value := "1" }
  have h1 := h.1 (by decide)
  have h2 := h.2 (by decide)
  refine ⟨⟨?_, ?_⟩, ⟨?_, ?_⟩⟩
  · rw [h1]
  · rw [h1]; rfl
  · rw [h2]
  · rw [h2]; rfl

/-- C6: when `Cache.Get` fails and the inner find fails with `e`, the decorated
find returns exactly `e`, and the calls made are the `Get` and the inner find:
no `Cache.Set`, so the state is the one these two calls leave. Over the
in-memory collaborators a decorated find that fails leaves the cache as it
was. -/
theorem C6_inner_error_not_cached {σ Val : Type} (env : Env σ Val) (w : World σ)
    (name ns key : String) (miss e : GoError) (cfg : MemConfigurer Val) (mw : World MemState) :
    ((env.cacheGetNamespace ("settings:ns:name:" ++ name) w.st).1 = .error miss →
      (env.nsFindByName name
        (env.cacheGetNamespace ("settings:ns:name:" ++ name) w.st).2).1 = .error e →
      env.cacheNsRepo.FindByName name w =
        (.error e,
          { st := (env.nsFindByName name
              (env.cacheGetNamespace ("settings:ns:name:" ++ name) w.st).2).2,
            log := w.log ++ [.cacheGet ("settings:ns:name:" ++ name), .nsFindByName name] }))
    ∧ ((env.cacheGetPreference ("settings:pref:ns:key:" ++ ns ++ ":" ++ key) w.st).1
        = .error miss →
      (env.prefFindByNsAndKey ns key
        (env.cacheGetPreference ("settings:pref:ns:key:" ++ ns ++ ":" ++ key) w.st).2).1
        = .error e →
      env.cachePrefRepo.FindByNsAndKey ns key w =
        (.error e,
          { st := (env.prefFindByNsAndKey ns key
              (env.cacheGetPreference ("settings:pref:ns:key:" ++ ns ++ ":" ++ key) w.st).2).2,
            log := w.log ++ [.cacheGet ("settings:pref:ns:key:" ++ ns ++ ":" ++ key),
              .prefFindByNsAndKey ns key] }))
    ∧ (((memEnv cfg).cacheNsRepo.FindByName name mw).1 = .error e →
      ((memEnv cfg).cacheNsRepo.FindByName name mw).2.st.cache = mw.st.cache)
    ∧ (((memEnv cfg).cachePrefRepo.FindByNsAndKey ns key mw).1 = .error e →
      ((memEnv cfg).cachePrefRepo.FindByNsAndKey ns key mw).2.st.cache = mw.st.cache) := by
  refine ⟨?_, ?_, ?_, ?_⟩
  · intro h1 h2
    simp [CacheNamespaceRepository.FindByName, Env.cacheNsRepo, Env.cache, Env.nsRepo,
      M.bind_apply, M.pure_apply, call_apply, h1, h2]
  · intro h1 h2
    simp [CachePreferenceRepository.FindByNsAndKey, Env.cachePrefRepo, Env.cache,
      Env.prefRepo, M.bind_apply, M.pure_apply, call_apply, h1, h2]
  · intro herr
    cases hn : mw.st.namespaces name with
    | some n =>
      cases hc : mw.st.cache ("settings:ns:name:" ++ name) with
      | none =>
        simp [CacheNamespaceRepository.FindByName, Env.cacheNsRepo, Env.cache, Env.nsRepo,
          memEnv, M.bind_apply, M.pure_apply, call_apply, hc, hn] at herr
      | some entry =>
        obtain ⟨v, tags⟩ := entry
        cases v <;>
          simp [CacheNamespaceRepository.FindByName, Env.cacheNsRepo, Env.cache, Env.nsRepo,
            memEnv, M.bind_apply, M.pure_apply, call_apply, hc, hn] at herr
    | none =>
      cases hc : mw.st.cache ("settings:ns:name:" ++ name) with
      | none =>
        simp [CacheNamespaceRepository.FindByName, Env.cacheNsRepo, Env.cache, Env.nsRepo,
          memEnv, M.bind_apply, M.pure_apply, call_apply, hc, hn]
      | some entry =>
        obtain ⟨v, tags⟩ := entry
        cases v <;>
          simp [CacheNamespaceRepository.FindByName, Env.cacheNsRepo, Env.cache, Env.nsRepo,
            memEnv, M.bind_apply, M.pure_apply, call_apply, hc, hn]
  · intro herr
    cases hn : mw.st.preferences ns key with
    | some n =>
      cases hc : mw.st.cache ("settings:pref:ns:key:" ++ ns ++ ":" ++ key) with
      | none =>
        simp [CachePreferenceRepository.FindByNsAndKey, Env.cachePrefRepo, Env.cache,
          Env.prefRepo, memEnv, M.bind_apply, M.pure_apply, call_apply, hc, hn] at herr
      | some entry =>
        obtain ⟨v, tags⟩ := entry
        cases v <;>
          simp [CachePreferenceRepository.FindByNsAndKey, Env.cachePrefRepo, Env.cache,
            Env.prefRepo, memEnv, M.bind_apply, M.pure_apply, call_apply, hc, hn] at herr
    | none =>
      cases hc : mw.st.cache ("settings:pref:ns:key:" ++ ns ++ ":" ++ key) with
      | none =>
        simp [CachePreferenceRepository.FindByNsAndKey, Env.cachePrefRepo, Env.cache,
          Env.prefRepo, memEnv, M.bind_apply, M.pure_apply, call_apply, hc, hn]
      | some entry =>
        obtain ⟨v, tags⟩ := entry
        cases v <;>
          simp [CachePreferenceRepository.FindByNsAndKey, Env.cachePrefRepo, Env.cache,
            Env.prefRepo, memEnv, M.bind_apply, M.pure_apply, call_apply, hc, hn]

/-- Witness of C6: with nothing cached and nothing stored, both finds return
the repository's not-found error and leave the cache empty. -/
theorem C6_inner_error_not_cached_witness :
    (((memEnv (MemConfigurer.none String)).cacheNsRepo.FindByName "billing" World.empty).1
        = .error ErrNotFound
      ∧ ((memEnv (MemConfigurer.none String)).cacheNsRepo.FindByName "billing"
          World.empty).2.st.cache "settings:ns:name:billing" = none)
    ∧ (((memEnv (MemConfigurer.none String)).cachePrefRepo.FindByNsAndKey "billing"
          "configuration" World.empty).1 = .error ErrNotFound
      ∧ ((memEnv (MemConfigurer.none String)).cachePrefRepo.FindByNsAndKey "billing"
          "configuration" World.empty).2.st.cache
            "settings:pref:ns:key:billing:configuration" = none) := by
  have h := C6_inner_error_not_cached (memEnv (MemConfigurer.none String)) World.empty
    "billing" "billing" "configuration" ErrCacheMiss ErrNotFound (MemConfigurer.none String)
    World.empty
  have h1 := h.1 (by decide) (by decide)
  have h2 := h.2.1 (by decide) (by decide)
  refine ⟨⟨?_, ?_⟩, ⟨?_, ?_⟩⟩
  · rw [h1]
  · rw [h.2.2.1 (by decide)]; rfl
  · rw [h2]
  · rw [h.2.2.2 (by decide)]; rfl

/-- C7: when `Cache.Get` fails with any error and the inner find succeeds with
`v`, the decorated find returns `v` and no error whatever `Cache.Set` returns,
and its one cache write is a `Set` of `v` under the key that was read, with
the one tag of the identity. -/
theorem C7_read_through_population {σ Val : Type} (env : Env σ Val) (w : World σ)
    (name ns key : String) (miss : GoError) (v : Namespace) (pv : Preference) :
    ((env.cacheGetNamespace ("settings:ns:name:" ++ name) w.st).1 = .error miss →
      (env.nsFindByName name
        (env.cacheGetNamespace ("settings:ns:name:" ++ name) w.st).2).1 = .ok v →
      env.cacheNsRepo.FindByName name w =
        (.ok v,
          { st := (env.cacheSet ("settings:ns:name:" ++ name) (.ns v)
              ["settings:ns:tag:" ++ name]
              (env.nsFindByName name
                (env.cacheGetNamespace ("settings:ns:name:" ++ name) w.st).2).2).2,
            log := w.log ++ [.cacheGet ("settings:ns:name:" ++ name), .nsFindByName name,
              .cacheSet ("settings:ns:name:" ++ name) (.ns v) ["settings:ns:tag:" ++ name]] }))
    ∧ ((env.cacheGetPreference ("settings:pref:ns:key:" ++ ns ++ ":" ++ key) w.st).1
        = .error miss →
      (env.prefFindByNsAndKey ns key
        (env.cacheGetPreference ("settings:pref:ns:key:" ++ ns ++ ":" ++ key) w.st).2).1
        = .ok pv →
      env.cachePrefRepo.FindByNsAndKey ns key w =
        (.ok pv,
          { st := (env.cacheSet ("settings:pref:ns:key:" ++ ns ++ ":" ++ key) (.pref pv)
              ["settings:pref:tag:" ++ ns ++ ":" ++ key]
              (env.prefFindByNsAndKey ns key
                (env.cacheGetPreference ("settings:pref:ns:key:" ++ ns ++ ":" ++ key)
                  w.st).2).2).2,
            log := w.log ++ [.cacheGet ("settings:pref:ns:key:" ++ ns ++ ":" ++ key),
              .prefFindByNsAndKey ns key,
              .cacheSet ("settings:pref:ns:key:" ++ ns ++ ":" ++ key) (.pref pv)
                ["settings:pref:tag:" ++ ns ++ ":" ++ key]] })) := by
  constructor
  · intro h1 h2
    simp [CacheNamespaceRepository.FindByName, Env.cacheNsRepo, Env.cache, Env.nsRepo,
      M.bind_apply, M.pure_apply, call_apply, h1, h2]
  · intro h1 h2
    simp [CachePreferenceRepository.FindByNsAndKey, Env.cachePrefRepo, Env.cache,
      Env.prefRepo, M.bind_apply, M.pure_apply, call_apply, h1, h2]

/-- Witness of C7: with the records stored and nothing cached, both finds
return the stored record and leave it in the cache under the key read, with
the tag of the identity. -/
theorem C7_read_through_population_witness :
    (((memEnv (MemConfigurer.none String)).cacheNsRepo.FindByName "billing"
          World.storedOnly).1 = .ok { Name := "billing" }
      ∧ ((memEnv (MemConfigurer.none String)).cacheNsRepo.FindByName "billing"
          World.storedOnly).2.st.cache "settings:ns:name:billing"
        = some (.ns { Name := "billing" }, ["settings:ns:tag:billing"]))
    ∧ (((memEnv (MemConfigurer.none String)).cachePrefRepo.FindByNsAndKey "billing"
          "configuration" World.storedOnly).1
        = .ok { Namespace := "billing", Key := "configuration", Value := "1" }
      ∧ ((memEnv (MemConfigurer.none String)).cachePrefRepo.FindByNsAndKey "billing"
          "configuration" World.storedOnly).2.st.cache
            "settings:pref:ns:key:billing:configuration"
        = some (.pref { Namespace := "billing", Key := "configuration", Value := "1" },
            ["settings:pref:tag:billing:configuration"])) := by
  have h := C7_read_through_population (memEnv (MemConfigurer.none String)) World.storedOnly
    "billing" "billing" "configuration" ErrCacheMiss { Name := "billing" }
    { Namespace := "billing", Key := "configuration", Value := "1" }
  have h1 := h.1 (by decide) (by decide)
  have h2 := h.2 (by decide) (by decide)
  refine ⟨⟨?_, ?_⟩, ⟨?_, ?_⟩⟩
  · rw [h1]
  · rw [h1]; rfl
  · rw [h2]
  · rw [h2]; rfl

/-! ## The core service -/

theorem GoError.Is_self (e : GoError) : e.Is e = true := by
  cases e <;> simp [GoError.Is]

theorem Errorf_Is (pre : String) (e : GoError) : (Errorf pre e).Is e = true := by
  simp [Errorf, GoError.Is, GoError.Is_self]

/-- C3 as stated fails: `SetNamespaceValue("logical", "physical")` saves the
namespace `system`, not the namespace `physical`, which no call saves and
which is not stored afterwards. -/
theorem C3_counterexample :
    ((memEnv (MemConfigurer.none JVal)).loader.SetNamespaceValue jsonCodec "logical" "physical"
        World.empty).2.log
      = [.nsSave { Name := "system" },
          .prefSave { Namespace := "system", Key := "logical", Value := "\"physical\"" }]
    ∧ Event.nsSave { Name := "physical" } ∉
        ((memEnv (MemConfigurer.none JVal)).loader.SetNamespaceValue jsonCodec "logical"
          "physical" World.empty).2.log
    ∧ ((memEnv (MemConfigurer.none JVal)).loader.SetNamespaceValue jsonCodec "logical"
        "physical" World.empty).2.st.namespaces "physical" = none := by
  decide

/-- C3, amended: `SetNamespaceValue(logicalName, physicalName)` first saves the
namespace named `system`; when that save and the serialization of
`physicalName` succeed, it then saves the preference `(system, logicalName)`
whose value is that serialization, and returns the result of this save. -/
theorem C3_set_namespace_value_upserts_system {σ Val : Type} (codec : Codec Val)
    (env : Env σ Val) (w : World σ) (logicalName physicalName : String) :
    (∃ rest, (env.loader.SetNamespaceValue codec logicalName physicalName w).2.log
      = w.log ++ Event.nsSave { Name := "system" } :: rest)
    ∧ ((env.nsSave { Name := "system" } w.st).1 = none →
      (codec.Marshal (codec.ofString physicalName)).2 = none →
      env.loader.SetNamespaceValue codec logicalName physicalName w =
        ((env.prefSave
            (Preference.mk "system" logicalName
              (codec.Marshal (codec.ofString physicalName)).1 0 0)
            (env.nsSave { Name := "system" } w.st).2).1,
          { st := (env.prefSave
              (Preference.mk "system" logicalName
                (codec.Marshal (codec.ofString physicalName)).1 0 0)
              (env.nsSave { Name := "system" } w.st).2).2,
            log := w.log ++ [.nsSave { Name := "system" },
              .prefSave (Preference.mk "system" logicalName
                (codec.Marshal (codec.ofString physicalName)).1 0 0)] })) := by
  constructor
  · simp only [Loader.SetNamespaceValue, Loader.saveConfig, Env.loader, Env.nsRepo,
      Env.prefRepo, M.bind_apply, call_apply, namespaceSystem, Preference.SetValue]
    cases (env.nsSave { Name := "system" } w.st).1 with
    | some err => exact ⟨[], rfl⟩
    | none =>
      cases (codec.Marshal (codec.ofString physicalName)).2 with
      | some err => exact ⟨[], rfl⟩
      | none => exact ⟨_, by simp [call_apply]; rfl⟩
  · intro h1 h2
    simp only [Loader.SetNamespaceValue, Loader.saveConfig, Env.loader, Env.nsRepo,
      Env.prefRepo, M.bind_apply, call_apply, namespaceSystem, h1, Preference.SetValue]
    rw [h2]
    simp [call_apply]

/-- Witness of C3, amended, over the in-memory repositories. -/
theorem C3_set_namespace_value_upserts_system_witness :
    ((memEnv (MemConfigurer.none JVal)).loader.SetNamespaceValue jsonCodec "logical" "physical"
        World.empty).1 = none
    ∧ ((memEnv (MemConfigurer.none JVal)).loader.SetNamespaceValue jsonCodec "logical"
        "physical" World.empty).2.log
      = [.nsSave { Name := "system" },
          .prefSave { Namespace := "system", Key := "logical", Value := "\"physical\"" }] := by
  have h := (C3_set_namespace_value_upserts_system jsonCodec (memEnv (MemConfigurer.none JVal))
    World.empty "logical" "physical").2 (by decide) (by decide)
  constructor
  · rw [h]; rfl
  · rw [h]; decide

/-- C8: `LoadConfig` checks the namespace first. When `NsRepo.FindByName(ns)`
fails with `e`, it returns `e` wrapped with the message that starts
"namespace `ns` not found: ", the target is as it was and the world is the one
`FindByName` left: over the repositories of an environment the one call made
is `FindByName`. When the namespace is found and
`PrefRepo.FindByNsAndKey(ns, "configuration")` fails with `e2`, it returns `e2`
wrapped with the message that starts "configuration preference `ns` not
found: ". -/
theorem C8_load_config_checks_namespace_first {σ Val : Type} (codec : Codec Val)
    (s : Loader σ) (env : Env σ Val) (w : World σ) (ns : String) (config : Val)
    (e e2 : GoError) (found : Namespace) :
    ((s.NsRepo.FindByName ns w).1 = .error e →
      s.LoadConfig codec ns config w =
        ((config, some (Errorf ("namespace `" ++ ns ++ "` not found: ") e)),
          (s.NsRepo.FindByName ns w).2)
      ∧ (Errorf ("namespace `" ++ ns ++ "` not found: ") e).Is e = true
      ∧ (Errorf ("namespace `" ++ ns ++ "` not found: ") e).Error
          = "namespace `" ++ ns ++ "` not found: " ++ e.Error)
    ∧ ((env.nsFindByName ns w.st).1 = .error e →
      (env.loader.LoadConfig codec ns config w).2.log = w.log ++ [.nsFindByName ns])
    ∧ ((s.NsRepo.FindByName ns w).1 = .ok found →
      (s.PrefRepo.FindByNsAndKey ns "configuration" (s.NsRepo.FindByName ns w).2).1
        = .error e2 →
      s.LoadConfig codec ns config w =
        ((config, some (Errorf ("configuration preference `" ++ ns ++ "` not found: ") e2)),
          (s.PrefRepo.FindByNsAndKey ns "configuration" (s.NsRepo.FindByName ns w).2).2)
      ∧ (Errorf ("configuration preference `" ++ ns ++ "` not found: ") e2).Is e2 = true
      ∧ (Errorf ("configuration preference `" ++ ns ++ "` not found: ") e2).Error
          = "configuration preference `" ++ ns ++ "` not found: " ++ e2.Error) := by
  refine ⟨?_, ?_, ?_⟩
  · intro h
    refine ⟨?_, Errorf_Is _ _, rfl⟩
    simp [Loader.LoadConfig, M.bind_apply, M.pure_apply, h]
  · intro h
    simp [Loader.LoadConfig, Env.loader, Env.nsRepo, M.bind_apply, M.pure_apply,
      call_apply, h]
  · intro h1 h2
    refine ⟨?_, Errorf_Is _ _, rfl⟩
    simp [Loader.LoadConfig, Loader.getConfiguration, keyConfiguration, M.bind_apply,
      M.pure_apply, h1, h2]

/-- Witness of C8 over the in-memory repositories: with nothing stored the
namespace is reported missing after one call; with the namespace `billing`
stored and no configuration, the configuration preference is. -/
theorem C8_load_config_checks_namespace_first_witness :
    ((memEnv (MemConfigurer.none JVal)).loader.LoadConfig jsonCodec "billing" (.obj [])
        World.empty).1
      = (.obj [], some (Errorf "namespace `billing` not found: " ErrNotFound))
    ∧ ((memEnv (MemConfigurer.none JVal)).loader.LoadConfig jsonCodec "billing" (.obj [])
        World.empty).2.log = [.nsFindByName "billing"]
    ∧ ((memEnv (MemConfigurer.none JVal)).loader.LoadConfig jsonCodec "billing" (.obj [])
        World.namespaceOnly).1
      = (.obj [], some (Errorf "configuration preference `billing` not found: " ErrNotFound)) := by
  have h := C8_load_config_checks_namespace_first jsonCodec
    (memEnv (MemConfigurer.none JVal)).loader (memEnv (MemConfigurer.none JVal))
    World.empty "billing" (.obj []) ErrNotFound ErrNotFound { Name := "billing" }
  have h' := C8_load_config_checks_namespace_first jsonCodec
    (memEnv (MemConfigurer.none JVal)).loader (memEnv (MemConfigurer.none JVal))
    World.namespaceOnly "billing" (.obj []) ErrNotFound ErrNotFound { Name := "billing" }
  refine ⟨?_, ?_, ?_⟩
  · rw [(h.1 (by decide)).1]; rfl
  · rw [h.2.1 (by decide)]; rfl
  · rw [(h'.2.2 (by decide) (by decide)).1]; rfl

/-- C9: `RemoveConfig` is fail-fast. When
`PrefRepo.DeleteByNsAndKey(ns, "configuration")` fails with `e`, it returns `e`
and the world is the one that call left: over the repositories of an
environment the one call made is `DeleteByNsAndKey`. Through the service that
`NewService` builds over the in-memory collaborators, with no configuration
stored, the error is not-found, the namespaces are as before and no
`DeleteByName` is called. When the deletion succeeds, the result is that of
`NsRepo.DeleteByName(ns)`. -/
theorem C9_remove_config_fail_fast {σ Val : Type} (codec : Codec Val) (s : Loader σ)
    (env : Env σ Val) (w : World σ) (ns : String) (e : GoError) (cfg : MemConfigurer Val)
    (mw : World MemState) :
    ((s.PrefRepo.DeleteByNsAndKey ns "configuration" w).1 = some e →
      s.RemoveConfig ns w = (some e, (s.PrefRepo.DeleteByNsAndKey ns "configuration" w).2))
    ∧ ((env.prefDeleteByNsAndKey ns "configuration" w.st).1 = some e →
      (env.loader.RemoveConfig ns w).2.log = w.log ++ [.prefDeleteByNsAndKey ns "configuration"])
    ∧ (mw.st.preferences ns "configuration" = none →
      (((memEnv cfg).service codec).RemoveConfig ns mw).1 = some ErrNotFound
      ∧ (((memEnv cfg).service codec).RemoveConfig ns mw).2.st.namespaces = mw.st.namespaces
      ∧ (((memEnv cfg).service codec).RemoveConfig ns mw).2.log
        = mw.log ++ [.prefDeleteByNsAndKey ns "configuration",
            .cacheDelByTag ("settings:pref:tag:" ++ ns ++ ":" ++ "configuration")])
    ∧ ((s.PrefRepo.DeleteByNsAndKey ns "configuration" w).1 = none →
      s.RemoveConfig ns w =
        s.NsRepo.DeleteByName ns (s.PrefRepo.DeleteByNsAndKey ns "configuration" w).2) := by
  refine ⟨?_, ?_, ?_, ?_⟩
  · intro h
    simp [Loader.RemoveConfig, keyConfiguration, M.bind_apply, M.pure_apply, h]
  · intro h
    simp [Loader.RemoveConfig, keyConfiguration, Env.loader, Env.prefRepo, M.bind_apply,
      M.pure_apply, call_apply, h]
  · intro h
    simp [Env.service, NewService, ConfigurerLoader.toService, NewConfigurerLoader,
      Loader.toService, NewLoader, CachePreferenceRepository.toRepo,
      CachePreferenceRepository.DeleteByNsAndKey, CachePreferenceRepository.del,
      Loader.RemoveConfig, keyConfiguration, Env.prefRepo, Env.cache, memEnv,
      M.bind_apply, M.pure_apply, call_apply, h]
  · intro h
    simp [Loader.RemoveConfig, keyConfiguration, M.bind_apply, h]

/-- Witness of C9: with the namespace `billing` stored and no configuration,
`RemoveConfig("billing")` returns not-found and the namespace is still stored;
with both stored (`World.storedOnly`) the result is that of `DeleteByName`. -/
theorem C9_remove_config_fail_fast_witness :
    ((((memEnv (MemConfigurer.none JVal)).service jsonCodec).RemoveConfig "billing"
        World.namespaceOnly).1 = some ErrNotFound
      ∧ (((memEnv (MemConfigurer.none JVal)).service jsonCodec).RemoveConfig "billing"
        World.namespaceOnly).2.st.namespaces "billing" = some { Name := "billing" })
    ∧ ((memEnv (MemConfigurer.none JVal)).loader.RemoveConfig "billing" World.storedOnly).1
        = none := by
  have h := C9_remove_config_fail_fast jsonCodec (memEnv (MemConfigurer.none JVal)).loader
    (memEnv (MemConfigurer.none JVal)) World.namespaceOnly "billing" ErrNotFound
    (MemConfigurer.none JVal) World.namespaceOnly
  have h' := C9_remove_config_fail_fast jsonCodec (memEnv (MemConfigurer.none JVal)).loader
    (memEnv (MemConfigurer.none JVal)) World.storedOnly "billing" ErrNotFound
    (MemConfigurer.none JVal) World.storedOnly
  refine ⟨⟨?_, ?_⟩, ?_⟩
  · exact (h.2.2.1 (by decide)).1
  · rw [(h.2.2.1 (by decide)).2.1]; decide
  · rw [h'.2.2.2 (by decide)]; decide

/-! ## Keys and tags -/

theorem append_left_cancel_string {a b c : String} (h : a ++ b = a ++ c) : b = c := by
  have h2 := congrArg String.data h
  simp only [String.data_append] at h2
  exact String.ext (List.append_cancel_left h2)

theorem ns_key_ne_pref_key (n s : String) :
    "settings:ns:name:" ++ n ≠ "settings:pref:ns:key:" ++ s := by
  intro h
  have h2 := congrArg String.data h
  simp only [String.data_append] at h2
  have h3 := congrArg (fun l => l.get? 9) h2
  revert h3
  simp

theorem pref_key_assoc (ns key : String) :
    "settings:pref:ns:key:" ++ ns ++ ":" ++ key
      = "settings:pref:ns:key:" ++ (ns ++ ":" ++ key) := by
  simp [String.append_assoc]

theorem pref_tag_assoc (ns key : String) :
    "settings:pref:tag:" ++ ns ++ ":" ++ key = "settings:pref:tag:" ++ (ns ++ ":" ++ key) := by
  simp [String.append_assoc]

/-! ## The cache invariant -/

theorem CacheInv.empty (c : String → Option (CacheVal × List String))
    (h : ∀ key, c key = none) : CacheInv c := by
  intro key v tags hk
  rw [h key] at hk
  cases hk

theorem CacheInv.delByTag {c : String → Option (CacheVal × List String)} (h : CacheInv c)
    (tag : String) : CacheInv (MemState.delByTag c tag) := by
  intro key v tags hk
  unfold MemState.delByTag at hk
  split at hk
  · rename_i v2 tags2 heq
    split at hk
    · cases hk
    · cases hk
      exact h key v tags heq
  · cases hk

theorem CacheInv.setPref {c : String → Option (CacheVal × List String)} (h : CacheInv c)
    (s : String) (v : CacheVal) :
    CacheInv (fun k => if k = "settings:pref:ns:key:" ++ s then
      some (v, ["settings:pref:tag:" ++ s]) else c k) := by
  intro key v2 tags hk
  by_cases hkey : key = "settings:pref:ns:key:" ++ s
  · simp only [hkey, if_true] at hk
    cases hk
    subst hkey
    refine ⟨?_, ?_⟩
    · intro s2 h2
      rw [append_left_cancel_string h2]
      simp
    · intro n h2
      exact absurd h2.symm (ns_key_ne_pref_key n s)
  · simp only [hkey, if_false] at hk
    exact h key v2 tags hk

theorem CacheInv.setNs {c : String → Option (CacheVal × List String)} (h : CacheInv c)
    (n : String) (v : CacheVal) :
    CacheInv (fun k => if k = "settings:ns:name:" ++ n then
      some (v, ["settings:ns:tag:" ++ n]) else c k) := by
  intro key v2 tags hk
  by_cases hkey : key = "settings:ns:name:" ++ n
  · simp only [hkey, if_true] at hk
    cases hk
    subst hkey
    refine ⟨?_, ?_⟩
    · intro s h2
      exact absurd h2 (ns_key_ne_pref_key n s)
    · intro n2 h2
      rw [append_left_cancel_string h2]
      simp
  · simp only [hkey, if_false] at hk
    exact h key v2 tags hk

theorem CacheInv.miss_pref {c : String → Option (CacheVal × List String)} (h : CacheInv c)
    (s : String) :
    MemState.delByTag c ("settings:pref:tag:" ++ s) ("settings:pref:ns:key:" ++ s) = none := by
  unfold MemState.delByTag
  split
  · rename_i v tags heq
    simp [(h _ v tags heq).1 s rfl]
  · rfl

theorem CacheInv.miss_ns {c : String → Option (CacheVal × List String)} (h : CacheInv c)
    (n : String) :
    MemState.delByTag c ("settings:ns:tag:" ++ n) ("settings:ns:name:" ++ n) = none := by
  unfold MemState.delByTag
  split
  · rename_i v tags heq
    simp [(h _ v tags heq).2 n rfl]
  · rfl

theorem CacheInv.miss_pref_key {c : String → Option (CacheVal × List String)}
    (h : CacheInv c) (ns key : String) :
    MemState.delByTag c ("settings:pref:tag:" ++ ns ++ ":" ++ key)
      ("settings:pref:ns:key:" ++ ns ++ ":" ++ key) = none := by
  rw [pref_key_assoc, pref_tag_assoc]
  exact h.miss_pref _

theorem delByTag_none {c : String → Option (CacheVal × List String)} {key : String}
    (h : c key = none) (tag : String) : MemState.delByTag c tag key = none := by
  simp [MemState.delByTag, h]

/-! ## The operations keep the cache invariant -/

theorem Pres.pure {α : Type} (a : α) : Pres (pure a : M MemState α) :=
  fun _ h => h

theorem Pres.bind {α β : Type} {m : M MemState α} {f : α → M MemState β} (hm : Pres m)
    (hf : ∀ a, Pres (f a)) : Pres (m >>= f) :=
  fun w h => hf _ _ (hm w h)

theorem Pres.call {α : Type} (e : Event) (h : MemState → α × MemState)
    (hc : ∀ s, CacheInv s.cache → CacheInv (h s).2.cache) : Pres (call e h) :=
  fun w hw => hc w.st hw

theorem Pres.nsFindByName {Val : Type} (cfg : MemConfigurer Val) (name : String) :
    Pres ((memEnv cfg).nsRepo.FindByName name) := by
  apply Pres.call
  intro s hs
  simp only [memEnv]
  split <;> exact hs

theorem Pres.nsDeleteByName {Val : Type} (cfg : MemConfigurer Val) (name : String) :
    Pres ((memEnv cfg).nsRepo.DeleteByName name) := by
  apply Pres.call
  intro s hs
  simp only [memEnv]
  split <;> exact hs

theorem Pres.nsSave {Val : Type} (cfg : MemConfigurer Val) (n : Namespace) :
    Pres ((memEnv cfg).nsRepo.Save n) := by
  apply Pres.call
  intro s hs
  exact hs

theorem Pres.prefFindByNsAndKey {Val : Type} (cfg : MemConfigurer Val) (ns key : String) :
    Pres ((memEnv cfg).prefRepo.FindByNsAndKey ns key) := by
  apply Pres.call
  intro s hs
  simp only [memEnv]
  split <;> exact hs

theorem Pres.prefDeleteByNsAndKey {Val : Type} (cfg : MemConfigurer Val) (ns key : String) :
    Pres ((memEnv cfg).prefRepo.DeleteByNsAndKey ns key) := by
  apply Pres.call
  intro s hs
  simp only [memEnv]
  split <;> exact hs

theorem Pres.prefSave {Val : Type} (cfg : MemConfigurer Val) (p : Preference) :
    Pres ((memEnv cfg).prefRepo.Save p) := by
  apply Pres.call
  intro s hs
  exact hs

theorem Pres.cacheGetNamespace {Val : Type} (cfg : MemConfigurer Val) (key : String) :
    Pres ((memEnv cfg).cache.GetNamespace key) := by
  apply Pres.call
  intro s hs
  simp only [memEnv]
  split <;> exact hs

theorem Pres.cacheGetPreference {Val : Type} (cfg : MemConfigurer Val) (key : String) :
    Pres ((memEnv cfg).cache.GetPreference key) := by
  apply Pres.call
  intro s hs
  simp only [memEnv]
  split <;> exact hs

theorem Pres.cacheDelByTag {Val : Type} (cfg : MemConfigurer Val) (tag : String) :
    Pres ((memEnv cfg).cache.DelByTag tag) := by
  apply Pres.call
  intro s hs
  exact hs.delByTag tag

theorem Pres.cacheSetNs {Val : Type} (cfg : MemConfigurer Val) (n : String) (v : CacheVal) :
    Pres ((memEnv cfg).cache.Set ("settings:ns:name:" ++ n) v ["settings:ns:tag:" ++ n]) := by
  apply Pres.call
  intro s hs
  exact hs.setNs n v

theorem Pres.cacheSetPref {Val : Type} (cfg : MemConfigurer Val) (ns key : String)
    (v : CacheVal) :
    Pres ((memEnv cfg).cache.Set ("settings:pref:ns:key:" ++ ns ++ ":" ++ key) v
      ["settings:pref:tag:" ++ ns ++ ":" ++ key]) := by
  apply Pres.call
  intro s hs
  rw [pref_key_assoc, pref_tag_assoc]
  exact hs.setPref (ns ++ ":" ++ key) v

theorem Pres.cfgHas {Val : Type} (cfg : MemConfigurer Val) (name : String) :
    Pres ((memEnv cfg).configurer.Has name) := by
  apply Pres.call
  intro s hs
  exact hs

theorem Pres.cfgUnmarshalKey {Val : Type} (cfg : MemConfigurer Val) (name : String)
    (out : Val) : Pres ((memEnv cfg).configurer.UnmarshalKey name out) := by
  apply Pres.call
  intro s hs
  exact hs

theorem Pres.cfgUnmarshalKeyString {Val : Type} (cfg : MemConfigurer Val) (name : String)
    (out : String) : Pres ((memEnv cfg).configurer.UnmarshalKeyString name out) := by
  apply Pres.call
  intro s hs
  exact hs

theorem Pres.cacheNsFindByName {Val : Type} (cfg : MemConfigurer Val) (name : String) :
    Pres ((memEnv cfg).cacheNsRepo.FindByName name) := by
  unfold CacheNamespaceRepository.FindByName
  refine Pres.bind (Pres.cacheGetNamespace cfg _) ?_
  intro r
  cases r with
  | ok cached => exact Pres.pure _
  | error err =>
    refine Pres.bind (Pres.nsFindByName cfg name) ?_
    intro r2
    cases r2 with
    | error err2 => exact Pres.pure _
    | ok found =>
      refine Pres.bind (Pres.cacheSetNs cfg name _) ?_
      intro _
      exact Pres.pure _

theorem Pres.cacheNsDeleteByName {Val : Type} (cfg : MemConfigurer Val) (name : String) :
    Pres ((memEnv cfg).cacheNsRepo.DeleteByName name) := by
  unfold CacheNamespaceRepository.DeleteByName CacheNamespaceRepository.del
  refine Pres.bind (Pres.nsDeleteByName cfg name) ?_
  intro r
  refine Pres.bind (Pres.bind (Pres.cacheDelByTag cfg _) ?_) ?_
  · intro _
    exact Pres.pure _
  · intro _
    exact Pres.pure _

theorem Pres.cacheNsSave {Val : Type} (cfg : MemConfigurer Val) (n : Namespace) :
    Pres ((memEnv cfg).cacheNsRepo.Save n) := by
  unfold CacheNamespaceRepository.Save CacheNamespaceRepository.del
  refine Pres.bind (Pres.nsSave cfg n) ?_
  intro r
  refine Pres.bind (Pres.bind (Pres.cacheDelByTag cfg _) ?_) ?_
  · intro _
    exact Pres.pure _
  · intro _
    exact Pres.pure _

theorem Pres.cachePrefFindByNsAndKey {Val : Type} (cfg : MemConfigurer Val)
    (ns key : String) : Pres ((memEnv cfg).cachePrefRepo.FindByNsAndKey ns key) := by
  unfold CachePreferenceRepository.FindByNsAndKey
  refine Pres.bind (Pres.cacheGetPreference cfg _) ?_
  intro r
  cases r with
  | ok cached => exact Pres.pure _
  | error err =>
    refine Pres.bind (Pres.prefFindByNsAndKey cfg ns key) ?_
    intro r2
    cases r2 with
    | error err2 => exact Pres.pure _
    | ok found =>
      refine Pres.bind (Pres.cacheSetPref cfg ns key _) ?_
      intro _
      exact Pres.pure _

theorem Pres.cachePrefDeleteByNsAndKey {Val : Type} (cfg : MemConfigurer Val)
    (ns key : String) : Pres ((memEnv cfg).cachePrefRepo.DeleteByNsAndKey ns key) := by
  unfold CachePreferenceRepository.DeleteByNsAndKey CachePreferenceRepository.del
  refine Pres.bind (Pres.prefDeleteByNsAndKey cfg ns key) ?_
  intro r
  refine Pres.bind (Pres.bind (Pres.cacheDelByTag cfg _) ?_) ?_
  · intro _
    exact Pres.pure _
  · intro _
    exact Pres.pure _

theorem Pres.cachePrefSave {Val : Type} (cfg : MemConfigurer Val) (p : Preference) :
    Pres ((memEnv cfg).cachePrefRepo.Save p) := by
  unfold CachePreferenceRepository.Save CachePreferenceRepository.del
  refine Pres.bind (Pres.prefSave cfg p) ?_
  intro r
  refine Pres.bind (Pres.bind (Pres.cacheDelByTag cfg _) ?_) ?_
  · intro _
    exact Pres.pure _
  · intro _
    exact Pres.pure _

/-- The loader that `NewService` builds over the in-memory collaborators. -/
theorem NewLoader_memEnv {Val : Type} (cfg : MemConfigurer Val) :
    NewLoader (memEnv cfg).nsRepo (memEnv cfg).prefRepo (memEnv cfg).cache
      = { NsRepo := (memEnv cfg).cacheNsRepo.toRepo,
          PrefRepo := (memEnv cfg).cachePrefRepo.toRepo } := rfl

theorem Pres.getConfiguration {Val : Type} (cfg : MemConfigurer Val) (ns : String) :
    Pres ((NewLoader (memEnv cfg).nsRepo (memEnv cfg).prefRepo
      (memEnv cfg).cache).getConfiguration ns) := by
  unfold Loader.getConfiguration
  refine Pres.bind (Pres.cachePrefFindByNsAndKey cfg ns _) ?_
  intro r
  cases r <;> exact Pres.pure _

theorem Pres.getSystemValue {Val : Type} (codec : Codec Val) (cfg : MemConfigurer Val)
    (key : String) :
    Pres ((NewLoader (memEnv cfg).nsRepo (memEnv cfg).prefRepo
      (memEnv cfg).cache).getSystemValue codec key) := by
  unfold Loader.getSystemValue Loader.getSystemValueByKey
  refine Pres.bind (Pres.bind (Pres.cachePrefFindByNsAndKey cfg _ key) ?_) ?_
  · intro r
    cases r <;> exact Pres.pure _
  · intro r
    cases r with
    | error err => exact Pres.pure _
    | ok pref =>
      simp only []
      split <;> exact Pres.pure _

theorem Pres.saveConfig {Val : Type} (codec : Codec Val) (cfg : MemConfigurer Val)
    (ns key : String) (config : Val) :
    Pres ((NewLoader (memEnv cfg).nsRepo (memEnv cfg).prefRepo
      (memEnv cfg).cache).saveConfig codec ns key config) := by
  unfold Loader.saveConfig
  refine Pres.bind (Pres.cacheNsSave cfg _) ?_
  intro r
  cases r with
  | some err => exact Pres.pure _
  | none =>
    simp only []
    split
    · exact Pres.pure _
    · exact Pres.cachePrefSave cfg _

theorem Pres.loaderLoadConfig {Val : Type} (codec : Codec Val) (cfg : MemConfigurer Val)
    (ns : String) (config : Val) :
    Pres ((NewLoader (memEnv cfg).nsRepo (memEnv cfg).prefRepo
      (memEnv cfg).cache).LoadConfig codec ns config) := by
  unfold Loader.LoadConfig
  refine Pres.bind (Pres.cacheNsFindByName cfg ns) ?_
  intro r
  cases r with
  | error err => exact Pres.pure _
  | ok found =>
    refine Pres.bind (Pres.getConfiguration cfg ns) ?_
    intro r2
    cases r2 <;> exact Pres.pure _

theorem Pres.loaderRemoveConfig {Val : Type} (cfg : MemConfigurer Val) (ns : String) :
    Pres ((NewLoader (memEnv cfg).nsRepo (memEnv cfg).prefRepo
      (memEnv cfg).cache).RemoveConfig ns) := by
  unfold Loader.RemoveConfig
  refine Pres.bind (Pres.cachePrefDeleteByNsAndKey cfg ns _) ?_
  intro r
  cases r with
  | some err => exact Pres.pure _
  | none => exact Pres.cacheNsDeleteByName cfg ns

theorem Pres.loaderLoadConfigByNamespace {Val : Type} (codec : Codec Val)
    (cfg : MemConfigurer Val) (ns : String) (config : Val) :
    Pres ((NewLoader (memEnv cfg).nsRepo (memEnv cfg).prefRepo
      (memEnv cfg).cache).LoadConfigByNamespace codec ns config) := by
  unfold Loader.LoadConfigByNamespace Loader.GetNamespaceValue
  refine Pres.bind (Pres.getSystemValue codec cfg ns) ?_
  intro r
  obtain ⟨value, err⟩ := r
  cases err with
  | some err => exact Pres.pure _
  | none => exact Pres.loaderLoadConfig codec cfg value config

theorem Pres.loaderSaveConfigByNamespace {Val : Type} (codec : Codec Val)
    (cfg : MemConfigurer Val) (ns : String) (config : Val) :
    Pres ((NewLoader (memEnv cfg).nsRepo (memEnv cfg).prefRepo
      (memEnv cfg).cache).SaveConfigByNamespace codec ns config) := by
  unfold Loader.SaveConfigByNamespace Loader.GetNamespaceValue
  refine Pres.bind (Pres.getSystemValue codec cfg ns) ?_
  intro r
  obtain ⟨value, err⟩ := r
  cases err with
  | some err => exact Pres.pure _
  | none => exact Pres.saveConfig codec cfg value _ config

theorem Pres.loaderRemoveConfigByNamespace {Val : Type} (codec : Codec Val)
    (cfg : MemConfigurer Val) (ns : String) :
    Pres ((NewLoader (memEnv cfg).nsRepo (memEnv cfg).prefRepo
      (memEnv cfg).cache).RemoveConfigByNamespace codec ns) := by
  unfold Loader.RemoveConfigByNamespace Loader.GetNamespaceValue
  refine Pres.bind (Pres.getSystemValue codec cfg ns) ?_
  intro r
  obtain ⟨value, err⟩ := r
  cases err with
  | some err => exact Pres.pure _
  | none => exact Pres.loaderRemoveConfig cfg value

theorem Pres.serviceGetNamespaceValue {Val : Type} (codec : Codec Val)
    (cfg : MemConfigurer Val) (ns : String) :
    Pres (((memEnv cfg).service codec).GetNamespaceValue ns) := by
  show Pres (ConfigurerLoader.GetNamespaceValue codec _ ns)
  unfold ConfigurerLoader.GetNamespaceValue
  refine Pres.bind (Pres.getSystemValue codec cfg ns) ?_
  intro r
  obtain ⟨value, err⟩ := r
  cases err with
  | none => exact Pres.pure _
  | some err =>
    refine Pres.bind (Pres.cfgHas cfg ns) ?_
    intro b
    cases b with
    | false => exact Pres.pure _
    | true =>
      refine Pres.bind (Pres.cfgUnmarshalKeyString cfg ns value) ?_
      intro r2
      obtain ⟨value2, err2⟩ := r2
      cases err2 with
      | some err2 => exact Pres.pure _
      | none =>
        simp only []
        split
        · exact Pres.pure _
        · refine Pres.bind (Pres.cacheSetPref cfg _ _ _) ?_
          intro _
          exact Pres.pure _

theorem Pres.serviceLoadConfig {Val : Type} (codec : Codec Val) (cfg : MemConfigurer Val)
    (ns : String) (config : Val) :
    Pres (((memEnv cfg).service codec).LoadConfig ns config) := by
  show Pres (ConfigurerLoader.LoadConfig codec _ ns config)
  unfold ConfigurerLoader.LoadConfig
  refine Pres.bind (Pres.loaderLoadConfig codec cfg ns config) ?_
  intro r
  obtain ⟨config1, err⟩ := r
  cases err with
  | none => exact Pres.pure _
  | some err =>
    refine Pres.bind (Pres.cfgHas cfg ns) ?_
    intro b
    cases b with
    | false => exact Pres.pure _
    | true =>
      refine Pres.bind (Pres.cfgUnmarshalKey cfg ns config1) ?_
      intro r2
      obtain ⟨config2, err2⟩ := r2
      cases err2 with
      | some err2 => exact Pres.pure _
      | none =>
        simp only []
        split
        · exact Pres.pure _
        · refine Pres.bind (Pres.cacheSetNs cfg ns _) ?_
          intro _
          refine Pres.bind (Pres.cacheSetPref cfg _ _ _) ?_
          intro _
          exact Pres.pure _

theorem Pres.serviceLoadConfigByNamespace {Val : Type} (codec : Codec Val)
    (cfg : MemConfigurer Val) (ns : String) (config : Val) :
    Pres (((memEnv cfg).service codec).LoadConfigByNamespace ns config) := by
  show Pres (ConfigurerLoader.LoadConfigByNamespace codec _ ns config)
  unfold ConfigurerLoader.LoadConfigByNamespace
  refine Pres.bind (Pres.serviceGetNamespaceValue codec cfg ns) ?_
  intro r
  obtain ⟨value, err⟩ := r
  cases err with
  | some err => exact Pres.pure _
  | none => exact Pres.serviceLoadConfig codec cfg value config

theorem Pres.op {Val : Type} (codec : Codec Val) (cfg : MemConfigurer Val) (op : Op Val)
    (w : World MemState) (h : CacheInv w.st.cache) : CacheInv (op.run codec cfg w).st.cache := by
  cases op with
  | nsFindByName name => exact Pres.cacheNsFindByName cfg name w h
  | nsDeleteByName name => exact Pres.cacheNsDeleteByName cfg name w h
  | nsSave n => exact Pres.cacheNsSave cfg n w h
  | prefFindByNsAndKey ns key => exact Pres.cachePrefFindByNsAndKey cfg ns key w h
  | prefDeleteByNsAndKey ns key => exact Pres.cachePrefDeleteByNsAndKey cfg ns key w h
  | prefSave p => exact Pres.cachePrefSave cfg p w h
  | getNamespaceValue ns => exact Pres.serviceGetNamespaceValue codec cfg ns w h
  | setNamespaceValue ns value => exact Pres.saveConfig codec cfg _ ns _ w h
  | removeNamespaceValue ns => exact Pres.cachePrefDeleteByNsAndKey cfg _ ns w h
  | loadConfigByNamespace ns config =>
    exact Pres.serviceLoadConfigByNamespace codec cfg ns config w h
  | saveConfigByNamespace ns config =>
    exact Pres.loaderSaveConfigByNamespace codec cfg ns config w h
  | removeConfigByNamespace ns => exact Pres.loaderRemoveConfigByNamespace codec cfg ns w h
  | loadConfig ns config => exact Pres.serviceLoadConfig codec cfg ns config w h
  | saveConfig ns config => exact Pres.saveConfig codec cfg ns _ config w h
  | removeConfig ns => exact Pres.loaderRemoveConfig cfg ns w h

theorem Reachable.cacheInv {Val : Type} {codec : Codec Val} {w : World MemState}
    (h : Reachable codec w) : CacheInv w.st.cache := by
  induction h with
  | init w h => exact CacheInv.empty _ h
  | step w cfg op _ ih => exact Pres.op codec cfg op w ih

/-! ## The decorated repositories over the in-memory collaborators -/

theorem mem_cachePrefSave {Val : Type} (cfg : MemConfigurer Val) (p : Preference)
    (w : World MemState) :
    (memEnv cfg).cachePrefRepo.Save p w =
      (none,
        { st :=
            { namespaces := w.st.namespaces
              preferences := fun a b =>
                if a = p.Namespace ∧ b = p.Key then some p else w.st.preferences a b
              cache := MemState.delByTag w.st.cache
                ("settings:pref:tag:" ++ p.Namespace ++ ":" ++ p.Key) }
          log := w.log ++ [.prefSave p,
            .cacheDelByTag ("settings:pref:tag:" ++ p.Namespace ++ ":" ++ p.Key)] }) := by
  simp [CachePreferenceRepository.Save, CachePreferenceRepository.del, Env.cachePrefRepo,
    Env.prefRepo, Env.cache, memEnv, M.bind_apply, M.pure_apply, call_apply]

theorem mem_cacheNsSave {Val : Type} (cfg : MemConfigurer Val) (n : Namespace)
    (w : World MemState) :
    (memEnv cfg).cacheNsRepo.Save n w =
      (none,
        { st :=
            { namespaces := fun k => if k = n.Name then some n else w.st.namespaces k
              preferences := w.st.preferences
              cache := MemState.delByTag w.st.cache ("settings:ns:tag:" ++ n.Name) }
          log := w.log ++ [.nsSave n, .cacheDelByTag ("settings:ns:tag:" ++ n.Name)] }) := by
  simp [CacheNamespaceRepository.Save, CacheNamespaceRepository.del, Env.cacheNsRepo,
    Env.nsRepo, Env.cache, memEnv, M.bind_apply, M.pure_apply, call_apply]

theorem mem_cachePrefFind_miss {Val : Type} (cfg : MemConfigurer Val) (ns key : String)
    (p : Preference) (w : World MemState)
    (hc : w.st.cache ("settings:pref:ns:key:" ++ ns ++ ":" ++ key) = none)
    (hp : w.st.preferences ns key = some p) :
    (memEnv cfg).cachePrefRepo.FindByNsAndKey ns key w =
      (.ok p,
        { st :=
            { namespaces := w.st.namespaces
              preferences := w.st.preferences
              cache := fun k =>
                if k = "settings:pref:ns:key:" ++ ns ++ ":" ++ key then
                  some (.pref p, ["settings:pref:tag:" ++ ns ++ ":" ++ key])
                else w.st.cache k }
          log := w.log ++ [.cacheGet ("settings:pref:ns:key:" ++ ns ++ ":" ++ key),
            .prefFindByNsAndKey ns key,
            .cacheSet ("settings:pref:ns:key:" ++ ns ++ ":" ++ key) (.pref p)
              ["settings:pref:tag:" ++ ns ++ ":" ++ key]] }) := by
  simp [CachePreferenceRepository.FindByNsAndKey, Env.cachePrefRepo, Env.prefRepo, Env.cache,
    memEnv, M.bind_apply, M.pure_apply, call_apply, hc, hp]

theorem mem_cacheNsFind_miss {Val : Type} (cfg : MemConfigurer Val) (name : String)
    (n : Namespace) (w : World MemState)
    (hc : w.st.cache ("settings:ns:name:" ++ name) = none)
    (hn : w.st.namespaces name = some n) :
    (memEnv cfg).cacheNsRepo.FindByName name w =
      (.ok n,
        { st :=
            { namespaces := w.st.namespaces
              preferences := w.st.preferences
              cache := fun k =>
                if k = "settings:ns:name:" ++ name then
                  some (.ns n, ["settings:ns:tag:" ++ name])
                else w.st.cache k }
          log := w.log ++ [.cacheGet ("settings:ns:name:" ++ name), .nsFindByName name,
            .cacheSet ("settings:ns:name:" ++ name) (.ns n) ["settings:ns:tag:" ++ name]] }) := by
  simp [CacheNamespaceRepository.FindByName, Env.cacheNsRepo, Env.nsRepo, Env.cache,
    memEnv, M.bind_apply, M.pure_apply, call_apply, hc, hn]

/-- C1: in every reachable in-memory world, `Save(x)` through the decorated
preference repository succeeds and the following `FindByNsAndKey` of the
identity of `x` returns `x`, whatever was cached for it before; likewise
`Save(n)` and `FindByName` through the decorated namespace repository. -/
theorem C1_cache_coherence {Val : Type} (codec : Codec Val) (cfg : MemConfigurer Val)
    (w : World MemState) (x : Preference) (n : Namespace) (h : Reachable codec w) :
    (((memEnv cfg).cachePrefRepo.Save x w).1 = none
      ∧ ((memEnv cfg).cachePrefRepo.FindByNsAndKey x.Namespace x.Key
          ((memEnv cfg).cachePrefRepo.Save x w).2).1 = .ok x)
    ∧ (((memEnv cfg).cacheNsRepo.Save n w).1 = none
      ∧ ((memEnv cfg).cacheNsRepo.FindByName n.Name
          ((memEnv cfg).cacheNsRepo.Save n w).2).1 = .ok n) := by
  have hinv := h.cacheInv
  refine ⟨⟨?_, ?_⟩, ⟨?_, ?_⟩⟩
  · rw [mem_cachePrefSave]
  · rw [mem_cachePrefSave]
    rw [mem_cachePrefFind_miss cfg x.Namespace x.Key x _ (hinv.miss_pref_key _ _) (by simp)]
  · rw [mem_cacheNsSave]
  · rw [mem_cacheNsSave]
    rw [mem_cacheNsFind_miss cfg n.Name n _ (hinv.miss_ns _) (by simp)]

/-! ## The service over the in-memory collaborators -/

theorem mem_saveConfig {Val : Type} (codec : Codec Val) (cfg : MemConfigurer Val)
    (ns key : String) (config : Val) (w : World MemState)
    (hm : (codec.Marshal config).2 = none) :
    (NewLoader (memEnv cfg).nsRepo (memEnv cfg).prefRepo (memEnv cfg).cache).saveConfig
        codec ns key config w =
      (memEnv cfg).cachePrefRepo.Save
        { Namespace := ns, Key := key, Value := (codec.Marshal config).1 }
        ((memEnv cfg).cacheNsRepo.Save { Name := ns } w).2 := by
  have h1 : ((memEnv cfg).cacheNsRepo.Save { Name := ns } w).1 = none := by
    rw [mem_cacheNsSave]
  simp only [Loader.saveConfig, NewLoader, CacheNamespaceRepository.toRepo,
    CachePreferenceRepository.toRepo, M.bind_apply, Preference.SetValue]
  simp only [Env.cacheNsRepo] at h1
  rw [h1, hm]
  rfl

theorem mem_saveConfig_marshal_error {Val : Type} (codec : Codec Val)
    (cfg : MemConfigurer Val) (ns key : String) (config : Val) (w : World MemState)
    (e : GoError) (hm : (codec.Marshal config).2 = some e) :
    ((NewLoader (memEnv cfg).nsRepo (memEnv cfg).prefRepo (memEnv cfg).cache).saveConfig
        codec ns key config w).1 = some e := by
  have h1 : ((memEnv cfg).cacheNsRepo.Save { Name := ns } w).1 = none := by
    rw [mem_cacheNsSave]
  simp only [Loader.saveConfig, NewLoader, CacheNamespaceRepository.toRepo,
    CachePreferenceRepository.toRepo, M.bind_apply, Preference.SetValue]
  simp only [Env.cacheNsRepo] at h1
  rw [h1, hm]
  rfl

theorem mem_loaderLoadConfig_after_save {Val : Type} (codec : Codec Val)
    (cfg : MemConfigurer Val) (ns : String) (out : Val) (p : Preference) (n : Namespace)
    (w : World MemState)
    (hc1 : w.st.cache ("settings:ns:name:" ++ ns) = none)
    (hc2 : w.st.cache ("settings:pref:ns:key:" ++ ns ++ ":" ++ "configuration") = none)
    (hn : w.st.namespaces ns = some n)
    (hp : w.st.preferences ns "configuration" = some p) :
    ((NewLoader (memEnv cfg).nsRepo (memEnv cfg).prefRepo (memEnv cfg).cache).LoadConfig
        codec ns out w).1 = p.LoadValue codec out := by
  have h1 := mem_cacheNsFind_miss cfg ns n w hc1 hn
  have hc3 : (((memEnv cfg).cacheNsRepo.FindByName ns w).2).st.cache
      ("settings:pref:ns:key:" ++ ns ++ ":" ++ "configuration") = none := by
    rw [h1]
    have hne : "settings:pref:ns:key:" ++ ns ++ ":" ++ "configuration"
        ≠ "settings:ns:name:" ++ ns := by
      rw [pref_key_assoc]
      exact fun h => ns_key_ne_pref_key _ _ h.symm
    simp only [hne, if_false]
    exact hc2
  have hp3 : (((memEnv cfg).cacheNsRepo.FindByName ns w).2).st.preferences ns "configuration"
      = some p := by
    rw [h1]
    exact hp
  have h2 := mem_cachePrefFind_miss cfg ns "configuration" p _ hc3 hp3
  have h1' : ((memEnv cfg).cacheNsRepo.FindByName ns w).1 = .ok n := by rw [h1]
  simp only [Env.cacheNsRepo, Env.cachePrefRepo] at h1' h2
  simp only [Loader.LoadConfig, Loader.getConfiguration, NewLoader,
    CacheNamespaceRepository.toRepo, CachePreferenceRepository.toRepo, M.bind_apply,
    keyConfiguration, h1', h2, M.pure_apply]

/-- C10: in every reachable in-memory world, for a config whose serialization
round-trips into the target, a successful `SaveConfig(ns, config)` through the
service `NewService` builds, followed by `LoadConfig(ns, &out)`, returns no
error and leaves `config` in the target. -/
theorem C10_save_load_round_trip {Val : Type} (codec : Codec Val) (cfg : MemConfigurer Val)
    (w : World MemState) (ns : String) (config out : Val) (h : Reachable codec w)
    (hsave : (((memEnv cfg).service codec).SaveConfig ns config w).1 = none)
    (hrt : Preference.LoadValue codec
      (Preference.SetValue codec { Namespace := ns, Key := "configuration" } config).1 out
        = (config, none)) :
    (((memEnv cfg).service codec).LoadConfig ns out
      (((memEnv cfg).service codec).SaveConfig ns config w).2).1 = (config, none) := by
  have hinv := h.cacheInv
  have hsave' : ((NewLoader (memEnv cfg).nsRepo (memEnv cfg).prefRepo
      (memEnv cfg).cache).saveConfig codec ns "configuration" config w).1 = none := hsave
  have hm : (codec.Marshal config).2 = none := by
    cases hme : (codec.Marshal config).2 with
    | none => rfl
    | some e =>
      rw [mem_saveConfig_marshal_error codec cfg ns "configuration" config w e hme] at hsave'
      cases hsave'
  have hw : (((memEnv cfg).service codec).SaveConfig ns config w).2
      = ((memEnv cfg).cachePrefRepo.Save
          { Namespace := ns, Key := "configuration", Value := (codec.Marshal config).1 }
          ((memEnv cfg).cacheNsRepo.Save { Name := ns } w).2).2 :=
    congrArg Prod.snd (mem_saveConfig codec cfg ns "configuration" config w hm)
  have hcore : ((NewLoader (memEnv cfg).nsRepo (memEnv cfg).prefRepo
      (memEnv cfg).cache).LoadConfig codec ns out
        (((memEnv cfg).service codec).SaveConfig ns config w).2).1 = (config, none) := by
    rw [hw, mem_cachePrefSave, mem_cacheNsSave]
    rw [mem_loaderLoadConfig_after_save codec cfg ns out
      { Namespace := ns, Key := "configuration", Value := (codec.Marshal config).1 }
      { Name := ns }]
    · exact hrt
    · exact delByTag_none (hinv.miss_ns ns) _
    · exact (hinv.delByTag _).miss_pref_key ns "configuration"
    · simp
    · simp
  show (ConfigurerLoader.LoadConfig codec _ ns out _).1 = (config, none)
  unfold ConfigurerLoader.LoadConfig
  simp only [M.bind_apply]
  have hcore' : ((NewConfigurerLoader codec (memEnv cfg).nsRepo (memEnv cfg).prefRepo
      (memEnv cfg).configurer (memEnv cfg).cache).Service.LoadConfig ns out
        (((memEnv cfg).service codec).SaveConfig ns config w).2).1 = (config, none) := hcore
  rw [hcore']
  rfl

/-- Witness of C1: in the reachable world `World.staleCache` the cache holds
the old preference and the old namespace; after `Save` of new ones the finds
return the new ones. -/
theorem C1_cache_coherence_witness :
    Reachable jsonCodec World.staleCache
    ∧ World.staleCache.st.cache "settings:pref:ns:key:billing:configuration"
      = some (.pref { Namespace := "billing", Key := "configuration", Value := "\"old\"" },
          ["settings:pref:tag:billing:configuration"])
    ∧ World.staleCache.st.cache "settings:ns:name:billing"
      = some (.ns { Name := "billing" }, ["settings:ns:tag:billing"])
    ∧ ((memEnv (MemConfigurer.none JVal)).cachePrefRepo.FindByNsAndKey "billing" "configuration"
        ((memEnv (MemConfigurer.none JVal)).cachePrefRepo.Save
          { Namespace := "billing", Key := "configuration", Value := "\"new\"" }
          World.staleCache).2).1
      = .ok { Namespace := "billing", Key := "configuration", Value := "\"new\"" }
    ∧ ((memEnv (MemConfigurer.none JVal)).cacheNsRepo.FindByName "billing"
        ((memEnv (MemConfigurer.none JVal)).cacheNsRepo.Save
          { Name := "billing", Created := 7 } World.staleCache).2).1
      = .ok { Name := "billing", Created := 7 } := by
  have hr : Reachable jsonCodec World.staleCache :=
    .step _ _ _ (.step _ _ _ (.step _ _ _ (.step _ _ _ (.init _ (fun _ => rfl)))))
  have h := C1_cache_coherence jsonCodec (MemConfigurer.none JVal) World.staleCache
    { Namespace := "billing", Key := "configuration", Value := "\"new\"" }
    { Name := "billing", Created := 7 } hr
  exact ⟨hr, by decide, by decide, h.1.2, h.2.2⟩

/-- C2 fails on the code: after `Save` of the preference `(a:b, c)` and a
`FindByNsAndKey("a:b", "c")`, the lookup `FindByNsAndKey("a", "b:c")` reads the
same cache key and succeeds with the preference `(a:b, c)`, while the inner
repository holds no preference for the identity `(a, b:c)`. -/
theorem C2_cache_key_collision :
    Reachable jsonCodec World.collision
    ∧ ((memEnv (MemConfigurer.none JVal)).cachePrefRepo.FindByNsAndKey "a" "b:c"
        World.collision).1 = .ok { Namespace := "a:b", Key := "c", Value := "1" }
    ∧ ((memEnv (MemConfigurer.none JVal)).cachePrefRepo.FindByNsAndKey "a" "b:c"
        World.collision).2.log.drop World.collision.log.length
      = [.cacheGet "settings:pref:ns:key:a:b:c"]
    ∧ ((memEnv (MemConfigurer.none JVal)).prefRepo.FindByNsAndKey "a" "b:c"
        World.collision).1 = .error ErrNotFound
    ∧ World.collision.st.preferences "a" "b:c" = none := by
  refine ⟨.step _ _ _ (.step _ _ _ (.init _ (fun _ => rfl))), ?_, ?_, ?_, ?_⟩ <;> decide

/-- Witness of C10: in the reachable world `World.staleCache`, which holds an
older configuration of `billing` in the repository and in the cache,
`SaveConfig("billing", {"plan":"pro"})` succeeds and `LoadConfig("billing")`
then yields `{"plan":"pro"}`. -/
theorem C10_save_load_round_trip_witness :
    Reachable jsonCodec World.staleCache
    ∧ (((memEnv (MemConfigurer.none JVal)).service jsonCodec).SaveConfig "billing"
        (.obj [("plan", "pro")]) World.staleCache).1 = none
    ∧ (((memEnv (MemConfigurer.none JVal)).service jsonCodec).LoadConfig "billing" (.obj [])
        (((memEnv (MemConfigurer.none JVal)).service jsonCodec).SaveConfig "billing"
          (.obj [("plan", "pro")]) World.staleCache).2).1
      = (.obj [("plan", "pro")], none) := by
  have hr : Reachable jsonCodec World.staleCache :=
    .step _ _ _ (.step _ _ _ (.step _ _ _ (.step _ _ _ (.init _ (fun _ => rfl)))))
  exact ⟨hr, by decide,
    C10_save_load_round_trip jsonCodec (MemConfigurer.none JVal) World.staleCache "billing"
      (.obj [("plan", "pro")]) (.obj []) hr (by decide) (by decide)⟩

/-! ## Frames: what the operations may call -/

theorem steps_pure {σ α : Type} {R : World σ → World σ → Prop} (hrefl : ∀ w, R w w) (a : α) :
    Steps R (pure a : M σ α) :=
  fun w => hrefl w

theorem steps_bind {σ α β : Type} {R : World σ → World σ → Prop}
    (htrans : ∀ a b c, R a b → R b c → R a c) {m : M σ α} {f : α → M σ β}
    (hm : Steps R m) (hf : ∀ a, Steps R (f a)) : Steps R (m >>= f) :=
  fun w => htrans _ _ _ (hm w) (hf _ _)

theorem steps_cacheNsFindByName {σ Val : Type} {R : World σ → World σ → Prop}
    {env : Env σ Val} (h : ReadPath R env) (name : String) :
    Steps R (env.cacheNsRepo.FindByName name) := by
  unfold CacheNamespaceRepository.FindByName
  refine steps_bind h.trans (h.cacheGetNamespace _) ?_
  intro r
  cases r with
  | ok cached => exact steps_pure h.refl _
  | error err =>
    refine steps_bind h.trans (h.nsFindByName name) ?_
    intro r2
    cases r2 with
    | error err2 => exact steps_pure h.refl _
    | ok found =>
      refine steps_bind h.trans (h.cacheSet _ _ _) ?_
      intro _
      exact steps_pure h.refl _

theorem steps_cachePrefFindByNsAndKey {σ Val : Type} {R : World σ → World σ → Prop}
    {env : Env σ Val} (h : ReadPath R env) (ns key : String) :
    Steps R (env.cachePrefRepo.FindByNsAndKey ns key) := by
  unfold CachePreferenceRepository.FindByNsAndKey
  refine steps_bind h.trans (h.cacheGetPreference _) ?_
  intro r
  cases r with
  | ok cached => exact steps_pure h.refl _
  | error err =>
    refine steps_bind h.trans (h.prefFindByNsAndKey ns key) ?_
    intro r2
    cases r2 with
    | error err2 => exact steps_pure h.refl _
    | ok found =>
      refine steps_bind h.trans (h.cacheSet _ _ _) ?_
      intro _
      exact steps_pure h.refl _

theorem steps_cacheNsDeleteByName {σ Val : Type} {R : World σ → World σ → Prop}
    {env : Env σ Val} (h : ReadPath R env) (hw : WritePath R env) (name : String) :
    Steps R (env.cacheNsRepo.DeleteByName name) := by
  unfold CacheNamespaceRepository.DeleteByName CacheNamespaceRepository.del
  refine steps_bind h.trans (hw.nsDeleteByName name) ?_
  intro r
  refine steps_bind h.trans (steps_bind h.trans (hw.cacheDelByTag _) ?_) ?_
  · intro _
    exact steps_pure h.refl _
  · intro _
    exact steps_pure h.refl _

theorem steps_cacheNsSave {σ Val : Type} {R : World σ → World σ → Prop}
    {env : Env σ Val} (h : ReadPath R env) (hw : WritePath R env) (n : Namespace) :
    Steps R (env.cacheNsRepo.Save n) := by
  unfold CacheNamespaceRepository.Save CacheNamespaceRepository.del
  refine steps_bind h.trans (hw.nsSave n) ?_
  intro r
  refine steps_bind h.trans (steps_bind h.trans (hw.cacheDelByTag _) ?_) ?_
  · intro _
    exact steps_pure h.refl _
  · intro _
    exact steps_pure h.refl _

theorem steps_cachePrefDeleteByNsAndKey {σ Val : Type} {R : World σ → World σ → Prop}
    {env : Env σ Val} (h : ReadPath R env) (hw : WritePath R env) (ns key : String) :
    Steps R (env.cachePrefRepo.DeleteByNsAndKey ns key) := by
  unfold CachePreferenceRepository.DeleteByNsAndKey CachePreferenceRepository.del
  refine steps_bind h.trans (hw.prefDeleteByNsAndKey ns key) ?_
  intro r
  refine steps_bind h.trans (steps_bind h.trans (hw.cacheDelByTag _) ?_) ?_
  · intro _
    exact steps_pure h.refl _
  · intro _
    exact steps_pure h.refl _

theorem steps_cachePrefSave {σ Val : Type} {R : World σ → World σ → Prop}
    {env : Env σ Val} (h : ReadPath R env) (hw : WritePath R env) (p : Preference) :
    Steps R (env.cachePrefRepo.Save p) := by
  unfold CachePreferenceRepository.Save CachePreferenceRepository.del
  refine steps_bind h.trans (hw.prefSave p) ?_
  intro r
  refine steps_bind h.trans (steps_bind h.trans (hw.cacheDelByTag _) ?_) ?_
  · intro _
    exact steps_pure h.refl _
  · intro _
    exact steps_pure h.refl _

theorem steps_getConfiguration {σ Val : Type} {R : World σ → World σ → Prop}
    {env : Env σ Val} (h : ReadPath R env) (ns : String) :
    Steps R ((NewLoader env.nsRepo env.prefRepo env.cache).getConfiguration ns) := by
  unfold Loader.getConfiguration
  refine steps_bind h.trans (steps_cachePrefFindByNsAndKey h ns _) ?_
  intro r
  cases r <;> exact steps_pure h.refl _

theorem steps_getSystemValue {σ Val : Type} {R : World σ → World σ → Prop}
    {env : Env σ Val} (codec : Codec Val) (h : ReadPath R env) (key : String) :
    Steps R ((NewLoader env.nsRepo env.prefRepo env.cache).getSystemValue codec key) := by
  unfold Loader.getSystemValue Loader.getSystemValueByKey
  refine steps_bind h.trans
    (steps_bind h.trans (steps_cachePrefFindByNsAndKey h _ key) ?_) ?_
  · intro r
    cases r <;> exact steps_pure h.refl _
  · intro r
    cases r with
    | error err => exact steps_pure h.refl _
    | ok pref =>
      simp only []
      split <;> exact steps_pure h.refl _

theorem steps_loaderLoadConfig {σ Val : Type} {R : World σ → World σ → Prop}
    {env : Env σ Val} (codec : Codec Val) (h : ReadPath R env) (ns : String) (config : Val) :
    Steps R ((NewLoader env.nsRepo env.prefRepo env.cache).LoadConfig codec ns config) := by
  unfold Loader.LoadConfig
  refine steps_bind h.trans (steps_cacheNsFindByName h ns) ?_
  intro r
  cases r with
  | error err => exact steps_pure h.refl _
  | ok found =>
    refine steps_bind h.trans (steps_getConfiguration h ns) ?_
    intro r2
    cases r2 <;> exact steps_pure h.refl _

theorem steps_saveConfig {σ Val : Type} {R : World σ → World σ → Prop}
    {env : Env σ Val} (codec : Codec Val) (h : ReadPath R env) (hw : WritePath R env)
    (ns key : String) (config : Val) :
    Steps R ((NewLoader env.nsRepo env.prefRepo env.cache).saveConfig codec ns key config) := by
  unfold Loader.saveConfig
  refine steps_bind h.trans (steps_cacheNsSave h hw _) ?_
  intro r
  cases r with
  | some err => exact steps_pure h.refl _
  | none =>
    simp only []
    split
    · exact steps_pure h.refl _
    · exact steps_cachePrefSave h hw _

theorem steps_loaderRemoveConfig {σ Val : Type} {R : World σ → World σ → Prop}
    {env : Env σ Val} (h : ReadPath R env) (hw : WritePath R env) (ns : String) :
    Steps R ((NewLoader env.nsRepo env.prefRepo env.cache).RemoveConfig ns) := by
  unfold Loader.RemoveConfig
  refine steps_bind h.trans (steps_cachePrefDeleteByNsAndKey h hw ns _) ?_
  intro r
  cases r with
  | some err => exact steps_pure h.refl _
  | none => exact steps_cacheNsDeleteByName h hw ns

theorem steps_loaderSaveConfigByNamespace {σ Val : Type} {R : World σ → World σ → Prop}
    {env : Env σ Val} (codec : Codec Val) (h : ReadPath R env) (hw : WritePath R env)
    (ns : String) (config : Val) :
    Steps R ((NewLoader env.nsRepo env.prefRepo env.cache).SaveConfigByNamespace codec ns
      config) := by
  unfold Loader.SaveConfigByNamespace Loader.GetNamespaceValue
  refine steps_bind h.trans (steps_getSystemValue codec h ns) ?_
  intro r
  obtain ⟨value, err⟩ := r
  cases err with
  | some err => exact steps_pure h.refl _
  | none => exact steps_saveConfig codec h hw value _ config

theorem steps_loaderRemoveConfigByNamespace {σ Val : Type} {R : World σ → World σ → Prop}
    {env : Env σ Val} (codec : Codec Val) (h : ReadPath R env) (hw : WritePath R env)
    (ns : String) :
    Steps R ((NewLoader env.nsRepo env.prefRepo env.cache).RemoveConfigByNamespace codec
      ns) := by
  unfold Loader.RemoveConfigByNamespace Loader.GetNamespaceValue
  refine steps_bind h.trans (steps_getSystemValue codec h ns) ?_
  intro r
  obtain ⟨value, err⟩ := r
  cases err with
  | some err => exact steps_pure h.refl _
  | none => exact steps_loaderRemoveConfig h hw value

theorem steps_serviceGetNamespaceValue {σ Val : Type} {R : World σ → World σ → Prop}
    {env : Env σ Val} (codec : Codec Val) (h : ReadPath R env) (hc : ConfigurerPath R env)
    (ns : String) : Steps R ((env.service codec).GetNamespaceValue ns) := by
  show Steps R (ConfigurerLoader.GetNamespaceValue codec _ ns)
  unfold ConfigurerLoader.GetNamespaceValue
  refine steps_bind h.trans (steps_getSystemValue codec h ns) ?_
  intro r
  obtain ⟨value, err⟩ := r
  cases err with
  | none => exact steps_pure h.refl _
  | some err =>
    refine steps_bind h.trans (hc.cfgHas ns) ?_
    intro b
    cases b with
    | false => exact steps_pure h.refl _
    | true =>
      refine steps_bind h.trans (hc.cfgUnmarshalKeyString ns value) ?_
      intro r2
      obtain ⟨value2, err2⟩ := r2
      cases err2 with
      | some err2 => exact steps_pure h.refl _
      | none =>
        simp only []
        split
        · exact steps_pure h.refl _
        · refine steps_bind h.trans (h.cacheSet _ _ _) ?_
          intro _
          exact steps_pure h.refl _

theorem steps_serviceLoadConfig {σ Val : Type} {R : World σ → World σ → Prop}
    {env : Env σ Val} (codec : Codec Val) (h : ReadPath R env) (hc : ConfigurerPath R env)
    (ns : String) (config : Val) : Steps R ((env.service codec).LoadConfig ns config) := by
  show Steps R (ConfigurerLoader.LoadConfig codec _ ns config)
  unfold ConfigurerLoader.LoadConfig
  refine steps_bind h.trans (steps_loaderLoadConfig codec h ns config) ?_
  intro r
  obtain ⟨config1, err⟩ := r
  cases err with
  | none => exact steps_pure h.refl _
  | some err =>
    refine steps_bind h.trans (hc.cfgHas ns) ?_
    intro b
    cases b with
    | false => exact steps_pure h.refl _
    | true =>
      refine steps_bind h.trans (hc.cfgUnmarshalKey ns config1) ?_
      intro r2
      obtain ⟨config2, err2⟩ := r2
      cases err2 with
      | some err2 => exact steps_pure h.refl _
      | none =>
        simp only []
        split
        · exact steps_pure h.refl _
        · refine steps_bind h.trans (h.cacheSet _ _ _) ?_
          intro _
          refine steps_bind h.trans (h.cacheSet _ _ _) ?_
          intro _
          exact steps_pure h.refl _

theorem steps_serviceLoadConfigByNamespace {σ Val : Type} {R : World σ → World σ → Prop}
    {env : Env σ Val} (codec : Codec Val) (h : ReadPath R env) (hc : ConfigurerPath R env)
    (ns : String) (config : Val) :
    Steps R ((env.service codec).LoadConfigByNamespace ns config) := by
  show Steps R (ConfigurerLoader.LoadConfigByNamespace codec _ ns config)
  unfold ConfigurerLoader.LoadConfigByNamespace
  refine steps_bind h.trans (steps_serviceGetNamespaceValue codec h hc ns) ?_
  intro r
  obtain ⟨value, err⟩ := r
  cases err with
  | some err => exact steps_pure h.refl _
  | none => exact steps_serviceLoadConfig codec h hc value config

theorem logAdds_refl {σ : Type} (ok : Event → Bool) (w : World σ) : LogAdds ok w w :=
  ⟨[], by simp, by simp⟩

theorem logAdds_trans {σ : Type} (ok : Event → Bool) (a b c : World σ)
    (h1 : LogAdds ok a b) (h2 : LogAdds ok b c) : LogAdds ok a c := by
  obtain ⟨l1, e1, p1⟩ := h1
  obtain ⟨l2, e2, p2⟩ := h2
  refine ⟨l1 ++ l2, ?_, ?_⟩
  · rw [e2, e1, List.append_assoc]
  · intro e he
    rcases List.mem_append.mp he with h | h
    · exact p1 e h
    · exact p2 e h

theorem logAdds_call {σ α : Type} (ok : Event → Bool) (e : Event) (h : σ → α × σ)
    (he : ok e = true) : Steps (LogAdds ok) (call e h) :=
  fun _ => ⟨[e], rfl, by simpa using he⟩

theorem logAdds_readPath {σ Val : Type} (ok : Event → Bool) (env : Env σ Val)
    (h : ∀ e, e.isRepoWrite = false → e.isConfigurer = false → ok e = true) :
    ReadPath (LogAdds ok) env where
  refl := logAdds_refl ok
  trans := logAdds_trans ok
  nsFindByName := fun _ => logAdds_call ok _ _ (h _ rfl rfl)
  prefFindByNsAndKey := fun _ _ => logAdds_call ok _ _ (h _ rfl rfl)
  cacheGetNamespace := fun _ => logAdds_call ok _ _ (h _ rfl rfl)
  cacheGetPreference := fun _ => logAdds_call ok _ _ (h _ rfl rfl)
  cacheSet := fun _ _ _ => logAdds_call ok _ _ (h _ rfl rfl)

theorem logAdds_writePath {σ Val : Type} (ok : Event → Bool) (env : Env σ Val)
    (h : ∀ e, e.isConfigurer = false → ok e = true) : WritePath (LogAdds ok) env where
  nsSave := fun _ => logAdds_call ok _ _ (h _ rfl)
  nsDeleteByName := fun _ => logAdds_call ok _ _ (h _ rfl)
  prefSave := fun _ => logAdds_call ok _ _ (h _ rfl)
  prefDeleteByNsAndKey := fun _ _ => logAdds_call ok _ _ (h _ rfl)
  cacheDelByTag := fun _ => logAdds_call ok _ _ (h _ rfl)

theorem logAdds_configurerPath {σ Val : Type} (ok : Event → Bool) (env : Env σ Val)
    (h : ∀ e, e.isRepoWrite = false → ok e = true) : ConfigurerPath (LogAdds ok) env where
  cfgHas := fun _ => logAdds_call ok _ _ (h _ rfl)
  cfgUnmarshalKey := fun _ _ => logAdds_call ok _ _ (h _ rfl)
  cfgUnmarshalKeyString := fun _ _ => logAdds_call ok _ _ (h _ rfl)

theorem sameStore_call {α : Type} (e : Event) (h : MemState → α × MemState)
    (hs : ∀ s, (h s).2.namespaces = s.namespaces ∧ (h s).2.preferences = s.preferences) :
    Steps SameStore (call e h) :=
  fun w => hs w.st

theorem sameStore_readPath {Val : Type} (cfg : MemConfigurer Val) :
    ReadPath SameStore (memEnv cfg) where
  refl := fun _ => ⟨rfl, rfl⟩
  trans := fun _ _ _ h1 h2 => ⟨h2.1.trans h1.1, h2.2.trans h1.2⟩
  nsFindByName := fun name => sameStore_call _ _ (fun s => by
    simp only [memEnv]; split <;> exact ⟨rfl, rfl⟩)
  prefFindByNsAndKey := fun ns key => sameStore_call _ _ (fun s => by
    simp only [memEnv]; split <;> exact ⟨rfl, rfl⟩)
  cacheGetNamespace := fun key => sameStore_call _ _ (fun s => by
    simp only [memEnv]; split <;> exact ⟨rfl, rfl⟩)
  cacheGetPreference := fun key => sameStore_call _ _ (fun s => by
    simp only [memEnv]; split <;> exact ⟨rfl, rfl⟩)
  cacheSet := fun _ _ _ => sameStore_call _ _ (fun _ => ⟨rfl, rfl⟩)

theorem sameStore_configurerPath {Val : Type} (cfg : MemConfigurer Val) :
    ConfigurerPath SameStore (memEnv cfg) where
  cfgHas := fun _ => sameStore_call _ _ (fun _ => ⟨rfl, rfl⟩)
  cfgUnmarshalKey := fun _ _ => sameStore_call _ _ (fun _ => ⟨rfl, rfl⟩)
  cfgUnmarshalKeyString := fun _ _ => sameStore_call _ _ (fun _ => ⟨rfl, rfl⟩)

theorem memEnv_prefFind_none {Val : Type} (cfg : MemConfigurer Val) (ns key : String)
    (s : MemState) (h : s.preferences ns key = none) :
    ((memEnv cfg).prefFindByNsAndKey ns key s).1 = .error ErrNotFound := by
  simp [memEnv, h]

/-- C12: `GetNamespaceValue`, `LoadConfig` and `LoadConfigByNamespace` of the
service that `NewService` builds make no `Save` and no `Delete` call on either
repository, whatever the collaborators do; over the in-memory collaborators
the namespaces and the preferences stored are the same before and after, and
when no preference `(system, name)` is stored, the inner repository still
reports it not found after `GetNamespaceValue(name)`. -/
theorem C12_fallback_never_writes_store {σ Val : Type} (codec : Codec Val) (env : Env σ Val)
    (w : World σ) (name ns : String) (config : Val) (cfg : MemConfigurer Val)
    (mw : World MemState) :
    (LogAdds (fun e => !e.isRepoWrite) w ((env.service codec).GetNamespaceValue name w).2
      ∧ LogAdds (fun e => !e.isRepoWrite) w ((env.service codec).LoadConfig ns config w).2
      ∧ LogAdds (fun e => !e.isRepoWrite) w
          ((env.service codec).LoadConfigByNamespace name config w).2)
    ∧ (SameStore mw (((memEnv cfg).service codec).GetNamespaceValue name mw).2
      ∧ SameStore mw (((memEnv cfg).service codec).LoadConfig ns config mw).2
      ∧ SameStore mw (((memEnv cfg).service codec).LoadConfigByNamespace name config mw).2)
    ∧ (mw.st.preferences "system" name = none →
      ((memEnv cfg).prefFindByNsAndKey "system" name
        (((memEnv cfg).service codec).GetNamespaceValue name mw).2.st).1
          = .error ErrNotFound) := by
  have hr : ReadPath (LogAdds (fun e => !e.isRepoWrite)) env :=
    logAdds_readPath _ env (fun e h _ => by simp [h])
  have hc : ConfigurerPath (LogAdds (fun e => !e.isRepoWrite)) env :=
    logAdds_configurerPath _ env (fun e h => by simp [h])
  have hs := steps_serviceGetNamespaceValue codec (sameStore_readPath cfg)
    (sameStore_configurerPath cfg) name mw
  refine ⟨⟨?_, ?_, ?_⟩, ⟨hs, ?_, ?_⟩, ?_⟩
  · exact steps_serviceGetNamespaceValue codec hr hc name w
  · exact steps_serviceLoadConfig codec hr hc ns config w
  · exact steps_serviceLoadConfigByNamespace codec hr hc name config w
  · exact steps_serviceLoadConfig codec (sameStore_readPath cfg)
      (sameStore_configurerPath cfg) ns config mw
  · exact steps_serviceLoadConfigByNamespace codec (sameStore_readPath cfg)
      (sameStore_configurerPath cfg) name config mw
  · intro hnone
    apply memEnv_prefFind_none
    rw [hs.2, hnone]

/-- Witness of C12: with nothing stored and a configurer that has `feature-x`,
`GetNamespaceValue("feature-x")` resolves to `tenant-42`, and the inner
repository still holds no preference `(system, feature-x)`. -/
theorem C12_fallback_never_writes_store_witness :
    (((memEnv MemConfigurer.sample).service jsonCodec).GetNamespaceValue "feature-x"
        World.empty).1 = ("tenant-42", none)
    ∧ ((memEnv MemConfigurer.sample).prefFindByNsAndKey "system" "feature-x"
        (((memEnv MemConfigurer.sample).service jsonCodec).GetNamespaceValue "feature-x"
          World.empty).2.st).1 = .error ErrNotFound := by
  refine ⟨by decide, ?_⟩
  exact (C12_fallback_never_writes_store jsonCodec (memEnv MemConfigurer.sample) World.empty
    "feature-x" "billing" (.obj []) MemConfigurer.sample World.empty).2.2 (by decide)

/-- C17: the six operations that `ConfigurerLoader` does not define are those
of the wrapped service. Through the service that `NewService` builds they are
the operations of the core `Loader` over the decorated repositories, with the
same result and the same world afterwards, and they make no call to the
configurer; `SaveConfigByNamespace` and `RemoveConfigByNamespace` are the core
ones, which resolve the alias with the core `GetNamespaceValue`. -/
theorem C17_pass_through_to_core {σ Val : Type} (codec : Codec Val)
    (s : ConfigurerLoader σ Val) (env : Env σ Val) (w : World σ) (ns value : String)
    (config : Val) :
    ((s.toService codec).SaveConfig = s.Service.SaveConfig
      ∧ (s.toService codec).RemoveConfig = s.Service.RemoveConfig
      ∧ (s.toService codec).SaveConfigByNamespace = s.Service.SaveConfigByNamespace
      ∧ (s.toService codec).RemoveConfigByNamespace = s.Service.RemoveConfigByNamespace
      ∧ (s.toService codec).SetNamespaceValue = s.Service.SetNamespaceValue
      ∧ (s.toService codec).RemoveNamespaceValue = s.Service.RemoveNamespaceValue)
    ∧ ((env.service codec).SaveConfig ns config w
        = (NewLoader env.nsRepo env.prefRepo env.cache).SaveConfig codec ns config w
      ∧ (env.service codec).RemoveConfig ns w
        = (NewLoader env.nsRepo env.prefRepo env.cache).RemoveConfig ns w
      ∧ (env.service codec).SaveConfigByNamespace ns config w
        = (NewLoader env.nsRepo env.prefRepo env.cache).SaveConfigByNamespace codec ns config w
      ∧ (env.service codec).RemoveConfigByNamespace ns w
        = (NewLoader env.nsRepo env.prefRepo env.cache).RemoveConfigByNamespace codec ns w
      ∧ (env.service codec).SetNamespaceValue ns value w
        = (NewLoader env.nsRepo env.prefRepo env.cache).SetNamespaceValue codec ns value w
      ∧ (env.service codec).RemoveNamespaceValue ns w
        = (NewLoader env.nsRepo env.prefRepo env.cache).RemoveNamespaceValue ns w)
    ∧ (LogAdds (fun e => !e.isConfigurer) w ((env.service codec).SaveConfig ns config w).2
      ∧ LogAdds (fun e => !e.isConfigurer) w ((env.service codec).RemoveConfig ns w).2
      ∧ LogAdds (fun e => !e.isConfigurer) w
          ((env.service codec).SaveConfigByNamespace ns config w).2
      ∧ LogAdds (fun e => !e.isConfigurer) w
          ((env.service codec).RemoveConfigByNamespace ns w).2
      ∧ LogAdds (fun e => !e.isConfigurer) w
          ((env.service codec).SetNamespaceValue ns value w).2
      ∧ LogAdds (fun e => !e.isConfigurer) w
          ((env.service codec).RemoveNamespaceValue ns w).2) := by
  have hr : ReadPath (LogAdds (fun e => !e.isConfigurer)) env :=
    logAdds_readPath _ env (fun e _ h => by simp [h])
  have hw : WritePath (LogAdds (fun e => !e.isConfigurer)) env :=
    logAdds_writePath _ env (fun e h => by simp [h])
  refine ⟨⟨rfl, rfl, rfl, rfl, rfl, rfl⟩, ⟨rfl, rfl, rfl, rfl, rfl, rfl⟩, ?_, ?_, ?_, ?_, ?_, ?_⟩
  · exact steps_saveConfig codec hr hw ns _ config w
  · exact steps_loaderRemoveConfig hr hw ns w
  · exact steps_loaderSaveConfigByNamespace codec hr hw ns config w
  · exact steps_loaderRemoveConfigByNamespace codec hr hw ns w
  · exact steps_saveConfig codec hr hw _ ns _ w
  · exact steps_cachePrefDeleteByNsAndKey hr hw _ ns w

/-- An instance of C17 over the in-memory collaborators: the configurer has
the key `feature-x`, so the fallback resolves the alias, but with no alias
stored `SaveConfigByNamespace("feature-x")` fails as the core operation does
and calls neither `Has` nor `UnmarshalKey`. -/
theorem C17_pass_through_to_core_witness :
    (((memEnv MemConfigurer.sample).service jsonCodec).GetNamespaceValue "feature-x"
        World.empty).1 = ("tenant-42", none)
    ∧ (((memEnv MemConfigurer.sample).service jsonCodec).SaveConfigByNamespace "feature-x"
        (.obj [("plan", "pro")]) World.empty).1
      = some (Errorf "system preference `feature-x` not found: " ErrNotFound)
    ∧ (((memEnv MemConfigurer.sample).service jsonCodec).SaveConfigByNamespace "feature-x"
        (.obj [("plan", "pro")]) World.empty).2.log
      = [.cacheGet "settings:pref:ns:key:system:feature-x",
          .prefFindByNsAndKey "system" "feature-x"]
    ∧ ((memEnv MemConfigurer.sample).service jsonCodec).SaveConfigByNamespace "feature-x"
        (.obj [("plan", "pro")]) World.empty
      = (NewLoader (memEnv MemConfigurer.sample).nsRepo (memEnv MemConfigurer.sample).prefRepo
          (memEnv MemConfigurer.sample).cache).SaveConfigByNamespace jsonCodec "feature-x"
            (.obj [("plan", "pro")]) World.empty := by
  refine ⟨by decide, by decide, by decide, ?_⟩
  exact (C17_pass_through_to_core jsonCodec
    (NewConfigurerLoader jsonCodec (memEnv MemConfigurer.sample).nsRepo
      (memEnv MemConfigurer.sample).prefRepo (memEnv MemConfigurer.sample).configurer
      (memEnv MemConfigurer.sample).cache)
    (memEnv MemConfigurer.sample) World.empty "feature-x" "" (.obj [("plan", "pro")])).2.1.2.2.1

/-! ## The configurer fallback -/

theorem system_key (n : String) :
    "settings:pref:ns:key:" ++ "system" ++ ":" ++ n = "settings:pref:ns:key:system:" ++ n := by
  have h : "settings:pref:ns:key:" ++ "system" ++ ":" = "settings:pref:ns:key:system:" := by
    decide
  rw [h]

theorem system_tag (n : String) :
    "settings:pref:tag:" ++ "system" ++ ":" ++ n = "settings:pref:tag:system:" ++ n := by
  have h : "settings:pref:tag:" ++ "system" ++ ":" = "settings:pref:tag:system:" := by
    decide
  rw [h]

theorem configuration_key (ns : String) :
    "settings:pref:ns:key:" ++ ns ++ ":" ++ "configuration"
      = "settings:pref:ns:key:" ++ ns ++ ":configuration" := by
  rw [String.append_assoc ("settings:pref:ns:key:" ++ ns)]
  rfl

theorem configuration_tag (ns : String) :
    "settings:pref:tag:" ++ ns ++ ":" ++ "configuration"
      = "settings:pref:tag:" ++ ns ++ ":configuration" := by
  rw [String.append_assoc ("settings:pref:tag:" ++ ns)]
  rfl

theorem fallback_service {σ Val : Type} (codec : Codec Val) (env : Env σ Val) :
    env.service codec = (env.fallback (env.core codec)).toService codec := rfl

theorem cacheWrites_of_log {σ α : Type} (m : M σ α) (w : World σ) (l : List Event)
    (h : (m w).2.log = w.log ++ l) : cacheWrites m w = l.filter Event.isCacheWrite := by
  simp [cacheWrites, h]

theorem configurerCalls_of_log {σ α : Type} (m : M σ α) (w : World σ) (l : List Event)
    (h : (m w).2.log = w.log ++ l) :
    configurerCalls m w = l.filter Event.isConfigurer := by
  simp [configurerCalls, h]

theorem cachePrefFind_log {σ Val : Type} (env : Env σ Val) (ns key : String) (w : World σ) :
    ∃ l, (env.cachePrefRepo.FindByNsAndKey ns key w).2.log = w.log ++ l
      ∧ l.filter Event.isCacheWrite = env.prefReadThrough ns key w.st
      ∧ l.filter Event.isConfigurer = [] := by
  rcases hg : env.cacheGetPreference ("settings:pref:ns:key:" ++ ns ++ ":" ++ key) w.st
    with ⟨r, s0⟩
  cases r with
  | ok p =>
    refine ⟨[.cacheGet ("settings:pref:ns:key:" ++ ns ++ ":" ++ key)], ?_, ?_, ?_⟩
    · simp [CachePreferenceRepository.FindByNsAndKey, Env.cachePrefRepo, Env.cache,
        M.bind_apply, M.pure_apply, call_apply, hg]
    · simp [Env.prefReadThrough, hg, Event.isCacheWrite]
    · simp [Event.isConfigurer]
  | error miss =>
    rcases hf : env.prefFindByNsAndKey ns key s0 with ⟨r2, s1⟩
    cases r2 with
    | error e =>
      refine ⟨[.cacheGet ("settings:pref:ns:key:" ++ ns ++ ":" ++ key),
        .prefFindByNsAndKey ns key], ?_, ?_, ?_⟩
      · simp [CachePreferenceRepository.FindByNsAndKey, Env.cachePrefRepo, Env.cache,
          Env.prefRepo, M.bind_apply, M.pure_apply, call_apply, hg, hf]
      · simp [Env.prefReadThrough, hg, hf, Event.isCacheWrite]
      · simp [Event.isConfigurer]
    | ok p =>
      refine ⟨[.cacheGet ("settings:pref:ns:key:" ++ ns ++ ":" ++ key),
        .prefFindByNsAndKey ns key,
        .cacheSet ("settings:pref:ns:key:" ++ ns ++ ":" ++ key) (.pref p)
          ["settings:pref:tag:" ++ ns ++ ":" ++ key]], ?_, ?_, ?_⟩
      · simp [CachePreferenceRepository.FindByNsAndKey, Env.cachePrefRepo, Env.cache,
          Env.prefRepo, M.bind_apply, M.pure_apply, call_apply, hg, hf]
      · simp [Env.prefReadThrough, hg, hf, Event.isCacheWrite]
      · simp [Event.isConfigurer]

theorem cacheNsFind_log {σ Val : Type} (env : Env σ Val) (name : String) (w : World σ) :
    ∃ l, (env.cacheNsRepo.FindByName name w).2.log = w.log ++ l
      ∧ l.filter Event.isCacheWrite = env.nsReadThrough name w.st
      ∧ l.filter Event.isConfigurer = [] := by
  rcases hg : env.cacheGetNamespace ("settings:ns:name:" ++ name) w.st with ⟨r, s0⟩
  cases r with
  | ok p =>
    refine ⟨[.cacheGet ("settings:ns:name:" ++ name)], ?_, ?_, ?_⟩
    · simp [CacheNamespaceRepository.FindByName, Env.cacheNsRepo, Env.cache,
        M.bind_apply, M.pure_apply, call_apply, hg]
    · simp [Env.nsReadThrough, hg, Event.isCacheWrite]
    · simp [Event.isConfigurer]
  | error miss =>
    rcases hf : env.nsFindByName name s0 with ⟨r2, s1⟩
    cases r2 with
    | error e =>
      refine ⟨[.cacheGet ("settings:ns:name:" ++ name), .nsFindByName name], ?_, ?_, ?_⟩
      · simp [CacheNamespaceRepository.FindByName, Env.cacheNsRepo, Env.cache,
          Env.nsRepo, M.bind_apply, M.pure_apply, call_apply, hg, hf]
      · simp [Env.nsReadThrough, hg, hf, Event.isCacheWrite]
      · simp [Event.isConfigurer]
    | ok p =>
      refine ⟨[.cacheGet ("settings:ns:name:" ++ name), .nsFindByName name,
        .cacheSet ("settings:ns:name:" ++ name) (.ns p) ["settings:ns:tag:" ++ name]], ?_, ?_, ?_⟩
      · simp [CacheNamespaceRepository.FindByName, Env.cacheNsRepo, Env.cache,
          Env.nsRepo, M.bind_apply, M.pure_apply, call_apply, hg, hf]
      · simp [Env.nsReadThrough, hg, hf, Event.isCacheWrite]
      · simp [Event.isConfigurer]

theorem core_alias_world {σ Val : Type} (codec : Codec Val) (env : Env σ Val) (n : String)
    (w : World σ) :
    ((env.core codec).GetNamespaceValue n w).2
      = (env.cachePrefRepo.FindByNsAndKey "system" n w).2 := by
  show ((Loader.getSystemValue codec (NewLoader env.nsRepo env.prefRepo env.cache) n) w).2 = _
  simp only [Loader.getSystemValue, Loader.getSystemValueByKey, M.bind_apply, NewLoader,
    CachePreferenceRepository.toRepo, namespaceSystem, Env.cachePrefRepo]
  cases ((CachePreferenceRepository.FindByNsAndKey
      { PreferenceRepository := env.prefRepo, Cache := env.cache } "system" n) w).1 with
  | error err => simp [M.pure_apply]
  | ok pref =>
    simp only [M.pure_apply]
    cases h2 : (pref.LoadValueString codec "").2 with
    | none =>
      have : pref.LoadValueString codec "" = ((pref.LoadValueString codec "").1, none) :=
        Prod.ext rfl h2
      rw [this]
      simp [M.pure_apply]
    | some d =>
      have : pref.LoadValueString codec "" = ((pref.LoadValueString codec "").1, some d) :=
        Prod.ext rfl h2
      rw [this]
      simp [M.pure_apply]

theorem core_config_world {σ Val : Type} (codec : Codec Val) (env : Env σ Val) (ns : String)
    (config : Val) (w : World σ) :
    ((env.core codec).LoadConfig ns config w).2
      = match env.cacheNsRepo.FindByName ns w with
        | (.error _, w1) => w1
        | (.ok _, w1) => (env.cachePrefRepo.FindByNsAndKey ns keyConfiguration w1).2 := by
  show ((Loader.LoadConfig codec (NewLoader env.nsRepo env.prefRepo env.cache) ns config) w).2
    = _
  simp only [Loader.LoadConfig, Loader.getConfiguration, M.bind_apply, NewLoader,
    CachePreferenceRepository.toRepo, CacheNamespaceRepository.toRepo, Env.cachePrefRepo,
    Env.cacheNsRepo]
  rcases hn : (CacheNamespaceRepository.FindByName
      { NamespaceRepository := env.nsRepo, Cache := env.cache } ns) w with ⟨r, w1⟩
  cases r with
  | error err => simp [M.pure_apply]
  | ok found =>
    rcases hp : (CachePreferenceRepository.FindByNsAndKey
      { PreferenceRepository := env.prefRepo, Cache := env.cache } ns keyConfiguration) w1
      with ⟨r2, w2⟩
    cases r2 <;> simp [M.bind_apply, M.pure_apply, hp]

theorem core_alias_log {σ Val : Type} (codec : Codec Val) (env : Env σ Val) (n : String)
    (w : World σ) :
    ∃ l, ((env.core codec).GetNamespaceValue n w).2.log = w.log ++ l
      ∧ l.filter Event.isCacheWrite = env.prefReadThrough "system" n w.st
      ∧ l.filter Event.isConfigurer = [] := by
  rw [core_alias_world]
  exact cachePrefFind_log env "system" n w

theorem core_config_log {σ Val : Type} (codec : Codec Val) (env : Env σ Val) (ns : String)
    (config : Val) (w : World σ) :
    ∃ l, ((env.core codec).LoadConfig ns config w).2.log = w.log ++ l
      ∧ l.filter Event.isCacheWrite = env.loadConfigReadThrough ns w
      ∧ l.filter Event.isConfigurer = [] := by
  rw [core_config_world]
  obtain ⟨l1, h1, f1, g1⟩ := cacheNsFind_log env ns w
  unfold Env.loadConfigReadThrough
  rcases hn : env.cacheNsRepo.FindByName ns w with ⟨r, w1⟩
  rw [hn] at h1
  cases r with
  | error e => exact ⟨l1, h1, by simp [f1], g1⟩
  | ok found =>
    obtain ⟨l2, h2, f2, g2⟩ := cachePrefFind_log env ns keyConfiguration w1
    have h1' : w1.log = w.log ++ l1 := h1
    exact ⟨l1 ++ l2, by simp [h2, h1'], by simp [f1, f2], by simp [g1, g2]⟩
theorem fallback_alias_seed {σ Val : Type} (codec : Codec Val) (env : Env σ Val)
    (svc : Service σ Val) (w w1 : World σ) (s2 s3 : σ) (n value v : String) (e : GoError)
    (raw : RawMessage)
    (hcore : svc.GetNamespaceValue n w = ((value, some e), w1))
    (hhas : env.cfgHas n w1.st = (true, s2))
    (hun : env.cfgUnmarshalKeyString n value s2 = ((v, none), s3))
    (hm : codec.Marshal (codec.ofString v) = (raw, none)) :
    (env.fallback svc).GetNamespaceValue codec n w =
      ((v, none),
        { st := (env.cacheSet ("settings:pref:ns:key:system:" ++ n)
            (.pref (Preference.mk "system" n raw 0 0))
            ["settings:pref:tag:system:" ++ n] s3).2,
          log := w1.log ++ [.cfgHas n, .cfgUnmarshalKey n,
            .cacheSet ("settings:pref:ns:key:system:" ++ n)
              (.pref (Preference.mk "system" n raw 0 0))
              ["settings:pref:tag:system:" ++ n]] }) := by
  simp [ConfigurerLoader.GetNamespaceValue, Env.fallback, Env.configurer, Env.cache,
    M.bind_apply, M.pure_apply, call_apply, hcore, hhas, hun, Preference.SetValue, hm,
    namespaceSystem, system_key, system_tag]

/-- C13 as stated fails on the service that `NewService` builds. The alias
`feature-x` is stored with a value that is an object and is not cached: the
core `GetNamespaceValue("feature-x")` fails to decode it, after the decorated
repository has written the stored preference to the cache. The configurer has
`feature-x` with `tenant-42`, so `GetNamespaceValue("feature-x")` returns
`("tenant-42", nil)`, and the operation has made two cache writes, not one. -/
theorem C13_counterexample :
    (((memEnv MemConfigurer.sample).core jsonCodec).GetNamespaceValue "feature-x"
        World.aliasNotString).1
      = ("", some (Errorf "namespace of system preference `feature-x` not found: "
          (.leaf "cannot unmarshal object into Go value of type string")))
    ∧ MemConfigurer.sample.has "feature-x" = true
    ∧ MemConfigurer.sample.unmarshalKeyString "feature-x" "" = ("tenant-42", none)
    ∧ (((memEnv MemConfigurer.sample).service jsonCodec).GetNamespaceValue "feature-x"
        World.aliasNotString).1 = ("tenant-42", none)
    ∧ cacheWrites (((memEnv MemConfigurer.sample).service jsonCodec).GetNamespaceValue
        "feature-x") World.aliasNotString
      = [.cacheSet "settings:pref:ns:key:system:feature-x"
            (.pref { Namespace := "system", Key := "feature-x",
                     Value := "\x7b\"a\":\"b\"\x7d" })
            ["settings:pref:tag:system:feature-x"],
          .cacheSet "settings:pref:ns:key:system:feature-x"
            (.pref { Namespace := "system", Key := "feature-x", Value := "\"tenant-42\"" })
            ["settings:pref:tag:system:feature-x"]] := by
  refine ⟨by decide, by decide, by decide, by decide, by decide⟩

/-- C13, amended: when the wrapped `GetNamespaceValue(n)` fails, the configurer
has `n` and `UnmarshalKey(n, &s)` succeeds with the string `v`, whose JSON
encoding is `raw`, then `ConfigurerLoader.GetNamespaceValue(n)` returns `v` and
no error whatever `Cache.Set` returns, and after the wrapped call returns it
makes three calls: `Has`, `UnmarshalKey`, and one `Set` of the preference
`(system, n)` with the value `raw` under the key `settings:pref:ns:key:system:<n>`
and the tag `settings:pref:tag:system:<n>`. Through the service that
`NewService` builds, for every way the core call fails, the cache writes of
the whole operation are the write of the decorated repository inside the core
call, followed by this `Set`: the `Set` is the one cache write when the alias
is cached or is not stored, and the second of two when the alias is stored and
not cached. -/
theorem C13_alias_fallback_seeds_cache {σ Val : Type} (codec : Codec Val) (env : Env σ Val)
    (svc : Service σ Val) (w w1 : World σ) (s2 s3 : σ) (n value v : String)
    (e : GoError) (raw : RawMessage) :
    (svc.GetNamespaceValue n w = ((value, some e), w1) →
      env.cfgHas n w1.st = (true, s2) →
      env.cfgUnmarshalKeyString n value s2 = ((v, none), s3) →
      codec.Marshal (codec.ofString v) = (raw, none) →
      (env.fallback svc).GetNamespaceValue codec n w =
        ((v, none),
          { st := (env.cacheSet ("settings:pref:ns:key:system:" ++ n)
              (.pref (Preference.mk "system" n raw 0 0))
              ["settings:pref:tag:system:" ++ n] s3).2,
            log := w1.log ++ [.cfgHas n, .cfgUnmarshalKey n,
              .cacheSet ("settings:pref:ns:key:system:" ++ n)
                (.pref (Preference.mk "system" n raw 0 0))
                ["settings:pref:tag:system:" ++ n]] }))
    ∧ ((env.core codec).GetNamespaceValue n w = ((value, some e), w1) →
      env.cfgHas n w1.st = (true, s2) →
      env.cfgUnmarshalKeyString n value s2 = ((v, none), s3) →
      codec.Marshal (codec.ofString v) = (raw, none) →
      ((env.service codec).GetNamespaceValue n w).1 = (v, none)
      ∧ cacheWrites ((env.service codec).GetNamespaceValue n) w
        = env.prefReadThrough "system" n w.st
          ++ [.cacheSet ("settings:pref:ns:key:system:" ++ n)
                (.pref (Preference.mk "system" n raw 0 0))
                ["settings:pref:tag:system:" ++ n]]) := by
  refine ⟨fallback_alias_seed codec env svc w w1 s2 s3 n value v e raw, ?_⟩
  intro hcore hhas hun hm
  have h : (env.service codec).GetNamespaceValue n w = _ :=
    fallback_alias_seed codec env (env.core codec) w w1 s2 s3 n value v e raw hcore hhas hun hm
  obtain ⟨l, hl, hw, _⟩ := core_alias_log codec env n w
  rw [hcore] at hl
  have hl' : w1.log = w.log ++ l := hl
  refine ⟨by rw [h], ?_⟩
  rw [cacheWrites_of_log _ w (l ++ [.cfgHas n, .cfgUnmarshalKey n,
    .cacheSet ("settings:pref:ns:key:system:" ++ n)
      (.pref (Preference.mk "system" n raw 0 0)) ["settings:pref:tag:system:" ++ n]])
    (by rw [h]; simp [hl'])]
  simp [hw, Event.isCacheWrite]

/-- Witness of C13 over the in-memory collaborators: no alias is stored, the
configurer has `feature-x` with the value `tenant-42`;
`GetNamespaceValue("feature-x")` returns `tenant-42` and its one cache write
is the `Set` of the preference under `settings:pref:ns:key:system:feature-x`,
which the cache then holds. -/
theorem C13_alias_fallback_seeds_cache_witness :
    (((memEnv MemConfigurer.sample).service jsonCodec).GetNamespaceValue "feature-x"
        World.empty).1 = ("tenant-42", none)
    ∧ cacheWrites (((memEnv MemConfigurer.sample).service jsonCodec).GetNamespaceValue
        "feature-x") World.empty
      = [.cacheSet "settings:pref:ns:key:system:feature-x"
            (.pref { Namespace := "system", Key := "feature-x", Value := "\"tenant-42\"" })
            ["settings:pref:tag:system:feature-x"]]
    ∧ (((memEnv MemConfigurer.sample).service jsonCodec).GetNamespaceValue "feature-x"
        World.empty).2.st.cache "settings:pref:ns:key:system:feature-x"
      = some (.pref { Namespace := "system", Key := "feature-x", Value := "\"tenant-42\"" },
          ["settings:pref:tag:system:feature-x"])
    ∧ (((memEnv MemConfigurer.sample).service jsonCodec).GetNamespaceValue "feature-x"
        World.empty).2.log
      = [.cacheGet "settings:pref:ns:key:system:feature-x",
          .prefFindByNsAndKey "system" "feature-x", .cfgHas "feature-x",
          .cfgUnmarshalKey "feature-x",
          .cacheSet "settings:pref:ns:key:system:feature-x"
            (.pref { Namespace := "system", Key := "feature-x", Value := "\"tenant-42\"" })
            ["settings:pref:tag:system:feature-x"]] := by
  have h := (C13_alias_fallback_seeds_cache jsonCodec (memEnv MemConfigurer.sample)
    ((memEnv MemConfigurer.sample).core jsonCodec) World.empty
    (((memEnv MemConfigurer.sample).core jsonCodec).GetNamespaceValue "feature-x"
      World.empty).2
    MemState.empty MemState.empty "feature-x" "" "tenant-42"
    (Errorf "system preference `feature-x` not found: " ErrNotFound) "\"tenant-42\"").2
    (Prod.ext (by decide) rfl) rfl rfl (by decide)
  exact ⟨h.1, h.2.trans (by decide), by decide, by decide⟩
theorem Loader.getSystemValue_error {σ Val : Type} (codec : Codec Val) (s : Loader σ)
    (key : String) (w : World σ) (e : GoError)
    (h : (s.getSystemValue codec key w).1.2 = some e) :
    (s.getSystemValue codec key w).1.1 = "" := by
  revert h
  simp only [Loader.getSystemValue, Loader.getSystemValueByKey, M.bind_apply]
  cases (s.PrefRepo.FindByNsAndKey namespaceSystem key w).1 with
  | error err => simp [M.pure_apply]
  | ok pref =>
    simp only [M.pure_apply]
    cases h2 : (pref.LoadValueString codec "").2 with
    | none =>
      have : pref.LoadValueString codec "" = ((pref.LoadValueString codec "").1, none) :=
        Prod.ext rfl h2
      rw [this]
      simp [M.pure_apply]
    | some d =>
      have : pref.LoadValueString codec "" = ((pref.LoadValueString codec "").1, some d) :=
        Prod.ext rfl h2
      rw [this]
      simp [M.pure_apply]

theorem calls_after {σ α : Type} (m : M σ α) (w w1 : World σ) (r : α) (st : σ)
    (l extra : List Event) (hm : m w = (r, { st := st, log := w1.log ++ extra }))
    (hl : w1.log = w.log ++ l) :
    cacheWrites m w = l.filter Event.isCacheWrite ++ extra.filter Event.isCacheWrite
    ∧ configurerCalls m w
      = l.filter Event.isConfigurer ++ extra.filter Event.isConfigurer := by
  have h : (m w).2.log = w.log ++ (l ++ extra) := by rw [hm]; simp [hl]
  exact ⟨by rw [cacheWrites_of_log m w _ h]; simp,
    by rw [configurerCalls_of_log m w _ h]; simp⟩

theorem fallback_alias_has_false {σ Val : Type} (codec : Codec Val) (env : Env σ Val)
    (svc : Service σ Val) (w w1 : World σ) (s2 : σ) (n value : String) (e : GoError)
    (hcore : svc.GetNamespaceValue n w = ((value, some e), w1))
    (hhas : env.cfgHas n w1.st = (false, s2)) :
    (env.fallback svc).GetNamespaceValue codec n w =
      ((value, some e), { st := s2, log := w1.log ++ [.cfgHas n] }) := by
  simp [ConfigurerLoader.GetNamespaceValue, Env.fallback, Env.configurer, M.bind_apply,
    M.pure_apply, call_apply, hcore, hhas]

theorem fallback_config_has_false {σ Val : Type} (codec : Codec Val) (env : Env σ Val)
    (svc : Service σ Val) (w w1 : World σ) (s2 : σ) (n : String) (config config1 : Val)
    (e : GoError)
    (hcore : svc.LoadConfig n config w = ((config1, some e), w1))
    (hhas : env.cfgHas n w1.st = (false, s2)) :
    (env.fallback svc).LoadConfig codec n config w =
      ((config1, some e), { st := s2, log := w1.log ++ [.cfgHas n] }) := by
  simp [ConfigurerLoader.LoadConfig, Env.fallback, Env.configurer, M.bind_apply,
    M.pure_apply, call_apply, hcore, hhas]

theorem fallback_alias_unmarshal_error {σ Val : Type} (codec : Codec Val) (env : Env σ Val)
    (svc : Service σ Val) (w w1 : World σ) (s2 s3 : σ) (n value value2 : String)
    (e e2 : GoError)
    (hcore : svc.GetNamespaceValue n w = ((value, some e), w1))
    (hhas : env.cfgHas n w1.st = (true, s2))
    (hun : env.cfgUnmarshalKeyString n value s2 = ((value2, some e2), s3)) :
    (env.fallback svc).GetNamespaceValue codec n w =
      ((value2, some e2), { st := s3, log := w1.log ++ [.cfgHas n, .cfgUnmarshalKey n] }) := by
  simp [ConfigurerLoader.GetNamespaceValue, Env.fallback, Env.configurer, M.bind_apply,
    M.pure_apply, call_apply, hcore, hhas, hun]

theorem fallback_config_unmarshal_error {σ Val : Type} (codec : Codec Val) (env : Env σ Val)
    (svc : Service σ Val) (w w1 : World σ) (s2 s3 : σ) (n : String)
    (config config1 config2 : Val) (e e2 : GoError)
    (hcore : svc.LoadConfig n config w = ((config1, some e), w1))
    (hhas : env.cfgHas n w1.st = (true, s2))
    (hun : env.cfgUnmarshalKey n config1 s2 = ((config2, some e2), s3)) :
    (env.fallback svc).LoadConfig codec n config w =
      ((config2, some e2), { st := s3, log := w1.log ++ [.cfgHas n, .cfgUnmarshalKey n] }) := by
  simp [ConfigurerLoader.LoadConfig, Env.fallback, Env.configurer, M.bind_apply,
    M.pure_apply, call_apply, hcore, hhas, hun]

theorem core_alias_error_value {σ Val : Type} (codec : Codec Val) (env : Env σ Val)
    (n value : String) (e : GoError) (w w1 : World σ)
    (hcore : (env.core codec).GetNamespaceValue n w = ((value, some e), w1)) :
    value = "" := by
  have hcore' : (NewLoader env.nsRepo env.prefRepo env.cache).getSystemValue codec n w
      = ((value, some e), w1) := hcore
  have := Loader.getSystemValue_error codec (NewLoader env.nsRepo env.prefRepo env.cache)
    n w e (by rw [hcore'])
  rw [hcore'] at this
  exact this

/-- C14 as stated fails on the service that `NewService` builds. The namespace
`billing` is stored, its configuration is not, and nothing is cached: the
core `LoadConfig("billing")` fails with `e`, the configurer has no key, and
`LoadConfig("billing")` returns `e`, yet the operation has written the
namespace to the cache: the decorated repository did so inside the core
call. -/
theorem C14_counterexample :
    (((memEnv (MemConfigurer.none JVal)).core jsonCodec).LoadConfig "billing" (.obj [])
        World.namespaceOnly).1
      = (.obj [], some (Errorf "configuration preference `billing` not found: " ErrNotFound))
    ∧ (MemConfigurer.none JVal).has "billing" = false
    ∧ (((memEnv (MemConfigurer.none JVal)).service jsonCodec).LoadConfig "billing" (.obj [])
        World.namespaceOnly).1
      = (.obj [], some (Errorf "configuration preference `billing` not found: " ErrNotFound))
    ∧ cacheWrites (((memEnv (MemConfigurer.none JVal)).service jsonCodec).LoadConfig
        "billing" (.obj [])) World.namespaceOnly
      = [.cacheSet "settings:ns:name:billing" (.ns { Name := "billing" })
          ["settings:ns:tag:billing"]] := by
  refine ⟨by decide, by decide, by decide, by decide⟩

/-- C14, amended: the fallback does not mask errors. When the wrapped
operation fails with `e` and `Has(n)` is false, `GetNamespaceValue(n)` over
the core `Loader` returns `("", e)` and `LoadConfig(n, config)` returns `e`,
and after the wrapped call returns the one call made is `Has`: no
`UnmarshalKey`, no cache write. When `Has(n)` is true and `UnmarshalKey` fails
with `e2`, the operation returns `e2` and the calls made after the wrapped
call are `Has` and `UnmarshalKey`: no cache write. Through the service that
`NewService` builds, for every way the core call fails, these are the only
configurer calls of the whole operation, and its cache writes are those of the
decorated repositories inside the core call: the `Set` of each record found
in a repository and not in the cache, and none when the records are cached or
are not stored. -/
theorem C14_fallback_does_not_mask_errors {σ Val : Type} (codec : Codec Val)
    (env : Env σ Val) (core : Loader σ) (svc : Service σ Val) (w w1 : World σ) (s2 s3 : σ)
    (n value value2 : String) (config config1 config2 : Val) (e e2 : GoError) :
    (core.GetNamespaceValue codec n w = ((value, some e), w1) →
      env.cfgHas n w1.st = (false, s2) →
      (env.fallback (core.toService codec)).GetNamespaceValue codec n w =
        (("", some e), { st := s2, log := w1.log ++ [.cfgHas n] }))
    ∧ (svc.LoadConfig n config w = ((config1, some e), w1) →
      env.cfgHas n w1.st = (false, s2) →
      (env.fallback svc).LoadConfig codec n config w =
        ((config1, some e), { st := s2, log := w1.log ++ [.cfgHas n] }))
    ∧ (svc.GetNamespaceValue n w = ((value, some e), w1) →
      env.cfgHas n w1.st = (true, s2) →
      env.cfgUnmarshalKeyString n value s2 = ((value2, some e2), s3) →
      (env.fallback svc).GetNamespaceValue codec n w =
        ((value2, some e2), { st := s3, log := w1.log ++ [.cfgHas n, .cfgUnmarshalKey n] }))
    ∧ (svc.LoadConfig n config w = ((config1, some e), w1) →
      env.cfgHas n w1.st = (true, s2) →
      env.cfgUnmarshalKey n config1 s2 = ((config2, some e2), s3) →
      (env.fallback svc).LoadConfig codec n config w =
        ((config2, some e2), { st := s3, log := w1.log ++ [.cfgHas n, .cfgUnmarshalKey n] }))
    ∧ ((env.core codec).GetNamespaceValue n w = ((value, some e), w1) →
      env.cfgHas n w1.st = (false, s2) →
      ((env.service codec).GetNamespaceValue n w).1 = ("", some e)
      ∧ configurerCalls ((env.service codec).GetNamespaceValue n) w = [.cfgHas n]
      ∧ cacheWrites ((env.service codec).GetNamespaceValue n) w
        = env.prefReadThrough "system" n w.st)
    ∧ ((env.core codec).LoadConfig n config w = ((config1, some e), w1) →
      env.cfgHas n w1.st = (false, s2) →
      ((env.service codec).LoadConfig n config w).1 = (config1, some e)
      ∧ configurerCalls ((env.service codec).LoadConfig n config) w = [.cfgHas n]
      ∧ cacheWrites ((env.service codec).LoadConfig n config) w
        = env.loadConfigReadThrough n w)
    ∧ ((env.core codec).GetNamespaceValue n w = ((value, some e), w1) →
      env.cfgHas n w1.st = (true, s2) →
      env.cfgUnmarshalKeyString n value s2 = ((value2, some e2), s3) →
      ((env.service codec).GetNamespaceValue n w).1 = (value2, some e2)
      ∧ configurerCalls ((env.service codec).GetNamespaceValue n) w
        = [.cfgHas n, .cfgUnmarshalKey n]
      ∧ cacheWrites ((env.service codec).GetNamespaceValue n) w
        = env.prefReadThrough "system" n w.st)
    ∧ ((env.core codec).LoadConfig n config w = ((config1, some e), w1) →
      env.cfgHas n w1.st = (true, s2) →
      env.cfgUnmarshalKey n config1 s2 = ((config2, some e2), s3) →
      ((env.service codec).LoadConfig n config w).1 = (config2, some e2)
      ∧ configurerCalls ((env.service codec).LoadConfig n config) w
        = [.cfgHas n, .cfgUnmarshalKey n]
      ∧ cacheWrites ((env.service codec).LoadConfig n config) w
        = env.loadConfigReadThrough n w) := by
  refine ⟨?_, fallback_config_has_false codec env svc w w1 s2 n config config1 e,
    fallback_alias_unmarshal_error codec env svc w w1 s2 s3 n value value2 e e2,
    fallback_config_unmarshal_error codec env svc w w1 s2 s3 n config config1 config2 e e2,
    ?_, ?_, ?_, ?_⟩
  · intro hcore hhas
    have hv : value = "" := by
      have := Loader.getSystemValue_error codec core n w e
        (by rw [show core.getSystemValue codec n w = ((value, some e), w1) from hcore])
      rw [show core.getSystemValue codec n w = ((value, some e), w1) from hcore] at this
      exact this
    subst hv
    exact fallback_alias_has_false codec env (core.toService codec) w w1 s2 n "" e hcore hhas
  · intro hcore hhas
    have hv := core_alias_error_value codec env n value e w w1 hcore
    subst hv
    have h : (env.service codec).GetNamespaceValue n w = _ :=
      fallback_alias_has_false codec env (env.core codec) w w1 s2 n "" e hcore hhas
    obtain ⟨l, hl, hw, hc⟩ := core_alias_log codec env n w
    rw [hcore] at hl
    have hc2 := calls_after _ w w1 _ _ l _ h hl
    refine ⟨by rw [h], ?_, ?_⟩
    · rw [hc2.2, hc]; simp [Event.isConfigurer]
    · rw [hc2.1, hw]; simp [Event.isCacheWrite]
  · intro hcore hhas
    have h : (env.service codec).LoadConfig n config w = _ :=
      fallback_config_has_false codec env (env.core codec) w w1 s2 n config config1 e hcore hhas
    obtain ⟨l, hl, hw, hc⟩ := core_config_log codec env n config w
    rw [hcore] at hl
    have hc2 := calls_after _ w w1 _ _ l _ h hl
    refine ⟨by rw [h], ?_, ?_⟩
    · rw [hc2.2, hc]; simp [Event.isConfigurer]
    · rw [hc2.1, hw]; simp [Event.isCacheWrite]
  · intro hcore hhas hun
    have h : (env.service codec).GetNamespaceValue n w = _ :=
      fallback_alias_unmarshal_error codec env (env.core codec) w w1 s2 s3 n value value2 e e2
        hcore hhas hun
    obtain ⟨l, hl, hw, hc⟩ := core_alias_log codec env n w
    rw [hcore] at hl
    have hc2 := calls_after _ w w1 _ _ l _ h hl
    refine ⟨by rw [h], ?_, ?_⟩
    · rw [hc2.2, hc]; simp [Event.isConfigurer]
    · rw [hc2.1, hw]; simp [Event.isCacheWrite]
  · intro hcore hhas hun
    have h : (env.service codec).LoadConfig n config w = _ :=
      fallback_config_unmarshal_error codec env (env.core codec) w w1 s2 s3 n config config1
        config2 e e2 hcore hhas hun
    obtain ⟨l, hl, hw, hc⟩ := core_config_log codec env n config w
    rw [hcore] at hl
    have hc2 := calls_after _ w w1 _ _ l _ h hl
    refine ⟨by rw [h], ?_, ?_⟩
    · rw [hc2.2, hc]; simp [Event.isConfigurer]
    · rw [hc2.1, hw]; simp [Event.isCacheWrite]

/-- Witness of C14 over the in-memory collaborators with nothing stored. The
key `unknown` is not in the configurer: both operations return the error of
the core service, call `Has` and nothing else of the configurer, and write
nothing to the cache. The key `billing` is in the configurer as an object:
`GetNamespaceValue("billing")` returns the error of `UnmarshalKey` and writes
nothing to the cache. -/
theorem C14_fallback_does_not_mask_errors_witness :
    ((((memEnv MemConfigurer.sample).service jsonCodec).GetNamespaceValue "unknown"
        World.empty).1
        = ("", some (Errorf "system preference `unknown` not found: " ErrNotFound))
      ∧ configurerCalls (((memEnv MemConfigurer.sample).service jsonCodec).GetNamespaceValue
          "unknown") World.empty = [.cfgHas "unknown"]
      ∧ cacheWrites (((memEnv MemConfigurer.sample).service jsonCodec).GetNamespaceValue
          "unknown") World.empty = [])
    ∧ ((((memEnv MemConfigurer.sample).service jsonCodec).LoadConfig "unknown" (.obj [])
        World.empty).1
        = (.obj [], some (Errorf "namespace `unknown` not found: " ErrNotFound))
      ∧ configurerCalls (((memEnv MemConfigurer.sample).service jsonCodec).LoadConfig
          "unknown" (.obj [])) World.empty = [.cfgHas "unknown"]
      ∧ cacheWrites (((memEnv MemConfigurer.sample).service jsonCodec).LoadConfig
          "unknown" (.obj [])) World.empty = [])
    ∧ ((((memEnv MemConfigurer.sample).service jsonCodec).GetNamespaceValue "billing"
        World.empty).1
        = ("", some (.leaf "cannot unmarshal object into string"))
      ∧ configurerCalls (((memEnv MemConfigurer.sample).service jsonCodec).GetNamespaceValue
          "billing") World.empty = [.cfgHas "billing", .cfgUnmarshalKey "billing"]
      ∧ cacheWrites (((memEnv MemConfigurer.sample).service jsonCodec).GetNamespaceValue
          "billing") World.empty = []) := by
  have h := C14_fallback_does_not_mask_errors jsonCodec (memEnv MemConfigurer.sample)
    (NewLoader (memEnv MemConfigurer.sample).nsRepo (memEnv MemConfigurer.sample).prefRepo
      (memEnv MemConfigurer.sample).cache)
    ((memEnv MemConfigurer.sample).core jsonCodec) World.empty
    (((memEnv MemConfigurer.sample).core jsonCodec).GetNamespaceValue "unknown"
      World.empty).2
    MemState.empty MemState.empty "unknown" "" "" (.obj []) (.obj []) (.obj [])
    (Errorf "system preference `unknown` not found: " ErrNotFound) ErrNotFound
  have hl := C14_fallback_does_not_mask_errors jsonCodec (memEnv MemConfigurer.sample)
    (NewLoader (memEnv MemConfigurer.sample).nsRepo (memEnv MemConfigurer.sample).prefRepo
      (memEnv MemConfigurer.sample).cache)
    ((memEnv MemConfigurer.sample).core jsonCodec) World.empty
    (((memEnv MemConfigurer.sample).core jsonCodec).LoadConfig "unknown" (.obj [])
      World.empty).2
    MemState.empty MemState.empty "unknown" "" "" (.obj []) (.obj []) (.obj [])
    (Errorf "namespace `unknown` not found: " ErrNotFound) ErrNotFound
  have hb := C14_fallback_does_not_mask_errors jsonCodec (memEnv MemConfigurer.sample)
    (NewLoader (memEnv MemConfigurer.sample).nsRepo (memEnv MemConfigurer.sample).prefRepo
      (memEnv MemConfigurer.sample).cache)
    ((memEnv MemConfigurer.sample).core jsonCodec) World.empty
    (((memEnv MemConfigurer.sample).core jsonCodec).GetNamespaceValue "billing"
      World.empty).2
    MemState.empty MemState.empty "billing" "" "" (.obj []) (.obj []) (.obj [])
    (Errorf "system preference `billing` not found: " ErrNotFound)
    (.leaf "cannot unmarshal object into string")
  have h5 := h.2.2.2.2.1 (Prod.ext (by decide) rfl) rfl
  have h6 := hl.2.2.2.2.2.1 (Prod.ext (by decide) rfl) rfl
  have h7 := hb.2.2.2.2.2.2.1 (Prod.ext (by decide) rfl) rfl rfl
  exact ⟨⟨h5.1, h5.2.1, h5.2.2.trans (by decide)⟩, ⟨h6.1, h6.2.1, h6.2.2.trans (by decide)⟩,
    ⟨h7.1, h7.2.1, h7.2.2.trans (by decide)⟩⟩
theorem fallback_config_marshal_error {σ Val : Type} (codec : Codec Val) (env : Env σ Val)
    (svc : Service σ Val) (w w1 : World σ) (s2 s3 : σ) (ns : String)
    (config config1 config2 : Val) (e em : GoError)
    (hcore : svc.LoadConfig ns config w = ((config1, some e), w1))
    (hhas : env.cfgHas ns w1.st = (true, s2))
    (hun : env.cfgUnmarshalKey ns config1 s2 = ((config2, none), s3))
    (hm : (Preference.SetValue codec { Namespace := ns, Key := "configuration" } config2).2
      = some em) :
    (env.fallback svc).LoadConfig codec ns config w =
      ((config2, none), { st := s3, log := w1.log ++ [.cfgHas ns, .cfgUnmarshalKey ns] }) := by
  simp only [Preference.SetValue] at hm
  simp [ConfigurerLoader.LoadConfig, Env.fallback, Env.configurer, M.bind_apply,
    M.pure_apply, call_apply, hcore, hhas, hun, Preference.SetValue, hm]

theorem fallback_alias_marshal_error {σ Val : Type} (codec : Codec Val) (env : Env σ Val)
    (svc : Service σ Val) (w w1 : World σ) (s2 s3 : σ) (ns value v : String) (e em : GoError)
    (hcore : svc.GetNamespaceValue ns w = ((value, some e), w1))
    (hhas : env.cfgHas ns w1.st = (true, s2))
    (hun : env.cfgUnmarshalKeyString ns value s2 = ((v, none), s3))
    (hm : (Preference.SetValue codec { Namespace := "system", Key := ns }
      (codec.ofString v)).2 = some em) :
    (env.fallback svc).GetNamespaceValue codec ns w =
      ((v, none), { st := s3, log := w1.log ++ [.cfgHas ns, .cfgUnmarshalKey ns] }) := by
  simp only [Preference.SetValue] at hm
  simp [ConfigurerLoader.GetNamespaceValue, Env.fallback, Env.configurer, M.bind_apply,
    M.pure_apply, call_apply, hcore, hhas, hun, Preference.SetValue, hm]

/-- C19 as stated fails on the service that `NewService` builds. The namespace
`billing` is stored, its configuration is not, and nothing is cached; the
configurer has `billing` and leaves in the target a `json.Number` that is not
a number literal, which `SetValue` rejects. The core `LoadConfig("billing")`
fails, `LoadConfig("billing")` returns nil, and the operation has made a cache
`Set` of the Namespace entry: the decorated repository did so inside the core
call. -/
theorem C19_counterexample :
    (((memEnv MemConfigurer.invalidNumber).core jsonCodec).LoadConfig "billing" (.obj [])
        World.namespaceOnly).1
      = (.obj [], some (Errorf "configuration preference `billing` not found: " ErrNotFound))
    ∧ MemConfigurer.invalidNumber.has "billing" = true
    ∧ MemConfigurer.invalidNumber.unmarshalKey "billing" (.obj []) = (.number "n/a", none)
    ∧ (Preference.SetValue jsonCodec { Namespace := "billing", Key := "configuration" }
        (.number "n/a")).2 = some (.leaf "json: invalid number literal")
    ∧ (((memEnv MemConfigurer.invalidNumber).service jsonCodec).LoadConfig "billing" (.obj [])
        World.namespaceOnly).1 = (.number "n/a", none)
    ∧ cacheWrites (((memEnv MemConfigurer.invalidNumber).service jsonCodec).LoadConfig
        "billing" (.obj [])) World.namespaceOnly
      = [.cacheSet "settings:ns:name:billing" (.ns { Name := "billing" })
          ["settings:ns:tag:billing"]] := by
  refine ⟨by decide, by decide, by decide, by decide, by decide, by decide⟩

/-- C19, amended: a serialization failure while seeding is swallowed. When the
wrapped `LoadConfig` fails, `Has(ns)` is true, `UnmarshalKey(ns, config)`
succeeds and `SetValue(config)` fails, `ConfigurerLoader.LoadConfig` returns
no error and after the wrapped call returns the calls made are `Has` and
`UnmarshalKey`: no `Cache.Set`, neither of the Namespace entry nor of the
preference entry. Through the service that `NewService` builds, for every way
the core call fails, the cache writes of the whole operation are those of the
decorated repositories inside the core call: the `Set` of each record found in
a repository and not in the cache, and none when the records are cached or are
not stored. Likewise `ConfigurerLoader.GetNamespaceValue` returns the value and
no error, with no cache write after the wrapped call, when `SetValue` fails;
there `SetValue` is given a string, and the JSON codec serializes every
string, so with it this branch is not taken. -/
theorem C19_seeding_serialization_failure_swallowed {σ Val : Type} (codec : Codec Val)
    (env : Env σ Val) (svc : Service σ Val) (w w1 : World σ) (s2 s3 : σ)
    (ns value v : String) (config config1 config2 : Val) (e em : GoError)
    (p : Preference) :
    (svc.LoadConfig ns config w = ((config1, some e), w1) →
      env.cfgHas ns w1.st = (true, s2) →
      env.cfgUnmarshalKey ns config1 s2 = ((config2, none), s3) →
      (Preference.SetValue codec { Namespace := ns, Key := "configuration" } config2).2
        = some em →
      (env.fallback svc).LoadConfig codec ns config w =
        ((config2, none), { st := s3, log := w1.log ++ [.cfgHas ns, .cfgUnmarshalKey ns] }))
    ∧ ((env.core codec).LoadConfig ns config w = ((config1, some e), w1) →
      env.cfgHas ns w1.st = (true, s2) →
      env.cfgUnmarshalKey ns config1 s2 = ((config2, none), s3) →
      (Preference.SetValue codec { Namespace := ns, Key := "configuration" } config2).2
        = some em →
      ((env.service codec).LoadConfig ns config w).1 = (config2, none)
      ∧ cacheWrites ((env.service codec).LoadConfig ns config) w
        = env.loadConfigReadThrough ns w)
    ∧ (svc.GetNamespaceValue ns w = ((value, some e), w1) →
      env.cfgHas ns w1.st = (true, s2) →
      env.cfgUnmarshalKeyString ns value s2 = ((v, none), s3) →
      (Preference.SetValue codec { Namespace := "system", Key := ns } (codec.ofString v)).2
        = some em →
      (env.fallback svc).GetNamespaceValue codec ns w =
        ((v, none), { st := s3, log := w1.log ++ [.cfgHas ns, .cfgUnmarshalKey ns] }))
    ∧ ((env.core codec).GetNamespaceValue ns w = ((value, some e), w1) →
      env.cfgHas ns w1.st = (true, s2) →
      env.cfgUnmarshalKeyString ns value s2 = ((v, none), s3) →
      (Preference.SetValue codec { Namespace := "system", Key := ns } (codec.ofString v)).2
        = some em →
      ((env.service codec).GetNamespaceValue ns w).1 = (v, none)
      ∧ cacheWrites ((env.service codec).GetNamespaceValue ns) w
        = env.prefReadThrough "system" ns w.st)
    ∧ (Preference.SetValue jsonCodec p (jsonCodec.ofString v)).2 = none := by
  refine ⟨fallback_config_marshal_error codec env svc w w1 s2 s3 ns config config1 config2 e em,
    ?_, fallback_alias_marshal_error codec env svc w w1 s2 s3 ns value v e em, ?_, rfl⟩
  · intro hcore hhas hun hm
    have h : (env.service codec).LoadConfig ns config w = _ :=
      fallback_config_marshal_error codec env (env.core codec) w w1 s2 s3 ns config config1
        config2 e em hcore hhas hun hm
    obtain ⟨l, hl, hw, _⟩ := core_config_log codec env ns config w
    rw [hcore] at hl
    have hc2 := calls_after _ w w1 _ _ l _ h hl
    refine ⟨by rw [h], ?_⟩
    rw [hc2.1, hw]; simp [Event.isCacheWrite]
  · intro hcore hhas hun hm
    have h : (env.service codec).GetNamespaceValue ns w = _ :=
      fallback_alias_marshal_error codec env (env.core codec) w w1 s2 s3 ns value v e em
        hcore hhas hun hm
    obtain ⟨l, hl, hw, _⟩ := core_alias_log codec env ns w
    rw [hcore] at hl
    have hc2 := calls_after _ w w1 _ _ l _ h hl
    refine ⟨by rw [h], ?_⟩
    rw [hc2.1, hw]; simp [Event.isCacheWrite]

/-- Witness of C19 over the in-memory collaborators with nothing stored. With
the JSON codec, the configurer has `billing` and leaves in the target a
`json.Number` that is not a number literal: `LoadConfig("billing")` returns nil
with that value in the target, the operation writes nothing to the cache, and
the cache holds neither entry afterwards; the string `tenant-42` serializes.
With a codec that rejects every value, strings included, which the JSON codec
does not, `GetNamespaceValue("feature-x")` returns `tenant-42` and no error and
writes nothing to the cache. -/
theorem C19_seeding_serialization_failure_swallowed_witness :
    (((memEnv MemConfigurer.invalidNumber).service jsonCodec).LoadConfig "billing" (.obj [])
        World.empty).1 = (.number "n/a", none)
    ∧ cacheWrites (((memEnv MemConfigurer.invalidNumber).service jsonCodec).LoadConfig
        "billing" (.obj [])) World.empty = []
    ∧ (((memEnv MemConfigurer.invalidNumber).service jsonCodec).LoadConfig "billing" (.obj [])
        World.empty).2.log
      = [.cacheGet "settings:ns:name:billing", .nsFindByName "billing", .cfgHas "billing",
          .cfgUnmarshalKey "billing"]
    ∧ (((memEnv MemConfigurer.invalidNumber).service jsonCodec).LoadConfig "billing" (.obj [])
        World.empty).2.st.cache "settings:ns:name:billing" = none
    ∧ (((memEnv MemConfigurer.invalidNumber).service jsonCodec).LoadConfig "billing" (.obj [])
        World.empty).2.st.cache "settings:pref:ns:key:billing:configuration" = none
    ∧ (Preference.SetValue jsonCodec { Namespace := "system", Key := "feature-x" }
        (jsonCodec.ofString "tenant-42")).2 = none
    ∧ (((memEnv MemConfigurer.sample).service failingCodec).GetNamespaceValue "feature-x"
        World.empty).1 = ("tenant-42", none)
    ∧ cacheWrites (((memEnv MemConfigurer.sample).service failingCodec).GetNamespaceValue
        "feature-x") World.empty = [] := by
  have h := C19_seeding_serialization_failure_swallowed jsonCodec
    (memEnv MemConfigurer.invalidNumber) ((memEnv MemConfigurer.invalidNumber).core jsonCodec)
    World.empty
    (((memEnv MemConfigurer.invalidNumber).core jsonCodec).LoadConfig "billing" (.obj [])
      World.empty).2
    MemState.empty MemState.empty "billing" "" "tenant-42" (.obj []) (.obj [])
    (.number "n/a") (Errorf "namespace `billing` not found: " ErrNotFound)
    (.leaf "json: invalid number literal") { Namespace := "system", Key := "feature-x" }
  have hx := C19_seeding_serialization_failure_swallowed failingCodec
    (memEnv MemConfigurer.sample) ((memEnv MemConfigurer.sample).core failingCodec)
    World.empty
    (((memEnv MemConfigurer.sample).core failingCodec).GetNamespaceValue "feature-x"
      World.empty).2
    MemState.empty MemState.empty "feature-x" "" "tenant-42" (.obj []) (.obj []) (.obj [])
    (Errorf "system preference `feature-x` not found: " ErrNotFound)
    (.leaf "json: unsupported type") { Namespace := "system", Key := "feature-x" }
  have h2 := h.2.1 (Prod.ext (by decide) rfl) rfl rfl (by decide)
  have h4 := hx.2.2.2.1 (Prod.ext (by decide) rfl) rfl rfl (by decide)
  exact ⟨h2.1, h2.2.trans (by decide), by decide, by decide, by decide, h.2.2.2.2,
    h4.1, h4.2.trans (by decide)⟩
theorem mem_loaderLoadConfig_hit {Val : Type} (codec : Codec Val) (cfg : MemConfigurer Val)
    (ns : String) (out : Val) (n0 : Namespace) (p : Preference) (tags1 tags2 : List String)
    (w : World MemState)
    (h1 : w.st.cache ("settings:ns:name:" ++ ns) = some (.ns n0, tags1))
    (h2 : w.st.cache ("settings:pref:ns:key:" ++ ns ++ ":" ++ "configuration")
      = some (.pref p, tags2)) :
    (NewLoader (memEnv cfg).nsRepo (memEnv cfg).prefRepo (memEnv cfg).cache).LoadConfig
        codec ns out w =
      (p.LoadValue codec out,
        { st := w.st,
          log := w.log ++ [.cacheGet ("settings:ns:name:" ++ ns),
            .cacheGet ("settings:pref:ns:key:" ++ ns ++ ":" ++ "configuration")] }) := by
  simp [Loader.LoadConfig, Loader.getConfiguration, NewLoader, keyConfiguration,
    CacheNamespaceRepository.toRepo, CachePreferenceRepository.toRepo,
    CacheNamespaceRepository.FindByName, CachePreferenceRepository.FindByNsAndKey,
    Env.cache, memEnv, M.bind_apply, M.pure_apply, call_apply, h1, h2]

theorem mem_cacheNsFind_state {Val : Type} (cfg : MemConfigurer Val) (name : String)
    (w : World MemState) :
    ((memEnv cfg).cacheNsRepo.FindByName name w).2.st.namespaces = w.st.namespaces
    ∧ ((memEnv cfg).cacheNsRepo.FindByName name w).2.st.preferences = w.st.preferences
    ∧ ∀ key, key ≠ "settings:ns:name:" ++ name →
        ((memEnv cfg).cacheNsRepo.FindByName name w).2.st.cache key = w.st.cache key := by
  rcases hc : w.st.cache ("settings:ns:name:" ++ name) with _ | ⟨cv, tags⟩
  · rcases hn : w.st.namespaces name with _ | found
    · simp [CacheNamespaceRepository.FindByName, Env.cacheNsRepo, Env.nsRepo, Env.cache,
        memEnv, M.bind_apply, M.pure_apply, call_apply, hc, hn]
    · refine ⟨?_, ?_, ?_⟩
      · simp [CacheNamespaceRepository.FindByName, Env.cacheNsRepo, Env.nsRepo, Env.cache,
          memEnv, M.bind_apply, M.pure_apply, call_apply, hc, hn]
      · simp [CacheNamespaceRepository.FindByName, Env.cacheNsRepo, Env.nsRepo, Env.cache,
          memEnv, M.bind_apply, M.pure_apply, call_apply, hc, hn]
      · intro key hk
        simp [CacheNamespaceRepository.FindByName, Env.cacheNsRepo, Env.nsRepo, Env.cache,
          memEnv, M.bind_apply, M.pure_apply, call_apply, hc, hn, hk]
  · cases cv with
    | ns n0 =>
      simp [CacheNamespaceRepository.FindByName, Env.cacheNsRepo, Env.nsRepo, Env.cache,
        memEnv, M.bind_apply, M.pure_apply, call_apply, hc]
    | pref p0 =>
      rcases hn : w.st.namespaces name with _ | found
      · simp [CacheNamespaceRepository.FindByName, Env.cacheNsRepo, Env.nsRepo, Env.cache,
          memEnv, M.bind_apply, M.pure_apply, call_apply, hc, hn]
      · refine ⟨?_, ?_, ?_⟩
        · simp [CacheNamespaceRepository.FindByName, Env.cacheNsRepo, Env.nsRepo, Env.cache,
            memEnv, M.bind_apply, M.pure_apply, call_apply, hc, hn]
        · simp [CacheNamespaceRepository.FindByName, Env.cacheNsRepo, Env.nsRepo, Env.cache,
            memEnv, M.bind_apply, M.pure_apply, call_apply, hc, hn]
        · intro key hk
          simp [CacheNamespaceRepository.FindByName, Env.cacheNsRepo, Env.nsRepo, Env.cache,
            memEnv, M.bind_apply, M.pure_apply, call_apply, hc, hn, hk]

theorem mem_cachePrefFind_state {Val : Type} (cfg : MemConfigurer Val) (ns key : String)
    (w : World MemState) :
    ((memEnv cfg).cachePrefRepo.FindByNsAndKey ns key w).2.st.namespaces = w.st.namespaces
    ∧ ((memEnv cfg).cachePrefRepo.FindByNsAndKey ns key w).2.st.preferences
      = w.st.preferences
    ∧ ∀ k, k ≠ "settings:pref:ns:key:" ++ ns ++ ":" ++ key →
        ((memEnv cfg).cachePrefRepo.FindByNsAndKey ns key w).2.st.cache k = w.st.cache k := by
  rcases hc : w.st.cache ("settings:pref:ns:key:" ++ ns ++ ":" ++ key) with _ | ⟨cv, tags⟩
  · rcases hn : w.st.preferences ns key with _ | found
    · simp [CachePreferenceRepository.FindByNsAndKey, Env.cachePrefRepo, Env.prefRepo,
        Env.cache, memEnv, M.bind_apply, M.pure_apply, call_apply, hc, hn]
    · refine ⟨?_, ?_, ?_⟩
      · simp [CachePreferenceRepository.FindByNsAndKey, Env.cachePrefRepo, Env.prefRepo,
          Env.cache, memEnv, M.bind_apply, M.pure_apply, call_apply, hc, hn]
      · simp [CachePreferenceRepository.FindByNsAndKey, Env.cachePrefRepo, Env.prefRepo,
          Env.cache, memEnv, M.bind_apply, M.pure_apply, call_apply, hc, hn]
      · intro k hk
        simp [CachePreferenceRepository.FindByNsAndKey, Env.cachePrefRepo, Env.prefRepo,
          Env.cache, memEnv, M.bind_apply, M.pure_apply, call_apply, hc, hn, hk]
  · cases cv with
    | pref p0 =>
      simp [CachePreferenceRepository.FindByNsAndKey, Env.cachePrefRepo, Env.prefRepo,
        Env.cache, memEnv, M.bind_apply, M.pure_apply, call_apply, hc]
    | ns n0 =>
      rcases hn : w.st.preferences ns key with _ | found
      · simp [CachePreferenceRepository.FindByNsAndKey, Env.cachePrefRepo, Env.prefRepo,
          Env.cache, memEnv, M.bind_apply, M.pure_apply, call_apply, hc, hn]
      · refine ⟨?_, ?_, ?_⟩
        · simp [CachePreferenceRepository.FindByNsAndKey, Env.cachePrefRepo, Env.prefRepo,
            Env.cache, memEnv, M.bind_apply, M.pure_apply, call_apply, hc, hn]
        · simp [CachePreferenceRepository.FindByNsAndKey, Env.cachePrefRepo, Env.prefRepo,
            Env.cache, memEnv, M.bind_apply, M.pure_apply, call_apply, hc, hn]
        · intro k hk
          simp [CachePreferenceRepository.FindByNsAndKey, Env.cachePrefRepo, Env.prefRepo,
            Env.cache, memEnv, M.bind_apply, M.pure_apply, call_apply, hc, hn, hk]

theorem mem_core_config_state {Val : Type} (codec : Codec Val) (cfg : MemConfigurer Val)
    (ns : String) (config : Val) (w : World MemState) :
    (((memEnv cfg).core codec).LoadConfig ns config w).2.st.namespaces = w.st.namespaces
    ∧ (((memEnv cfg).core codec).LoadConfig ns config w).2.st.preferences = w.st.preferences
    ∧ ∀ k, k ≠ "settings:ns:name:" ++ ns →
        k ≠ "settings:pref:ns:key:" ++ ns ++ ":configuration" →
        (((memEnv cfg).core codec).LoadConfig ns config w).2.st.cache k = w.st.cache k := by
  rw [core_config_world]
  have h1 := mem_cacheNsFind_state cfg ns w
  rcases hn : (memEnv cfg).cacheNsRepo.FindByName ns w with ⟨r, w1⟩
  rw [hn] at h1
  cases r with
  | error e => exact ⟨h1.1, h1.2.1, fun k hk _ => h1.2.2 k hk⟩
  | ok found =>
    have h2 := mem_cachePrefFind_state cfg ns keyConfiguration w1
    refine ⟨h2.1.trans h1.1, h2.2.1.trans h1.2.1, fun k hk hk2 => ?_⟩
    have hk2' : k ≠ "settings:pref:ns:key:" ++ ns ++ ":" ++ keyConfiguration := by
      rw [keyConfiguration, configuration_key]; exact hk2
    exact (h2.2.2 k hk2').trans (h1.2.2 k hk)
theorem fallback_config_seed {σ Val : Type} (codec : Codec Val) (env : Env σ Val)
    (svc : Service σ Val) (w w1 : World σ) (s2 s3 : σ) (ns : String)
    (config config1 config2 : Val) (e : GoError) (raw : RawMessage)
    (hcore : svc.LoadConfig ns config w = ((config1, some e), w1))
    (hhas : env.cfgHas ns w1.st = (true, s2))
    (hun : env.cfgUnmarshalKey ns config1 s2 = ((config2, none), s3))
    (hm : codec.Marshal config2 = (raw, none)) :
    (env.fallback svc).LoadConfig codec ns config w =
      ((config2, none),
        { st := (env.cacheSet ("settings:pref:ns:key:" ++ ns ++ ":configuration")
            (.pref (Preference.mk ns "configuration" raw 0 0))
            ["settings:pref:tag:" ++ ns ++ ":configuration"]
            (env.cacheSet ("settings:ns:name:" ++ ns) (.ns { Name := ns })
              ["settings:ns:tag:" ++ ns] s3).2).2,
          log := w1.log ++ [.cfgHas ns, .cfgUnmarshalKey ns,
            .cacheSet ("settings:ns:name:" ++ ns) (.ns { Name := ns })
              ["settings:ns:tag:" ++ ns],
            .cacheSet ("settings:pref:ns:key:" ++ ns ++ ":configuration")
              (.pref (Preference.mk ns "configuration" raw 0 0))
              ["settings:pref:tag:" ++ ns ++ ":configuration"]] }) := by
  simp [ConfigurerLoader.LoadConfig, Env.fallback, Env.configurer, Env.cache, M.bind_apply,
    M.pure_apply, call_apply, hcore, hhas, hun, Preference.SetValue, hm, keyConfiguration,
    configuration_key, configuration_tag]

/-- C15 as stated fails where the seeded serialization does not decode into
the target of the following call. Nothing is stored or cached and the
configurer has `billing` with `{"plan":"pro"}`: the core `LoadConfig("billing")`
fails, `LoadConfig("billing")` with a map target returns nil and seeds both
cache entries, and the core `LoadConfig("billing", &out)` that follows, with
`out` a string, reads both entries from the cache and returns the error of
decoding an object into a string. -/
theorem C15_counterexample :
    (((memEnv MemConfigurer.sample).core typedCodec).LoadConfig "billing" (.obj [])
        World.empty).1
      = (.obj [], some (Errorf "namespace `billing` not found: " ErrNotFound))
    ∧ MemConfigurer.sample.has "billing" = true
    ∧ MemConfigurer.sample.unmarshalKey "billing" (.obj []) = (.obj [("plan", "pro")], none)
    ∧ typedCodec.Marshal (.obj [("plan", "pro")]) = ("\x7b\"plan\":\"pro\"\x7d", none)
    ∧ (((memEnv MemConfigurer.sample).service typedCodec).LoadConfig "billing" (.obj [])
        World.empty).1 = (.obj [("plan", "pro")], none)
    ∧ (((memEnv MemConfigurer.sample).core typedCodec).LoadConfig "billing" (.str "")
        (((memEnv MemConfigurer.sample).service typedCodec).LoadConfig "billing" (.obj [])
          World.empty).2).1
      = (.str "", some (.leaf "cannot unmarshal object into Go value of type string"))
    ∧ (((memEnv MemConfigurer.sample).core typedCodec).LoadConfig "billing" (.str "")
        (((memEnv MemConfigurer.sample).service typedCodec).LoadConfig "billing" (.obj [])
          World.empty).2).2.log
      = (((memEnv MemConfigurer.sample).service typedCodec).LoadConfig "billing" (.obj [])
          World.empty).2.log
        ++ [.cacheGet "settings:ns:name:billing",
            .cacheGet "settings:pref:ns:key:billing:configuration"] := by
  refine ⟨by decide, by decide, by decide, by decide, by decide, by decide, by decide⟩

/-- C15, amended: when the wrapped `LoadConfig(ns, config)` fails, `Has(ns)` is
true, `UnmarshalKey(ns, config)` succeeds and the config serializes to `raw`,
`ConfigurerLoader.LoadConfig` returns no error and after the wrapped call
returns it makes four calls: `Has`, `UnmarshalKey`, a `Set` of
`Namespace{Name: ns}` under `settings:ns:name:<ns>` with the tag
`settings:ns:tag:<ns>`, and a `Set` of the preference `(ns, "configuration")`
with the value `raw` under `settings:pref:ns:key:<ns>:configuration` with the
tag `settings:pref:tag:<ns>:configuration`. Through the service that
`NewService` builds, the cache writes of the whole operation are those of the
decorated repositories inside the core call, followed by these two. Over the
in-memory collaborators the operation leaves both repositories as they were
and the cache as it was but for these two entries, and the core
`LoadConfig(ns, &out)` that follows reads both records from the cache with two
`Get` calls and no call to a repository, and returns what decoding `raw` into
the target gives: no error when `raw` decodes into the target, the error of
the decoder otherwise. -/
theorem C15_config_fallback_seeds_cache {σ Val : Type} (codec : Codec Val) (env : Env σ Val)
    (svc : Service σ Val) (w w1 : World σ) (s2 s3 : σ) (ns : String)
    (config config1 config2 out : Val) (e : GoError) (raw : RawMessage)
    (cfg : MemConfigurer Val) (mw mw1 : World MemState) :
    (svc.LoadConfig ns config w = ((config1, some e), w1) →
      env.cfgHas ns w1.st = (true, s2) →
      env.cfgUnmarshalKey ns config1 s2 = ((config2, none), s3) →
      codec.Marshal config2 = (raw, none) →
      (env.fallback svc).LoadConfig codec ns config w =
        ((config2, none),
          { st := (env.cacheSet ("settings:pref:ns:key:" ++ ns ++ ":configuration")
              (.pref (Preference.mk ns "configuration" raw 0 0))
              ["settings:pref:tag:" ++ ns ++ ":configuration"]
              (env.cacheSet ("settings:ns:name:" ++ ns) (.ns { Name := ns })
                ["settings:ns:tag:" ++ ns] s3).2).2,
            log := w1.log ++ [.cfgHas ns, .cfgUnmarshalKey ns,
              .cacheSet ("settings:ns:name:" ++ ns) (.ns { Name := ns })
                ["settings:ns:tag:" ++ ns],
              .cacheSet ("settings:pref:ns:key:" ++ ns ++ ":configuration")
                (.pref (Preference.mk ns "configuration" raw 0 0))
                ["settings:pref:tag:" ++ ns ++ ":configuration"]] }))
    ∧ ((env.core codec).LoadConfig ns config w = ((config1, some e), w1) →
      env.cfgHas ns w1.st = (true, s2) →
      env.cfgUnmarshalKey ns config1 s2 = ((config2, none), s3) →
      codec.Marshal config2 = (raw, none) →
      ((env.service codec).LoadConfig ns config w).1 = (config2, none)
      ∧ cacheWrites ((env.service codec).LoadConfig ns config) w
        = env.loadConfigReadThrough ns w
          ++ [.cacheSet ("settings:ns:name:" ++ ns) (.ns { Name := ns })
                ["settings:ns:tag:" ++ ns],
              .cacheSet ("settings:pref:ns:key:" ++ ns ++ ":configuration")
                (.pref (Preference.mk ns "configuration" raw 0 0))
                ["settings:pref:tag:" ++ ns ++ ":configuration"]])
    ∧ (((memEnv cfg).core codec).LoadConfig ns config mw = ((config1, some e), mw1) →
      cfg.has ns = true →
      cfg.unmarshalKey ns config1 = (config2, none) →
      codec.Marshal config2 = (raw, none) →
      (((memEnv cfg).service codec).LoadConfig ns config mw).2.st.namespaces
        = mw.st.namespaces
      ∧ (((memEnv cfg).service codec).LoadConfig ns config mw).2.st.preferences
        = mw.st.preferences
      ∧ (((memEnv cfg).service codec).LoadConfig ns config mw).2.st.cache
        = (fun k =>
            if k = "settings:pref:ns:key:" ++ ns ++ ":configuration" then
              some (.pref (Preference.mk ns "configuration" raw 0 0),
                ["settings:pref:tag:" ++ ns ++ ":configuration"])
            else if k = "settings:ns:name:" ++ ns then
              some (.ns { Name := ns }, ["settings:ns:tag:" ++ ns])
            else mw.st.cache k)
      ∧ ((memEnv cfg).core codec).LoadConfig ns out
          (((memEnv cfg).service codec).LoadConfig ns config mw).2 =
        (codec.Decode raw out,
          { st := (((memEnv cfg).service codec).LoadConfig ns config mw).2.st,
            log := (((memEnv cfg).service codec).LoadConfig ns config mw).2.log ++
              [.cacheGet ("settings:ns:name:" ++ ns),
                .cacheGet ("settings:pref:ns:key:" ++ ns ++ ":configuration")] })
      ∧ ((codec.Decode raw out).2 = none →
          (((memEnv cfg).core codec).LoadConfig ns out
            (((memEnv cfg).service codec).LoadConfig ns config mw).2).1.2 = none)) := by
  refine ⟨fallback_config_seed codec env svc w w1 s2 s3 ns config config1 config2 e raw,
    ?_, ?_⟩
  · intro hcore hhas hun hm
    have h : (env.service codec).LoadConfig ns config w = _ :=
      fallback_config_seed codec env (env.core codec) w w1 s2 s3 ns config config1 config2 e
        raw hcore hhas hun hm
    obtain ⟨l, hl, hw, _⟩ := core_config_log codec env ns config w
    rw [hcore] at hl
    have hc2 := calls_after _ w w1 _ _ l _ h hl
    refine ⟨by rw [h], ?_⟩
    rw [hc2.1, hw]; simp [Event.isCacheWrite]
  · intro hcore hhas hun hm
    have hst := mem_core_config_state codec cfg ns config mw
    rw [hcore] at hst
    have hseed : ((memEnv cfg).service codec).LoadConfig ns config mw = _ :=
      fallback_config_seed codec (memEnv cfg) ((memEnv cfg).core codec) mw mw1 mw1.st mw1.st
        ns config config1 config2 e raw hcore (by simp [memEnv, hhas]) (by simp [memEnv, hun]) hm
    have hne : "settings:ns:name:" ++ ns ≠ "settings:pref:ns:key:" ++ ns ++ ":configuration" := by
      rw [String.append_assoc]
      exact ns_key_ne_pref_key _ _
    have h := mem_loaderLoadConfig_hit codec cfg ns out { Name := ns }
      (Preference.mk ns "configuration" raw 0 0) ["settings:ns:tag:" ++ ns]
      ["settings:pref:tag:" ++ ns ++ ":configuration"]
      { st := ((memEnv cfg).cacheSet ("settings:pref:ns:key:" ++ ns ++ ":configuration")
            (.pref (Preference.mk ns "configuration" raw 0 0))
            ["settings:pref:tag:" ++ ns ++ ":configuration"]
            ((memEnv cfg).cacheSet ("settings:ns:name:" ++ ns) (.ns { Name := ns })
              ["settings:ns:tag:" ++ ns] mw1.st).2).2,
        log := mw1.log ++ [.cfgHas ns, .cfgUnmarshalKey ns,
          .cacheSet ("settings:ns:name:" ++ ns) (.ns { Name := ns }) ["settings:ns:tag:" ++ ns],
          .cacheSet ("settings:pref:ns:key:" ++ ns ++ ":configuration")
            (.pref (Preference.mk ns "configuration" raw 0 0))
            ["settings:pref:tag:" ++ ns ++ ":configuration"]] }
      (by simp [memEnv, hne]) (by simp [memEnv, configuration_key])
    rw [configuration_key] at h
    have h' : ((memEnv cfg).core codec).LoadConfig ns out _ = _ := h
    rw [hseed]
    refine ⟨?_, ?_, ?_, h', ?_⟩
    · simpa [memEnv] using hst.1
    · simpa [memEnv] using hst.2.1
    · funext k
      by_cases hk : k = "settings:pref:ns:key:" ++ ns ++ ":configuration"
      · simp [memEnv, hk]
      · by_cases hk2 : k = "settings:ns:name:" ++ ns
        · simp [memEnv, hk2, hne]
        · simpa [memEnv, hk, hk2] using hst.2.2 k hk2 hk
    · intro hd
      rw [h']
      exact hd

/-- Witness of C15 over the in-memory collaborators with nothing stored: the
configurer has `billing` with `{"plan":"pro"}`; `LoadConfig("billing")`
succeeds, its cache writes are the two seeds, and the core
`LoadConfig("billing")` that follows returns `{"plan":"pro"}` and no error
after two cache reads. -/
theorem C15_config_fallback_seeds_cache_witness :
    (((memEnv MemConfigurer.sample).service jsonCodec).LoadConfig "billing" (.obj [])
        World.empty).1 = (.obj [("plan", "pro")], none)
    ∧ cacheWrites (((memEnv MemConfigurer.sample).service jsonCodec).LoadConfig "billing"
        (.obj [])) World.empty
      = [.cacheSet "settings:ns:name:billing" (.ns { Name := "billing" })
            ["settings:ns:tag:billing"],
          .cacheSet "settings:pref:ns:key:billing:configuration"
            (.pref { Namespace := "billing", Key := "configuration",
                     Value := "\x7b\"plan\":\"pro\"\x7d" })
            ["settings:pref:tag:billing:configuration"]]
    ∧ (((memEnv MemConfigurer.sample).service jsonCodec).LoadConfig "billing" (.obj [])
        World.empty).2.st.cache "settings:ns:name:billing"
      = some (.ns { Name := "billing" }, ["settings:ns:tag:billing"])
    ∧ (((memEnv MemConfigurer.sample).service jsonCodec).LoadConfig "billing" (.obj [])
        World.empty).2.st.cache "settings:pref:ns:key:billing:configuration"
      = some (.pref { Namespace := "billing", Key := "configuration",
                      Value := "\x7b\"plan\":\"pro\"\x7d" },
          ["settings:pref:tag:billing:configuration"])
    ∧ (((memEnv MemConfigurer.sample).core jsonCodec).LoadConfig "billing" (.obj [])
        (((memEnv MemConfigurer.sample).service jsonCodec).LoadConfig "billing" (.obj [])
          World.empty).2).1 = (.obj [("plan", "pro")], none)
    ∧ (((memEnv MemConfigurer.sample).core jsonCodec).LoadConfig "billing" (.obj [])
        (((memEnv MemConfigurer.sample).service jsonCodec).LoadConfig "billing" (.obj [])
          World.empty).2).2.log
      = (((memEnv MemConfigurer.sample).service jsonCodec).LoadConfig "billing" (.obj [])
          World.empty).2.log
        ++ [.cacheGet "settings:ns:name:billing",
            .cacheGet "settings:pref:ns:key:billing:configuration"] := by
  have h := C15_config_fallback_seeds_cache jsonCodec (memEnv MemConfigurer.sample)
    ((memEnv MemConfigurer.sample).core jsonCodec) World.empty
    (((memEnv MemConfigurer.sample).core jsonCodec).LoadConfig "billing" (.obj [])
      World.empty).2
    MemState.empty MemState.empty "billing" (.obj []) (.obj []) (.obj [("plan", "pro")])
    (.obj []) (Errorf "namespace `billing` not found: " ErrNotFound)
    "\x7b\"plan\":\"pro\"\x7d" MemConfigurer.sample World.empty
    (((memEnv MemConfigurer.sample).core jsonCodec).LoadConfig "billing" (.obj [])
      World.empty).2
  have h2 := h.2.1 (Prod.ext (by decide) rfl) rfl rfl (by decide)
  have h3 := h.2.2 (Prod.ext (by decide) rfl) (by decide) (by decide) (by decide)
  refine ⟨h2.1, h2.2.trans (by decide), by decide, by decide, ?_, ?_⟩
  · rw [h3.2.2.2.1]; decide
  · rw [h3.2.2.2.1]; rfl

/-! ## Errors of the core service -/

theorem Carries.self (e : GoError) : Carries (some e) e :=
  ⟨e, rfl, GoError.Is_self e⟩

theorem Carries.wrapped (pre : String) (e : GoError) : Carries (some (Errorf pre e)) e :=
  ⟨_, rfl, Errorf_Is pre e⟩

theorem Loader.getSystemValue_find_error {σ Val : Type} (codec : Codec Val) (s : Loader σ)
    (key : String) (w : World σ) (e : GoError)
    (h : (s.PrefRepo.FindByNsAndKey "system" key w).1 = .error e) :
    s.getSystemValue codec key w =
      (("", some (Errorf ("system preference `" ++ key ++ "` not found: ") e)),
        (s.PrefRepo.FindByNsAndKey "system" key w).2) := by
  simp [Loader.getSystemValue, Loader.getSystemValueByKey, namespaceSystem, M.bind_apply,
    M.pure_apply, h]

theorem Loader.getSystemValue_decode_error {σ Val : Type} (codec : Codec Val) (s : Loader σ)
    (key : String) (w : World σ) (p : Preference) (d : GoError)
    (h : (s.PrefRepo.FindByNsAndKey "system" key w).1 = .ok p)
    (hd : (p.LoadValueString codec "").2 = some d) :
    s.getSystemValue codec key w =
      (("", some (Errorf ("namespace of system preference `" ++ key ++ "` not found: ") d)),
        (s.PrefRepo.FindByNsAndKey "system" key w).2) := by
  have hd' : p.LoadValueString codec "" = ((p.LoadValueString codec "").1, some d) :=
    Prod.ext rfl hd
  simp only [Loader.getSystemValue, Loader.getSystemValueByKey, namespaceSystem, M.bind_apply,
    M.pure_apply, h]
  rw [hd']
  rfl

theorem Loader.saveConfig_ns_error {σ Val : Type} (codec : Codec Val) (s : Loader σ)
    (ns key : String) (config : Val) (w : World σ) (e : GoError)
    (h : (s.NsRepo.Save { Name := ns } w).1 = some e) :
    s.saveConfig codec ns key config w = (some e, (s.NsRepo.Save { Name := ns } w).2) := by
  simp [Loader.saveConfig, M.bind_apply, M.pure_apply, h]

theorem Loader.saveConfig_marshal_error {σ Val : Type} (codec : Codec Val) (s : Loader σ)
    (ns key : String) (config : Val) (w : World σ) (em : GoError)
    (h : (s.NsRepo.Save { Name := ns } w).1 = none)
    (hm : (codec.Marshal config).2 = some em) :
    s.saveConfig codec ns key config w = (some em, (s.NsRepo.Save { Name := ns } w).2) := by
  simp only [Loader.saveConfig, M.bind_apply, M.pure_apply, h, Preference.SetValue]
  rw [hm]
  rfl

theorem Loader.saveConfig_ok {σ Val : Type} (codec : Codec Val) (s : Loader σ)
    (ns key : String) (config : Val) (w : World σ)
    (h : (s.NsRepo.Save { Name := ns } w).1 = none)
    (hm : (codec.Marshal config).2 = none) :
    s.saveConfig codec ns key config w =
      s.PrefRepo.Save (Preference.mk ns key (codec.Marshal config).1 0 0)
        (s.NsRepo.Save { Name := ns } w).2 := by
  simp only [Loader.saveConfig, M.bind_apply, M.pure_apply, h, Preference.SetValue]
  rw [hm]

/-- C16: every error that a repository call returns during an operation of the
core `Loader` is in the unwrap chain of the error the operation returns, and
so is a decoding error of `LoadValue`. The conjuncts follow the operations:
`GetNamespaceValue` (find, decoding), `SetNamespaceValue` (both saves),
`RemoveNamespaceValue`, `LoadConfig` (both finds, decoding), `SaveConfig`
(both saves), `RemoveConfig` (both deletions); the three `*ByNamespace`
operations return the error of `GetNamespaceValue` as it is, and otherwise are
the direct operation on the resolved namespace. -/
theorem C16_error_kind_preserved {σ Val : Type} (codec : Codec Val) (s : Loader σ)
    (w w1 : World σ) (ns value : String) (config : Val) (e d : GoError) (p : Preference)
    (n0 : Namespace) :
    ((s.PrefRepo.FindByNsAndKey "system" ns w).1 = .error e →
      Carries (s.GetNamespaceValue codec ns w).1.2 e)
    ∧ ((s.PrefRepo.FindByNsAndKey "system" ns w).1 = .ok p →
      (p.LoadValueString codec "").2 = some d →
      Carries (s.GetNamespaceValue codec ns w).1.2 d)
    ∧ ((s.NsRepo.Save { Name := "system" } w).1 = some e →
      Carries (s.SetNamespaceValue codec ns value w).1 e)
    ∧ ((s.NsRepo.Save { Name := "system" } w).1 = none →
      (codec.Marshal (codec.ofString value)).2 = none →
      (s.PrefRepo.Save
        (Preference.mk "system" ns (codec.Marshal (codec.ofString value)).1 0 0)
        (s.NsRepo.Save { Name := "system" } w).2).1 = some e →
      Carries (s.SetNamespaceValue codec ns value w).1 e)
    ∧ ((s.PrefRepo.DeleteByNsAndKey "system" ns w).1 = some e →
      Carries (s.RemoveNamespaceValue ns w).1 e)
    ∧ ((s.NsRepo.FindByName ns w).1 = .error e →
      Carries (s.LoadConfig codec ns config w).1.2 e)
    ∧ ((s.NsRepo.FindByName ns w).1 = .ok n0 →
      (s.PrefRepo.FindByNsAndKey ns "configuration" (s.NsRepo.FindByName ns w).2).1
        = .error e →
      Carries (s.LoadConfig codec ns config w).1.2 e)
    ∧ ((s.NsRepo.FindByName ns w).1 = .ok n0 →
      (s.PrefRepo.FindByNsAndKey ns "configuration" (s.NsRepo.FindByName ns w).2).1
        = .ok p →
      (p.LoadValue codec config).2 = some d →
      Carries (s.LoadConfig codec ns config w).1.2 d)
    ∧ ((s.NsRepo.Save { Name := ns } w).1 = some e →
      Carries (s.SaveConfig codec ns config w).1 e)
    ∧ ((s.NsRepo.Save { Name := ns } w).1 = none →
      (codec.Marshal config).2 = none →
      (s.PrefRepo.Save (Preference.mk ns "configuration" (codec.Marshal config).1 0 0)
        (s.NsRepo.Save { Name := ns } w).2).1 = some e →
      Carries (s.SaveConfig codec ns config w).1 e)
    ∧ ((s.PrefRepo.DeleteByNsAndKey ns "configuration" w).1 = some e →
      Carries (s.RemoveConfig ns w).1 e)
    ∧ ((s.PrefRepo.DeleteByNsAndKey ns "configuration" w).1 = none →
      (s.NsRepo.DeleteByName ns (s.PrefRepo.DeleteByNsAndKey ns "configuration" w).2).1
        = some e →
      Carries (s.RemoveConfig ns w).1 e)
    ∧ (Carries (s.GetNamespaceValue codec ns w).1.2 e →
      Carries (s.LoadConfigByNamespace codec ns config w).1.2 e
      ∧ Carries (s.SaveConfigByNamespace codec ns config w).1 e
      ∧ Carries (s.RemoveConfigByNamespace codec ns w).1 e)
    ∧ (s.GetNamespaceValue codec ns w = ((value, none), w1) →
      s.LoadConfigByNamespace codec ns config w = s.LoadConfig codec value config w1
      ∧ s.SaveConfigByNamespace codec ns config w = s.SaveConfig codec value config w1
      ∧ s.RemoveConfigByNamespace codec ns w = s.RemoveConfig value w1) := by
  refine ⟨?_, ?_, ?_, ?_, ?_, ?_, ?_, ?_, ?_, ?_, ?_, ?_, ?_, ?_⟩
  · intro h
    rw [show s.GetNamespaceValue codec ns w = _ from
      Loader.getSystemValue_find_error codec s ns w e h]
    exact Carries.wrapped _ e
  · intro h hd
    rw [show s.GetNamespaceValue codec ns w = _ from
      Loader.getSystemValue_decode_error codec s ns w p d h hd]
    exact Carries.wrapped _ d
  · intro h
    rw [show s.SetNamespaceValue codec ns value w = _ from
      Loader.saveConfig_ns_error codec s "system" ns _ w e h]
    exact Carries.self e
  · intro h hm hp
    rw [show s.SetNamespaceValue codec ns value w = _ from
      Loader.saveConfig_ok codec s "system" ns _ w h hm, hp]
    exact Carries.self e
  · intro h
    rw [show s.RemoveNamespaceValue ns w = s.PrefRepo.DeleteByNsAndKey "system" ns w from rfl, h]
    exact Carries.self e
  · intro h
    simp only [Loader.LoadConfig, M.bind_apply, M.pure_apply, h]
    exact Carries.wrapped _ e
  · intro h1 h2
    simp only [Loader.LoadConfig, Loader.getConfiguration, keyConfiguration, M.bind_apply,
      M.pure_apply, h1, h2]
    exact Carries.wrapped _ e
  · intro h1 h2 hd
    simp only [Loader.LoadConfig, Loader.getConfiguration, keyConfiguration, M.bind_apply,
      M.pure_apply, h1, h2, hd]
    exact Carries.self d
  · intro h
    rw [show s.SaveConfig codec ns config w = _ from
      Loader.saveConfig_ns_error codec s ns "configuration" config w e h]
    exact Carries.self e
  · intro h hm hp
    rw [show s.SaveConfig codec ns config w = _ from
      Loader.saveConfig_ok codec s ns "configuration" config w h hm, hp]
    exact Carries.self e
  · intro h
    simp only [Loader.RemoveConfig, keyConfiguration, M.bind_apply, M.pure_apply, h]
    exact Carries.self e
  · intro h1 h2
    simp only [Loader.RemoveConfig, keyConfiguration, M.bind_apply, M.pure_apply, h1, h2]
    exact Carries.self e
  · intro h
    obtain ⟨x, hx, hxe⟩ := h
    have hg : s.GetNamespaceValue codec ns w
        = (((s.GetNamespaceValue codec ns w).1.1, some x), (s.GetNamespaceValue codec ns w).2) :=
      Prod.ext (Prod.ext rfl hx) rfl
    refine ⟨⟨x, ?_, hxe⟩, ⟨x, ?_, hxe⟩, ⟨x, ?_, hxe⟩⟩
    · simp only [Loader.LoadConfigByNamespace, M.bind_apply]
      rw [hg]
      rfl
    · simp only [Loader.SaveConfigByNamespace, M.bind_apply]
      rw [hg]
      rfl
    · simp only [Loader.RemoveConfigByNamespace, M.bind_apply]
      rw [hg]
      rfl
  · intro h
    refine ⟨?_, ?_, ?_⟩
    · simp only [Loader.LoadConfigByNamespace, M.bind_apply, h]
    · simp only [Loader.SaveConfigByNamespace, M.bind_apply, h]
    · simp only [Loader.RemoveConfigByNamespace, M.bind_apply, h]

/-- Witness of C16 over the in-memory collaborators with nothing stored,
through the decorated repositories: the not-found error of the repository is
in the unwrap chain of the errors of `LoadConfig("billing")`,
`GetNamespaceValue("logical")` and `LoadConfigByNamespace("logical")`. -/
theorem C16_error_kind_preserved_witness :
    Carries ((NewLoader (memEnv (MemConfigurer.none JVal)).nsRepo
        (memEnv (MemConfigurer.none JVal)).prefRepo
        (memEnv (MemConfigurer.none JVal)).cache).LoadConfig jsonCodec "billing" (.obj [])
          World.empty).1.2 ErrNotFound
    ∧ Carries ((NewLoader (memEnv (MemConfigurer.none JVal)).nsRepo
        (memEnv (MemConfigurer.none JVal)).prefRepo
        (memEnv (MemConfigurer.none JVal)).cache).GetNamespaceValue jsonCodec "logical"
          World.empty).1.2 ErrNotFound
    ∧ Carries ((NewLoader (memEnv (MemConfigurer.none JVal)).nsRepo
        (memEnv (MemConfigurer.none JVal)).prefRepo
        (memEnv (MemConfigurer.none JVal)).cache).LoadConfigByNamespace jsonCodec "logical"
          (.obj []) World.empty).1.2 ErrNotFound
    ∧ ((NewLoader (memEnv (MemConfigurer.none JVal)).nsRepo
        (memEnv (MemConfigurer.none JVal)).prefRepo
        (memEnv (MemConfigurer.none JVal)).cache).LoadConfigByNamespace jsonCodec "logical"
          (.obj []) World.empty).1.2
      = some (Errorf "system preference `logical` not found: " ErrNotFound) := by
  have hb := C16_error_kind_preserved jsonCodec
    (NewLoader (memEnv (MemConfigurer.none JVal)).nsRepo
      (memEnv (MemConfigurer.none JVal)).prefRepo (memEnv (MemConfigurer.none JVal)).cache)
    World.empty World.empty "billing" "" (.obj []) ErrNotFound ErrNotFound
    { Namespace := "", Key := "" } { Name := "" }
  have hl := C16_error_kind_preserved jsonCodec
    (NewLoader (memEnv (MemConfigurer.none JVal)).nsRepo
      (memEnv (MemConfigurer.none JVal)).prefRepo (memEnv (MemConfigurer.none JVal)).cache)
    World.empty World.empty "logical" "" (.obj []) ErrNotFound ErrNotFound
    { Namespace := "", Key := "" } { Name := "" }
  have h1 := hl.1 (by decide)
  exact ⟨hb.2.2.2.2.2.1 (by decide), h1, (hl.2.2.2.2.2.2.2.2.2.2.2.2.1 h1).1, by decide⟩

/-- C20: `SaveConfig` makes its two writes one after the other, with no
rollback. (a) When `NsRepo.Save` fails with `e`, it returns `e` and the world
is the one that call left: over the repositories of an environment the one
call made is the namespace `Save`. (b) When `NsRepo.Save` succeeds and the
serialization fails with `em`, it returns `em` and the world is still the one
the namespace `Save` left; when `PrefRepo.Save` fails with `e`, it returns `e`
and the calls made are the two saves, with no `Delete` of the namespace. Over
the in-memory collaborators, through the service that `NewService` builds, a
failed serialization leaves the namespace `ns` stored and the preferences as
they were. -/
theorem C20_save_config_not_atomic {σ Val : Type} (codec : Codec Val) (s : Loader σ)
    (env : Env σ Val) (w : World σ) (ns : String) (config : Val) (e em : GoError)
    (cfg : MemConfigurer Val) (mw : World MemState) :
    ((s.NsRepo.Save { Name := ns } w).1 = some e →
      s.SaveConfig codec ns config w = (some e, (s.NsRepo.Save { Name := ns } w).2))
    ∧ ((env.nsSave { Name := ns } w.st).1 = some e →
      (env.loader.SaveConfig codec ns config w).1 = some e
      ∧ (env.loader.SaveConfig codec ns config w).2.log = w.log ++ [.nsSave { Name := ns }])
    ∧ ((s.NsRepo.Save { Name := ns } w).1 = none →
      (codec.Marshal config).2 = some em →
      s.SaveConfig codec ns config w = (some em, (s.NsRepo.Save { Name := ns } w).2))
    ∧ ((s.NsRepo.Save { Name := ns } w).1 = none →
      (codec.Marshal config).2 = none →
      (s.PrefRepo.Save (Preference.mk ns "configuration" (codec.Marshal config).1 0 0)
        (s.NsRepo.Save { Name := ns } w).2).1 = some e →
      s.SaveConfig codec ns config w =
        (some e,
          (s.PrefRepo.Save (Preference.mk ns "configuration" (codec.Marshal config).1 0 0)
            (s.NsRepo.Save { Name := ns } w).2).2))
    ∧ ((env.nsSave { Name := ns } w.st).1 = none →
      (codec.Marshal config).2 = none →
      (env.loader.SaveConfig codec ns config w).2.log =
        w.log ++ [.nsSave { Name := ns },
          .prefSave (Preference.mk ns "configuration" (codec.Marshal config).1 0 0)])
    ∧ ((codec.Marshal config).2 = some em →
      (((memEnv cfg).service codec).SaveConfig ns config mw).1 = some em
      ∧ (((memEnv cfg).service codec).SaveConfig ns config mw).2.st.namespaces ns
        = some { Name := ns }
      ∧ (((memEnv cfg).service codec).SaveConfig ns config mw).2.st.preferences
        = mw.st.preferences) := by
  refine ⟨?_, ?_, ?_, ?_, ?_, ?_⟩
  · intro h
    exact Loader.saveConfig_ns_error codec s ns "configuration" config w e h
  · intro h
    have h' : (env.loader.NsRepo.Save { Name := ns } w).1 = some e := h
    rw [show env.loader.SaveConfig codec ns config w = _ from
      Loader.saveConfig_ns_error codec env.loader ns "configuration" config w e h']
    exact ⟨rfl, rfl⟩
  · intro h hm
    exact Loader.saveConfig_marshal_error codec s ns "configuration" config w em h hm
  · intro h hm hp
    rw [show s.SaveConfig codec ns config w = _ from
      Loader.saveConfig_ok codec s ns "configuration" config w h hm]
    exact Prod.ext hp rfl
  · intro h hm
    have h' : (env.loader.NsRepo.Save { Name := ns } w).1 = none := h
    rw [show env.loader.SaveConfig codec ns config w = _ from
      Loader.saveConfig_ok codec env.loader ns "configuration" config w h' hm]
    simp [Env.loader, Env.nsRepo, Env.prefRepo, call_apply]
  · intro hm
    have h1 : ((NewLoader (memEnv cfg).nsRepo (memEnv cfg).prefRepo
        (memEnv cfg).cache).NsRepo.Save { Name := ns } mw).1 = none := by
      show ((memEnv cfg).cacheNsRepo.Save { Name := ns } mw).1 = none
      rw [mem_cacheNsSave]
    have hs : ((memEnv cfg).service codec).SaveConfig ns config mw
        = (some em, ((memEnv cfg).cacheNsRepo.Save { Name := ns } mw).2) :=
      Loader.saveConfig_marshal_error codec _ ns "configuration" config mw em h1 hm
    rw [hs, mem_cacheNsSave]
    simp

/-- Witness of C20 with nothing stored. With a failing namespace `Save`,
`SaveConfig("billing")` returns its error after that one call. With a failing
preference `Save`, it returns that error and the namespace `billing` is
stored without a configuration. With a failing serialization, through the
service that `NewService` builds, the namespace `billing` is stored without a
configuration. -/
theorem C20_save_config_not_atomic_witness :
    ((memEnvFailing (MemConfigurer.none JVal) true false).loader.SaveConfig jsonCodec "billing"
        (.obj [("plan", "pro")]) World.empty).1 = some ErrStorage
    ∧ ((memEnvFailing (MemConfigurer.none JVal) true false).loader.SaveConfig jsonCodec
        "billing" (.obj [("plan", "pro")]) World.empty).2.log
      = [.nsSave { Name := "billing" }]
    ∧ ((memEnvFailing (MemConfigurer.none JVal) false true).loader.SaveConfig jsonCodec
        "billing" (.obj [("plan", "pro")]) World.empty).1 = some ErrStorage
    ∧ ((memEnvFailing (MemConfigurer.none JVal) false true).loader.SaveConfig jsonCodec
        "billing" (.obj [("plan", "pro")]) World.empty).2.st.namespaces "billing"
      = some { Name := "billing" }
    ∧ ((memEnvFailing (MemConfigurer.none JVal) false true).loader.SaveConfig jsonCodec
        "billing" (.obj [("plan", "pro")]) World.empty).2.st.preferences "billing"
          "configuration" = none
    ∧ (((memEnv (MemConfigurer.none JVal)).service failingCodec).SaveConfig "billing"
        (.obj [("plan", "pro")]) World.empty).1 = some (.leaf "json: unsupported type")
    ∧ (((memEnv (MemConfigurer.none JVal)).service failingCodec).SaveConfig "billing"
        (.obj [("plan", "pro")]) World.empty).2.st.namespaces "billing"
      = some { Name := "billing" }
    ∧ (((memEnv (MemConfigurer.none JVal)).service failingCodec).SaveConfig "billing"
        (.obj [("plan", "pro")]) World.empty).2.st.preferences "billing" "configuration"
      = none := by
  have ha := (C20_save_config_not_atomic jsonCodec
    (memEnvFailing (MemConfigurer.none JVal) true false).loader
    (memEnvFailing (MemConfigurer.none JVal) true false) World.empty "billing"
    (.obj [("plan", "pro")]) ErrStorage ErrStorage (MemConfigurer.none JVal)
    World.empty).2.1 (by decide)
  have hb := (C20_save_config_not_atomic jsonCodec
    (memEnvFailing (MemConfigurer.none JVal) false true).loader
    (memEnvFailing (MemConfigurer.none JVal) false true) World.empty "billing"
    (.obj [("plan", "pro")]) ErrStorage ErrStorage (MemConfigurer.none JVal)
    World.empty).2.2.2.1 (by decide) (by decide) (by decide)
  have hc := (C20_save_config_not_atomic failingCodec
    (memEnv (MemConfigurer.none JVal)).loader (memEnv (MemConfigurer.none JVal)) World.empty
    "billing" (.obj [("plan", "pro")]) ErrStorage (.leaf "json: unsupported type")
    (MemConfigurer.none JVal) World.empty).2.2.2.2.2 (by decide)
  refine ⟨ha.1, ha.2, ?_, ?_, ?_, hc.1, hc.2.1, ?_⟩
  · rw [hb]
  · rw [hb]; decide
  · rw [hb]; decide
  · rw [hc.2.2]; decide

/-! ## Indirection over the in-memory collaborators -/

theorem pref_key_ne_ns_key (ns key name : String) :
    "settings:pref:ns:key:" ++ ns ++ ":" ++ key ≠ "settings:ns:name:" ++ name := by
  rw [pref_key_assoc]
  exact fun h => ns_key_ne_pref_key _ _ h.symm

theorem mem_loaderLoadConfig_miss {Val : Type} (codec : Codec Val)
    (cfg : MemConfigurer Val) (ns : String) (out : Val) (p : Preference) (n : Namespace)
    (w : World MemState)
    (hc1 : w.st.cache ("settings:ns:name:" ++ ns) = none)
    (hc2 : w.st.cache ("settings:pref:ns:key:" ++ ns ++ ":" ++ "configuration") = none)
    (hn : w.st.namespaces ns = some n)
    (hp : w.st.preferences ns "configuration" = some p) :
    (NewLoader (memEnv cfg).nsRepo (memEnv cfg).prefRepo (memEnv cfg).cache).LoadConfig
        codec ns out w =
      (p.LoadValue codec out,
        { st :=
            { namespaces := w.st.namespaces
              preferences := w.st.preferences
              cache := fun k =>
                if k = "settings:pref:ns:key:" ++ ns ++ ":" ++ "configuration" then
                  some (.pref p, ["settings:pref:tag:" ++ ns ++ ":" ++ "configuration"])
                else if k = "settings:ns:name:" ++ ns then
                  some (.ns n, ["settings:ns:tag:" ++ ns])
                else w.st.cache k }
          log := w.log ++ [.cacheGet ("settings:ns:name:" ++ ns), .nsFindByName ns,
            .cacheSet ("settings:ns:name:" ++ ns) (.ns n) ["settings:ns:tag:" ++ ns],
            .cacheGet ("settings:pref:ns:key:" ++ ns ++ ":" ++ "configuration"),
            .prefFindByNsAndKey ns "configuration",
            .cacheSet ("settings:pref:ns:key:" ++ ns ++ ":" ++ "configuration") (.pref p)
              ["settings:pref:tag:" ++ ns ++ ":" ++ "configuration"]] }) := by
  have h1 := mem_cacheNsFind_miss cfg ns n w hc1 hn
  have hc3 : (((memEnv cfg).cacheNsRepo.FindByName ns w).2).st.cache
      ("settings:pref:ns:key:" ++ ns ++ ":" ++ "configuration") = none := by
    rw [h1]
    simp only [pref_key_ne_ns_key, if_false]
    exact hc2
  have hp3 : (((memEnv cfg).cacheNsRepo.FindByName ns w).2).st.preferences ns "configuration"
      = some p := by
    rw [h1]
    exact hp
  have h2 := mem_cachePrefFind_miss cfg ns "configuration" p _ hc3 hp3
  rw [h1] at h2
  simp only [Env.cacheNsRepo, Env.cachePrefRepo] at h1 h2
  simp only [Loader.LoadConfig, Loader.getConfiguration, NewLoader,
    CacheNamespaceRepository.toRepo, CachePreferenceRepository.toRepo, M.bind_apply,
    keyConfiguration, h1, h2, M.pure_apply, List.append_assoc, List.cons_append,
    List.nil_append]

theorem mem_getSystemValue_miss {Val : Type} (codec : Codec Val) (cfg : MemConfigurer Val)
    (key v : String) (p : Preference) (w : World MemState)
    (hc : w.st.cache ("settings:pref:ns:key:" ++ "system" ++ ":" ++ key) = none)
    (hp : w.st.preferences "system" key = some p)
    (hv : p.LoadValueString codec "" = (v, none)) :
    (NewLoader (memEnv cfg).nsRepo (memEnv cfg).prefRepo (memEnv cfg).cache).getSystemValue
        codec key w =
      ((v, none),
        { st :=
            { namespaces := w.st.namespaces
              preferences := w.st.preferences
              cache := fun k =>
                if k = "settings:pref:ns:key:" ++ "system" ++ ":" ++ key then
                  some (.pref p, ["settings:pref:tag:" ++ "system" ++ ":" ++ key])
                else w.st.cache k }
          log := w.log ++ [.cacheGet ("settings:pref:ns:key:" ++ "system" ++ ":" ++ key),
            .prefFindByNsAndKey "system" key,
            .cacheSet ("settings:pref:ns:key:" ++ "system" ++ ":" ++ key) (.pref p)
              ["settings:pref:tag:" ++ "system" ++ ":" ++ key]] }) := by
  have h := mem_cachePrefFind_miss cfg "system" key p w hc hp
  simp only [Env.cachePrefRepo] at h
  simp only [Loader.getSystemValue, Loader.getSystemValueByKey, NewLoader,
    CachePreferenceRepository.toRepo, M.bind_apply, namespaceSystem, h, M.pure_apply, hv]

theorem mem_saveConfig_world {Val : Type} (codec : Codec Val) (cfg : MemConfigurer Val)
    (ns key : String) (config : Val) (w : World MemState)
    (hm : (codec.Marshal config).2 = none) :
    (NewLoader (memEnv cfg).nsRepo (memEnv cfg).prefRepo (memEnv cfg).cache).saveConfig
        codec ns key config w =
      (none,
        { st :=
            { namespaces := fun k => if k = ns then some { Name := ns } else w.st.namespaces k
              preferences := fun a b =>
                if a = ns ∧ b = key then some (Preference.mk ns key (codec.Marshal config).1 0 0)
                else w.st.preferences a b
              cache := MemState.delByTag (MemState.delByTag w.st.cache ("settings:ns:tag:" ++ ns))
                ("settings:pref:tag:" ++ ns ++ ":" ++ key) }
          log := w.log ++ [.nsSave { Name := ns }, .cacheDelByTag ("settings:ns:tag:" ++ ns),
            .prefSave (Preference.mk ns key (codec.Marshal config).1 0 0),
            .cacheDelByTag ("settings:pref:tag:" ++ ns ++ ":" ++ key)] }) := by
  rw [mem_saveConfig codec cfg ns key config w hm, mem_cachePrefSave, mem_cacheNsSave]
  simp

theorem mem_saveConfig_marshal_ok {Val : Type} (codec : Codec Val) (cfg : MemConfigurer Val)
    (ns key : String) (config : Val) (w : World MemState)
    (h : ((NewLoader (memEnv cfg).nsRepo (memEnv cfg).prefRepo (memEnv cfg).cache).saveConfig
        codec ns key config w).1 = none) :
    (codec.Marshal config).2 = none := by
  cases hme : (codec.Marshal config).2 with
  | none => rfl
  | some e =>
    rw [mem_saveConfig_marshal_error codec cfg ns key config w e hme] at h
    cases h

theorem pref_key_inj {a b c d : String}
    (h : "settings:pref:ns:key:" ++ a ++ ":" ++ b = "settings:pref:ns:key:" ++ c ++ ":" ++ d) :
    a ++ ":" ++ b = c ++ ":" ++ d := by
  rw [pref_key_assoc, pref_key_assoc] at h
  exact append_left_cancel_string h

/-- C11 as stated fails: with `logical = "configuration"` and
`physical = "system"`, the alias and the configuration are the same preference
`(system, configuration)`. Both writes succeed, the second overwrites the
first, and `LoadConfigByNamespace("configuration", &out)` returns an error. -/
theorem C11_counterexample :
    (((memEnv (MemConfigurer.none JVal)).service jsonCodec).SetNamespaceValue "configuration"
        "system" World.empty).1 = none
    ∧ (((memEnv (MemConfigurer.none JVal)).service jsonCodec).SaveConfig "system"
        (.obj [("plan", "pro")])
        (((memEnv (MemConfigurer.none JVal)).service jsonCodec).SetNamespaceValue
          "configuration" "system" World.empty).2).1 = none
    ∧ (((memEnv (MemConfigurer.none JVal)).service jsonCodec).LoadConfigByNamespace
        "configuration" (.obj [])
        (((memEnv (MemConfigurer.none JVal)).service jsonCodec).SaveConfig "system"
          (.obj [("plan", "pro")])
          (((memEnv (MemConfigurer.none JVal)).service jsonCodec).SetNamespaceValue
            "configuration" "system" World.empty).2).2).1
      = (.obj [],
          some (Errorf "namespace of system preference `configuration` not found: "
            (.leaf "cannot unmarshal object into Go value of type string"))) := by
  decide

/-- C11, amended: in every reachable in-memory world, when the alias preference
`(system, logical)` and the configuration preference `(physical,
"configuration")` do not share the text `<namespace>:<key>` of their cache
key, the name `physical` and the config round-trip through the codec, and
`SetNamespaceValue(logical, physical)` and `SaveConfig(physical, config)`
succeed, then `LoadConfigByNamespace(logical, &out)` returns no error and
leaves `config` in the target; its calls are `indirectionCalls`: the alias
`(system, logical)`, the namespace `physical` and the preference
`(physical, "configuration")`. When `logical` and `physical` differ, no
namespace `logical` and no preference `(logical, "configuration")` is looked
up. -/
theorem C11_indirection_through_alias {Val : Type} (codec : Codec Val)
    (cfg : MemConfigurer Val) (w : World MemState) (logical physical : String)
    (config out : Val) (h : Reachable codec w)
    (hkeys : "system" ++ ":" ++ logical ≠ physical ++ ":" ++ "configuration")
    (hset : (((memEnv cfg).service codec).SetNamespaceValue logical physical w).1 = none)
    (hsave : (((memEnv cfg).service codec).SaveConfig physical config
      (((memEnv cfg).service codec).SetNamespaceValue logical physical w).2).1 = none)
    (hstr : Preference.LoadValueString codec
      (Preference.SetValue codec { Namespace := "system", Key := logical }
        (codec.ofString physical)).1 "" = (physical, none))
    (hrt : Preference.LoadValue codec
      (Preference.SetValue codec { Namespace := physical, Key := "configuration" } config).1 out
        = (config, none)) :
    (((memEnv cfg).service codec).LoadConfigByNamespace logical out
      (((memEnv cfg).service codec).SaveConfig physical config
        (((memEnv cfg).service codec).SetNamespaceValue logical physical w).2).2).1
      = (config, none)
    ∧ (((memEnv cfg).service codec).LoadConfigByNamespace logical out
      (((memEnv cfg).service codec).SaveConfig physical config
        (((memEnv cfg).service codec).SetNamespaceValue logical physical w).2).2).2.log
      = (((memEnv cfg).service codec).SaveConfig physical config
          (((memEnv cfg).service codec).SetNamespaceValue logical physical w).2).2.log
        ++ indirectionCalls logical physical
          (Preference.mk "system" logical (codec.Marshal (codec.ofString physical)).1 0 0)
          (Preference.mk physical "configuration" (codec.Marshal config).1 0 0)
    ∧ (logical ≠ physical →
      Event.nsFindByName logical ∉ indirectionCalls logical physical
          (Preference.mk "system" logical (codec.Marshal (codec.ofString physical)).1 0 0)
          (Preference.mk physical "configuration" (codec.Marshal config).1 0 0)
      ∧ Event.prefFindByNsAndKey logical "configuration" ∉
        indirectionCalls logical physical
          (Preference.mk "system" logical (codec.Marshal (codec.ofString physical)).1 0 0)
          (Preference.mk physical "configuration" (codec.Marshal config).1 0 0)) := by
  have hinv := h.cacheInv
  -- the world after `SetNamespaceValue`
  have hm1 : (codec.Marshal (codec.ofString physical)).2 = none :=
    mem_saveConfig_marshal_ok codec cfg "system" logical _ w hset
  have hw1 : ((memEnv cfg).service codec).SetNamespaceValue logical physical w = _ :=
    mem_saveConfig_world codec cfg "system" logical (codec.ofString physical) w hm1
  obtain ⟨w1, hW1⟩ : ∃ w1, (((memEnv cfg).service codec).SetNamespaceValue logical physical
      w).2 = w1 := ⟨_, rfl⟩
  rw [hW1] at hsave ⊢
  have hc1 : w1.st.cache = MemState.delByTag
      (MemState.delByTag w.st.cache ("settings:ns:tag:" ++ "system"))
      ("settings:pref:tag:" ++ "system" ++ ":" ++ logical) := by
    rw [← hW1, hw1]
  have hp1 : w1.st.preferences "system" logical
      = some (Preference.mk "system" logical (codec.Marshal (codec.ofString physical)).1 0 0) := by
    rw [← hW1, hw1]
    simp
  -- the world after `SaveConfig`
  have hm2 : (codec.Marshal config).2 = none :=
    mem_saveConfig_marshal_ok codec cfg physical "configuration" config w1 hsave
  have hw2 : ((memEnv cfg).service codec).SaveConfig physical config w1 = _ :=
    mem_saveConfig_world codec cfg physical "configuration" config w1 hm2
  obtain ⟨w2, hW2⟩ : ∃ w2, (((memEnv cfg).service codec).SaveConfig physical config w1).2
      = w2 := ⟨_, rfl⟩
  rw [hW2]
  have hc2 : w2.st.cache = MemState.delByTag
      (MemState.delByTag w1.st.cache ("settings:ns:tag:" ++ physical))
      ("settings:pref:tag:" ++ physical ++ ":" ++ "configuration") := by
    rw [← hW2, hw2]
  have hid : ¬ ("system" = physical ∧ logical = "configuration") := by
    rintro ⟨h1, h2⟩
    apply hkeys
    rw [← h1, h2]
  have hp2a : w2.st.preferences "system" logical
      = some (Preference.mk "system" logical (codec.Marshal (codec.ofString physical)).1 0 0) := by
    rw [← hW2, hw2]
    simp only [hid, if_false]
    exact hp1
  have hp2 : w2.st.preferences physical "configuration"
      = some (Preference.mk physical "configuration" (codec.Marshal config).1 0 0) := by
    rw [← hW2, hw2]
    simp
  have hn2 : w2.st.namespaces physical = some { Name := physical } := by
    rw [← hW2, hw2]
    simp
  -- the cache holds none of the three keys
  have hinv1 := hinv.delByTag ("settings:ns:tag:" ++ "system")
  have hinv2 := hinv1.delByTag ("settings:pref:tag:" ++ "system" ++ ":" ++ logical)
  have hinv3 := hinv2.delByTag ("settings:ns:tag:" ++ physical)
  have hk : "settings:pref:ns:key:" ++ physical ++ ":" ++ "configuration"
      ≠ "settings:pref:ns:key:" ++ "system" ++ ":" ++ logical :=
    fun hEq => hkeys (pref_key_inj hEq).symm
  have hcA : w2.st.cache ("settings:pref:ns:key:" ++ "system" ++ ":" ++ logical) = none := by
    rw [hc2, hc1]
    exact delByTag_none (delByTag_none (hinv1.miss_pref_key "system" logical) _) _
  have hcB : w2.st.cache ("settings:ns:name:" ++ physical) = none := by
    rw [hc2, hc1]
    exact delByTag_none (hinv2.miss_ns physical) _
  have hcC : w2.st.cache ("settings:pref:ns:key:" ++ physical ++ ":" ++ "configuration")
      = none := by
    rw [hc2, hc1]
    exact hinv3.miss_pref_key physical "configuration"
  -- the alias is read
  have hstr' : (Preference.mk "system" logical
      (codec.Marshal (codec.ofString physical)).1 0 0).LoadValueString codec ""
        = (physical, none) := hstr
  have hrt' : (Preference.mk physical "configuration"
      (codec.Marshal config).1 0 0).LoadValue codec out = (config, none) := hrt
  have hget := mem_getSystemValue_miss codec cfg logical physical
    (Preference.mk "system" logical (codec.Marshal (codec.ofString physical)).1 0 0)
    w2 hcA hp2a hstr'
  obtain ⟨w3, hW3⟩ : ∃ w3, ((NewLoader (memEnv cfg).nsRepo (memEnv cfg).prefRepo
      (memEnv cfg).cache).getSystemValue codec logical w2).2 = w3 := ⟨_, rfl⟩
  have hget1 : (NewLoader (memEnv cfg).nsRepo (memEnv cfg).prefRepo
      (memEnv cfg).cache).getSystemValue codec logical w2 = ((physical, none), w3) := by
    rw [← hW3, hget]
  have hcB3 : w3.st.cache ("settings:ns:name:" ++ physical) = none := by
    rw [← hW3, hget]
    simp only [(pref_key_ne_ns_key "system" logical physical).symm, if_false]
    exact hcB
  have hcC3 : w3.st.cache ("settings:pref:ns:key:" ++ physical ++ ":" ++ "configuration")
      = none := by
    rw [← hW3, hget]
    simp only [hk, if_false]
    exact hcC
  have hn3 : w3.st.namespaces physical = some { Name := physical } := by
    rw [← hW3, hget]
    exact hn2
  have hp3 : w3.st.preferences physical "configuration"
      = some (Preference.mk physical "configuration" (codec.Marshal config).1 0 0) := by
    rw [← hW3, hget]
    exact hp2
  have hlog3 : w3.log = w2.log ++
      [.cacheGet ("settings:pref:ns:key:" ++ "system" ++ ":" ++ logical),
        .prefFindByNsAndKey "system" logical,
        .cacheSet ("settings:pref:ns:key:" ++ "system" ++ ":" ++ logical)
          (.pref (Preference.mk "system" logical
            (codec.Marshal (codec.ofString physical)).1 0 0))
          ["settings:pref:tag:" ++ "system" ++ ":" ++ logical]] := by
    rw [← hW3, hget]
  -- the configuration is read
  have hload := mem_loaderLoadConfig_miss codec cfg physical out
    (Preference.mk physical "configuration" (codec.Marshal config).1 0 0) { Name := physical }
    w3 hcB3 hcC3 hn3 hp3
  rw [hrt'] at hload
  refine ⟨?_, ?_, ?_⟩
  · show (ConfigurerLoader.LoadConfigByNamespace codec _ logical out _).1 = (config, none)
    simp only [ConfigurerLoader.LoadConfigByNamespace, ConfigurerLoader.GetNamespaceValue,
      ConfigurerLoader.LoadConfig, NewConfigurerLoader, Loader.toService,
      Loader.GetNamespaceValue, M.bind_apply, M.pure_apply, hget1, hload]
  · show (ConfigurerLoader.LoadConfigByNamespace codec _ logical out _).2.log = _
    simp only [ConfigurerLoader.LoadConfigByNamespace, ConfigurerLoader.GetNamespaceValue,
      ConfigurerLoader.LoadConfig, NewConfigurerLoader, Loader.toService,
      Loader.GetNamespaceValue, M.bind_apply, M.pure_apply, hget1, hload, hlog3,
      indirectionCalls, List.append_assoc, List.cons_append, List.nil_append]
  · intro hne
    have hne' : ¬ (logical = "system" ∧ "configuration" = logical) := by
      rintro ⟨h1, h2⟩
      rw [h1] at h2
      exact absurd h2 (by decide)
    simp [indirectionCalls, hne, hne']

/-- Witness of C11, amended, in the reachable world `World.staleCache`: after
`SetNamespaceValue("logical", "physical")` and
`SaveConfig("physical", {"plan":"pro"})`, `LoadConfigByNamespace("logical")`
yields `{"plan":"pro"}`. -/
theorem C11_indirection_through_alias_witness :
    Reachable jsonCodec World.staleCache
    ∧ (((memEnv (MemConfigurer.none JVal)).service jsonCodec).SetNamespaceValue "logical"
        "physical" World.staleCache).1 = none
    ∧ (((memEnv (MemConfigurer.none JVal)).service jsonCodec).SaveConfig "physical"
        (.obj [("plan", "pro")])
        (((memEnv (MemConfigurer.none JVal)).service jsonCodec).SetNamespaceValue "logical"
          "physical" World.staleCache).2).1 = none
    ∧ (((memEnv (MemConfigurer.none JVal)).service jsonCodec).LoadConfigByNamespace "logical"
        (.obj [])
        (((memEnv (MemConfigurer.none JVal)).service jsonCodec).SaveConfig "physical"
          (.obj [("plan", "pro")])
          (((memEnv (MemConfigurer.none JVal)).service jsonCodec).SetNamespaceValue "logical"
            "physical" World.staleCache).2).2).1 = (.obj [("plan", "pro")], none) := by
  have hr : Reachable jsonCodec World.staleCache :=
    .step _ _ _ (.step _ _ _ (.step _ _ _ (.step _ _ _ (.init _ (fun _ => rfl)))))
  exact ⟨hr, by decide, by decide,
    (C11_indirection_through_alias jsonCodec (MemConfigurer.none JVal) World.staleCache
      "logical" "physical" (.obj [("plan", "pro")]) (.obj []) hr (by decide) (by decide)
      (by decide) (by decide) (by decide)).1⟩

/-! ## Integers through the JSON fragment -/

theorem intText_eq_toString (n : Int) : intText n = toString n := by
  cases n <;> rfl

theorem digitChar_facts : ∀ k, k < 10 →
    (Nat.digitChar k).isDigit = true ∧ (Nat.digitChar k).toNat - 48 = k
      ∧ (k ≠ 0 → Nat.digitChar k ≠ '0') := by
  decide

theorem digitsValue_append (acc : Nat) (xs ys : List Char) :
    digitsValue acc (xs ++ ys) = (digitsValue acc xs).bind (fun a => digitsValue a ys) := by
  induction xs generalizing acc with
  | nil => simp [digitsValue]
  | cons c rest ih =>
    simp only [List.cons_append, digitsValue]
    split
    · exact ih _
    · rfl

theorem toDigitsCore_spec (fuel : Nat) : ∀ (n : Nat) (ds : List Char), n < fuel →
    ∃ xs, Nat.toDigitsCore 10 fuel n ds = xs ++ ds ∧ xs ≠ []
      ∧ (∀ c ∈ xs, c.isDigit = true)
      ∧ (∀ acc, digitsValue acc xs = some (acc * 10 ^ xs.length + n))
      ∧ (n ≠ 0 → xs.head? ≠ some '0')
      ∧ (n = 0 → xs = ['0']) := by
  induction fuel with
  | zero => intro n ds h; omega
  | succ fuel ih =>
    intro n ds h
    simp only [Nat.toDigitsCore]
    by_cases h0 : n / 10 = 0
    · simp only [h0, if_true]
      have hn : n < 10 := by omega
      have hmod : n % 10 = n := Nat.mod_eq_of_lt hn
      obtain ⟨f1, f2, f3⟩ := digitChar_facts n hn
      refine ⟨[Nat.digitChar n], by simp [hmod], by simp, ?_, ?_, ?_, ?_⟩
      · intro c hc
        simp at hc
        rw [hc]; exact f1
      · intro acc
        simp [digitsValue, f1, f2]
      · intro hne
        simp
        exact f3 hne
      · intro hz
        subst hz
        rfl
    · simp only [h0, if_false]
      have hlt : n / 10 < fuel := by omega
      obtain ⟨xs, e1, e2, e3, e4, e5, e6⟩ := ih (n / 10) (Nat.digitChar (n % 10) :: ds) hlt
      have hm : n % 10 < 10 := Nat.mod_lt _ (by decide)
      obtain ⟨f1, f2, f3⟩ := digitChar_facts (n % 10) hm
      refine ⟨xs ++ [Nat.digitChar (n % 10)], by simp [e1], by simp, ?_, ?_, ?_, ?_⟩
      · intro c hc
        rcases List.mem_append.mp hc with h1 | h1
        · exact e3 c h1
        · simp at h1
          rw [h1]; exact f1
      · intro acc
        rw [digitsValue_append, e4 acc]
        simp only [Option.some_bind, digitsValue, f1, if_true, f2, List.length_append,
          List.length_singleton]
        congr 1
        have := Nat.div_add_mod n 10
        rw [pow_succ]
        nlinarith [this]
      · intro _
        have := e5 h0
        cases xs with
        | nil => exact absurd rfl e2
        | cons x rest => simpa using this
      · intro hz
        omega

theorem readNat_toDigits (n : Nat) : readNat (Nat.toDigits 10 n) = some n := by
  obtain ⟨xs, e1, e2, e3, e4, e5, e6⟩ := toDigitsCore_spec (n + 1) n [] (by omega)
  have hx : Nat.toDigits 10 n = xs := by simpa [Nat.toDigits] using e1
  rw [hx]
  unfold readNat
  simp only [e2, if_false]
  by_cases hz : n = 0
  · rw [e6 hz, hz]
    decide
  · have := e5 hz
    simp only [this, false_and, if_false]
    rw [e4 0]
    simp

theorem toDigits_head (n : Nat) : (Nat.toDigits 10 n).head? ≠ some '-' := by
  obtain ⟨xs, e1, e2, e3, e4, e5, e6⟩ := toDigitsCore_spec (n + 1) n [] (by omega)
  have hx : Nat.toDigits 10 n = xs := by simpa [Nat.toDigits] using e1
  rw [hx]
  cases xs with
  | nil => exact absurd rfl e2
  | cons x rest =>
    simp only [List.head?_cons, ne_eq, Option.some.injEq]
    intro h
    have := e3 x (by simp)
    rw [h] at this
    exact absurd this (by decide)

theorem readInt_intText (n : Int) : readInt (intText n).data = some n := by
  cases n with
  | ofNat m =>
    simp only [intText, readInt, toDigits_head, if_false, readNat_toDigits]
    rfl
  | negSucc m =>
    simp only [intText, readInt, List.head?_cons, if_true, List.tail_cons, readNat_toDigits]
    rfl

theorem jsonCodec_Decode_intText (n : Int) (out : JVal) :
    jsonCodec.Decode (intText n) out = (.number (intText n), none) := by
  show ((NewDecoder (intText n)).UseNumber).Decode out = _
  simp only [Decoder.Decode, NewDecoder, Decoder.UseNumber, parse, readInt_intText]
  rfl

theorem decodeInt_intText (n : Int) (bits : Nat) (target : Int)
    (h1 : -(2 ^ (bits - 1) : Int) ≤ n) (h2 : n < 2 ^ (bits - 1)) :
    ((NewDecoder (intText n)).UseNumber).DecodeInt bits target = (n, none) := by
  simp only [Decoder.DecodeInt, NewDecoder, Decoder.UseNumber, readInt_intText, h1, h2,
    and_self, if_true]

/-- C18: for every integer `n`, `SetValue(n)` succeeds and stores the decimal
text of `n`; `LoadValue` into an untyped target then yields the `json.Number`
whose text is that decimal text, and `LoadValue` into a signed integer target
of `bits` bits that can hold `n` yields `n`. -/
theorem C18_integer_round_trip (n : Int) (p : Preference) (out : JVal) (bits : Nat)
    (target : Int) :
    (Preference.SetValue jsonCodec p (.int n)).2 = none
    ∧ (Preference.SetValue jsonCodec p (.int n)).1.Value = toString n
    ∧ Preference.LoadValue jsonCodec (Preference.SetValue jsonCodec p (.int n)).1 out
      = (.number (toString n), none)
    ∧ (-(2 ^ (bits - 1) : Int) ≤ n → n < 2 ^ (bits - 1) →
      Preference.LoadValueInt (Preference.SetValue jsonCodec p (.int n)).1 bits target
        = (n, none)) := by
  have hv : (Preference.SetValue jsonCodec p (.int n)).1.Value = intText n := rfl
  refine ⟨rfl, ?_, ?_, ?_⟩
  · rw [hv, intText_eq_toString]
  · rw [← intText_eq_toString]
    exact jsonCodec_Decode_intText n out
  · intro h1 h2
    exact decodeInt_intText n bits target h1 h2

/-- Witness of C18: the integer `2^53 + 1`, which no `float64` holds, comes
back as the number literal `9007199254740993` and, into a 64-bit integer, as
itself. -/
theorem C18_integer_round_trip_witness :
    Preference.LoadValue jsonCodec
        (Preference.SetValue jsonCodec { Namespace := "billing", Key := "limit" }
          (.int 9007199254740993)).1 (.obj [])
      = (.number "9007199254740993", none)
    ∧ Preference.LoadValueInt
        (Preference.SetValue jsonCodec { Namespace := "billing", Key := "limit" }
          (.int 9007199254740993)).1 64 0 = (9007199254740993, none) := by
  have h := C18_integer_round_trip 9007199254740993 { Namespace := "billing", Key := "limit" }
    (.obj []) 64 0
  exact ⟨h.2.2.1.trans (by decide), h.2.2.2 (by decide) (by decide)⟩

theorem Decoder.Decode_without_UseNumber :
    (NewDecoder "9007199254740993").Decode (.obj [])
      = (.obj [], some (.leaf "float64 is outside the fragment"))
    ∧ ((NewDecoder "9007199254740993").UseNumber).Decode (.obj [])
      = (.number "9007199254740993", none) := by
  decide

end Settings
